import Mathlib

/-
Verification of the interactive key editor (g10/keyedit.c) against its
natural-language specification.  The keyblock is embedded as a list of
packet nodes; external crypto collaborators (check_key_signature,
make_keysig_packet, check_secret_key, protect_secret_key) are embedded as
oracles carried in the packet payloads or passed as parameters, following
the collaborator contracts of the spec.
-/

set_option maxHeartbeats 1000000

namespace Keyedit

/-- Per-node flag bits of keyedit.c (NODFLG_BADSIG bit 0, NODFLG_NOKEY bit 1,
NODFLG_SIGERR bit 2, NODFLG_MARK_A bit 4, NODFLG_SELUID bit 8, NODFLG_SELKEY
bit 9).  The C code keeps them in one machine word, and exactly these six
bits are ever set or read, so the embedding tracks the word as six named
booleans.  A C whole-word assignment such as node->flag = NODFLG_BADSIG
becomes the record with that one field true and every other field false. -/
structure NodeFlags where
  badsig : Bool := false
  nokey : Bool := false
  sigerr : Bool := false
  markA : Bool := false
  seluid : Bool := false
  selkey : Bool := false
deriving DecidableEq, Repr

/-- Result of the external check_key_signature collaborator for one signature,
carried as data on the signature packet (the verification result slot of the
spec data model).  The ok case also reports the selfsig output flag. -/
inductive SigCheck where
  | ok (selfsig : Bool)
  | badSign
  | noPubkey
  | otherErr
deriving DecidableEq, Repr

/-- Protection descriptor of a secret key (the sk->protect fields the code
writes: cipher algorithm and string-to-key parameters). -/
structure Protect where
  algo : Nat := 0
  s2kMode : Nat := 0
  s2kHash : Nat := 0
deriving DecidableEq, Repr

/-- Secret-key packet payload: identifying key id, current protection state,
the protection descriptor, and oracles standing for the external crypto
collaborators (whether is_secret_key_protected reports an unsupported
algorithm, whether check_secret_key would succeed on this key, and whether
protect_secret_key would succeed on it). -/
structure SecKeyPkt where
  keyid0 : Nat := 0
  keyid1 : Nat := 0
  isProt : Bool := false
  algoUnsupported : Bool := false
  unlockOk : Bool := true
  protectOk : Bool := true
  prot : Protect := {}
deriving DecidableEq, Repr

/-- OpenPGP packet kinds recognized by keyedit.c, carrying only the fields the
code reads or writes.  Key packets carry the 64-bit key id as two 32-bit
words, as keyid_from_pk and keyid_from_sk deliver it. -/
inductive Packet where
  | publicKey (keyid0 keyid1 : Nat)
  | publicSubkey (keyid0 keyid1 : Nat)
  | secretKey (sk : SecKeyPkt)
  | secretSubkey (sk : SecKeyPkt)
  | userId (name : List Nat)
  | signature (keyid0 keyid1 : Nat) (sigClass : Nat) (check : SigCheck)
deriving DecidableEq, Repr

/-- A keyblock node: a packet, the flag word, and the tombstone bit used by
the two-phase delete/commit protocol of the node store. -/
structure KbNode where
  pkt : Packet
  flag : NodeFlags := {}
  deleted : Bool := false
deriving DecidableEq, Repr

instance : Inhabited KbNode := ⟨{ pkt := Packet.userId [] }⟩

/-- A keyblock is the ordered node sequence, primary first. -/
abbrev Keyblock := List KbNode

def isUserIdNode (n : KbNode) : Bool :=
  match n.pkt with
  | .userId _ => true
  | _ => false

def isSignatureNode (n : KbNode) : Bool :=
  match n.pkt with
  | .signature _ _ _ _ => true
  | _ => false

def isPublicKeyNode (n : KbNode) : Bool :=
  match n.pkt with
  | .publicKey _ _ => true
  | _ => false

def isPublicSubkeyNode (n : KbNode) : Bool :=
  match n.pkt with
  | .publicSubkey _ _ => true
  | _ => false

def isSecretKeyNode (n : KbNode) : Bool :=
  match n.pkt with
  | .secretKey _ => true
  | _ => false

def isSecretSubkeyNode (n : KbNode) : Bool :=
  match n.pkt with
  | .secretSubkey _ => true
  | _ => false

/-- Name bytes of a user-id node (uid->name with uid->len). -/
def uidName (n : KbNode) : List Nat :=
  match n.pkt with
  | .userId nm => nm
  | _ => []

/-- The C test (sig_class & ~3) == 0x10: the class is one of the
certification classes 0x10..0x13.  Clearing the two low bits of the
byte-valued class is c - c % 4. -/
def certClass (c : Nat) : Bool := c - c % 4 = 16

/-- A signature node whose class passes the certification-class mask test. -/
def isCertSigNode (n : KbNode) : Bool :=
  match n.pkt with
  | .signature _ _ c _ => certClass c
  | _ => false

/-- Does a signature node carry the given signer key id (both 32-bit words
compared, as in sign_uids and menu_delkey)? -/
def sigMatchesKey (k0 k1 : Nat) (n : KbNode) : Bool :=
  match n.pkt with
  | .signature a b _ _ => a == k0 && b == k1
  | _ => false

/-- The verification-result slot of a signature node, when it is one. -/
def sigCheckOf (n : KbNode) : Option SigCheck :=
  match n.pkt with
  | .signature _ _ _ chk => some chk
  | _ => none

/-- A certification-class signature node that check_key_signature verifies
and reports as a self-signature: exactly the case in which
check_all_keysigs sets has_selfsig. -/
def isOkSelfsigNode (n : KbNode) : Bool :=
  isCertSigNode n &&
    match sigCheckOf n with
    | some (.ok s) => s
    | _ => false

/-- Key id of a key node, as keyid_from_pk or keyid_from_sk would return it. -/
def nodeKeyid (n : KbNode) : Nat × Nat :=
  match n.pkt with
  | .publicKey a b => (a, b)
  | .publicSubkey a b => (a, b)
  | .secretKey sk => (sk.keyid0, sk.keyid1)
  | .secretSubkey sk => (sk.keyid0, sk.keyid1)
  | _ => (0, 0)

/-! ## Node store operations.

Modelled from the spec: kbnode.c is not part of the given sources; spec
sections 3 and 4.1 specify tombstone deletion (delete sets a deleted bit,
commit compacts preserving order and the flags of surviving nodes) and
forward walks that skip deleted nodes. -/

/-- Modelled from the spec: delete_kbnode sets the tombstone bit. -/
def delete_kbnode (n : KbNode) : KbNode := { n with deleted := true }

/-- Modelled from the spec: commit_kbnode compacts the sequence, removing
deleted nodes and preserving the order and flags of the live ones. -/
def commit_kbnode (kb : Keyblock) : Keyblock := kb.filter (fun n => !n.deleted)

/-! ## Counters (count_uids, count_uids_with_flag, count_keys_with_flag,
count_selected_uids, count_selected_keys).  The C versions iterate the raw
node chain. -/

def count_uids (kb : Keyblock) : Nat :=
  kb.countP (fun n => isUserIdNode n)

def count_uids_with_flag (kb : Keyblock) (fl : NodeFlags → Bool) : Nat :=
  kb.countP (fun n => isUserIdNode n && fl n.flag)

def count_keys_with_flag (kb : Keyblock) (fl : NodeFlags → Bool) : Nat :=
  kb.countP (fun n => (isPublicSubkeyNode n || isSecretSubkeyNode n) && fl n.flag)

def count_selected_uids (kb : Keyblock) : Nat :=
  count_uids_with_flag kb (fun f => f.seluid)

def count_selected_keys (kb : Keyblock) : Nat :=
  count_keys_with_flag kb (fun f => f.selkey)

/-! ## menu_select_uid -/

/-- Validation pass of menu_select_uid: walk the node chain counting UserId
nodes and report whether the running count reaches the requested index. -/
def hasUidWithIndex : Keyblock → Nat → Nat → Bool
  | [], _, _ => false
  | n :: ns, i, idx =>
    if isUserIdNode n then
      if i + 1 = idx then true else hasUidWithIndex ns (i + 1) idx
    else hasUidWithIndex ns i idx

/-- The toggle applied to the found uid node: clear NODFLG_SELUID when set,
set it when clear. -/
def toggleSel (n : KbNode) : KbNode :=
  if n.flag.seluid then { n with flag := { n.flag with seluid := false } }
  else { n with flag := { n.flag with seluid := true } }

/-- Toggle pass of menu_select_uid: toggle NODFLG_SELUID on the index-th
UserId node, leaving every other node untouched. -/
def toggleUidPass : Keyblock → Nat → Nat → Keyblock
  | [], _, _ => []
  | n :: ns, i, idx =>
    if isUserIdNode n then
      (if i + 1 = idx then toggleSel n else n) :: toggleUidPass ns (i + 1) idx
    else n :: toggleUidPass ns i idx

/-- List position of the index-th (1-based) UserId node of the keyblock. -/
def uidPos : Keyblock → Nat → Option Nat
  | [], _ => none
  | n :: ns, idx =>
    if isUserIdNode n then
      if idx = 1 then some 0 else (uidPos ns (idx - 1)).map (· + 1)
    else (uidPos ns idx).map (· + 1)

/-- menu_select_uid: index 0 clears NODFLG_SELUID on every UserId node;
a valid positive index toggles the index-th UserId; an out-of-range index
reports not-found and changes nothing.  Returns whether the selection
changed, paired with the updated keyblock. -/
def menu_select_uid (kb : Keyblock) (index : Nat) : Bool × Keyblock :=
  if index ≠ 0 then
    if hasUidWithIndex kb 0 index then (true, toggleUidPass kb 0 index)
    else (false, kb)
  else
    (true, kb.map (fun n =>
      if isUserIdNode n then { n with flag := { n.flag with seluid := false } } else n))

/-! ## check_all_keysigs -/

/-- The local variables of the check_all_keysigs walk. -/
structure CheckState where
  inv_sigs : Nat := 0
  no_key : Nat := 0
  oth_err : Nat := 0
  has_selfsig : Bool := false
  mis_selfsig : Nat := 0
  anyuid : Bool := false
  selected : Bool := true
deriving DecidableEq, Repr

/-- One walk over the keyblock: visits live nodes in order, updating the
state at UserId nodes and rewriting the flag word of each visited
certification-class signature node according to the check_key_signature
result, exactly as the switch in check_all_keysigs does. -/
def checkWalk (os : Bool) : CheckState → Keyblock → Keyblock × CheckState
  | st, [] => ([], st)
  | st, n :: ns =>
    if n.deleted then
      let r := checkWalk os st ns
      (n :: r.1, r.2)
    else if isUserIdNode n then
      let sel := if os then n.flag.seluid else st.selected
      let st1 :=
        if sel then
          { st with selected := sel, anyuid := true, has_selfsig := false,
                    mis_selfsig := st.mis_selfsig +
                      (if st.anyuid && !st.has_selfsig then 1 else 0) }
        else { st with selected := sel }
      let r := checkWalk os st1 ns
      (n :: r.1, r.2)
    else if st.selected && isCertSigNode n then
      let upd : NodeFlags × CheckState :=
        match sigCheckOf n with
        | some (.ok s) =>
          ({ n.flag with badsig := false, nokey := false, sigerr := false },
           if s then { st with has_selfsig := true } else st)
        | some .badSign =>
          (⟨true, false, false, false, false, false⟩,
           { st with inv_sigs := st.inv_sigs + 1 })
        | some .noPubkey =>
          (⟨false, true, false, false, false, false⟩,
           { st with no_key := st.no_key + 1 })
        | some .otherErr =>
          (⟨false, false, true, false, false, false⟩,
           { st with oth_err := st.oth_err + 1 })
        | none => (n.flag, st)
      let r := checkWalk os upd.2 ns
      ({ n with flag := upd.1 } :: r.1, r.2)
    else
      let r := checkWalk os st ns
      (n :: r.1, r.2)

/-- Aggregate result of check_all_keysigs: the rewritten keyblock, the four
counters, and the boolean return (true iff any counter is nonzero). -/
structure CheckResult where
  kb : Keyblock
  inv_sigs : Nat
  no_key : Nat
  oth_err : Nat
  mis_selfsig : Nat
  anyError : Bool
deriving DecidableEq, Repr

/-- check_all_keysigs(keyblock, only_selected): run the walk with selected
initialized to the negation of only_selected, then apply the final
unconditional missing-selfsig check. -/
def check_all_keysigs (kb : Keyblock) (only_selected : Bool) : CheckResult :=
  let r := checkWalk only_selected { selected := !only_selected } kb
  let mis := r.2.mis_selfsig + (if r.2.has_selfsig then 0 else 1)
  { kb := r.1
    inv_sigs := r.2.inv_sigs
    no_key := r.2.no_key
    oth_err := r.2.oth_err
    mis_selfsig := mis
    anyError := (r.2.inv_sigs != 0) || (r.2.no_key != 0) || (r.2.oth_err != 0) || (mis != 0) }

/-- The selfsig output of check_key_signature for a signature node when its
result is ok (false for every error result or non-signature). -/
def sigSelfOk (n : KbNode) : Bool :=
  match sigCheckOf n with
  | some (SigCheck.ok s) => s
  | _ => false

/-- Does the signature group headed here (the nodes up to the next UserId
node) hold a verifying certification-class self-signature? -/
def groupHasSelfsig : Keyblock → Bool
  | [] => false
  | n :: ns =>
    if isUserIdNode n then false
    else if isOkSelfsigNode n then true
    else groupHasSelfsig ns

/-- For each uid the walk visits (every uid, or in only_selected mode the
selected ones), whether its signature group lacks a verifying
self-signature, in keyblock order. -/
def uidLacksList (os : Bool) : Keyblock → List Bool
  | [] => []
  | n :: ns =>
    if isUserIdNode n then
      if os && !n.flag.seluid then uidLacksList os ns
      else (!groupHasSelfsig ns) :: uidLacksList os ns
    else uidLacksList os ns

/-- Projection of the check walk onto the missing-selfsig computation: the
mis_selfsig increments still to come plus the final unconditional check,
as a function of the current selected, anyuid and has_selfsig state. -/
def misTail (os : Bool) : Bool → Bool → Bool → Keyblock → Nat
  | _, _, hs, [] => if hs then 0 else 1
  | sel, anyuid, hs, n :: ns =>
    if n.deleted then misTail os sel anyuid hs ns
    else if isUserIdNode n then
      if (if os then n.flag.seluid else sel) then
        (if anyuid && !hs then 1 else 0) +
          misTail os (if os then n.flag.seluid else sel) true false ns
      else misTail os (if os then n.flag.seluid else sel) anyuid hs ns
    else if sel && isCertSigNode n then
      misTail os sel anyuid (hs || sigSelfOk n) ns
    else misTail os sel anyuid hs ns

/-- One step of the selected-state automaton of the walk: a live UserId node
reassigns selected in only_selected mode, every other node leaves it. -/
def stepSel (os : Bool) (sel : Bool) (n : KbNode) : Bool :=
  if !n.deleted && isUserIdNode n then (if os then n.flag.seluid else sel) else sel

/-- The value of the selected variable after the walk has passed the given
node sequence, starting from sel. -/
def selBefore (os : Bool) : Bool → Keyblock → Bool
  | sel, [] => sel
  | sel, n :: ns => selBefore os (stepSel os sel n) ns

/-- Does the walk of check_all_keysigs visit (check and reflag) the node at
position i: the node is live, the selected state reaching it is set, and it
is a certification-class signature. -/
def visitedSig (os : Bool) (kb : Keyblock) (i : Nat) : Bool :=
  !(kb.getD i default).deleted && selBefore os (!os) (kb.take i)
    && isCertSigNode (kb.getD i default)

/-- The flag word check_all_keysigs writes on a visited signature node: the
error outcomes overwrite the whole word with the single matching error bit,
the ok outcome clears the three error bits and keeps the rest. -/
def flagAfterCheck (n : KbNode) : NodeFlags :=
  match sigCheckOf n with
  | some (SigCheck.ok _) => { n.flag with badsig := false, nokey := false, sigerr := false }
  | some SigCheck.badSign => ⟨true, false, false, false, false, false⟩
  | some SigCheck.noPubkey => ⟨false, true, false, false, false, false⟩
  | some SigCheck.otherErr => ⟨false, false, true, false, false, false⟩
  | none => n.flag

/-- Number of the three signature-error bits set in a flag word. -/
def errCount (f : NodeFlags) : Nat :=
  (if f.badsig then 1 else 0) + (if f.nokey then 1 else 0) + (if f.sigerr then 1 else 0)

/-! ## sign_uids

The external make_keysig_packet collaborator is embedded as an oracle
mks : Nat -> Bool indexed by a running call counter (each call may
independently fail); the produced packet is a class 0x10 certification
node carrying the signer key id.  The signer list built by build_sk_list
is a list of signer records carrying the key id and the operator answer
to the per-signer confirmation prompt. -/

/-- One usable signing key as delivered by build_sk_list, plus the operator
answer to the Really-sign confirmation for this signer. -/
structure Signer where
  keyid0 : Nat
  keyid1 : Nat
  answer : Bool := true
deriving DecidableEq, Repr

/-- Modelled from the spec: the signature node produced by
make_keysig_packet for a class 0x10 certification by the given signer,
inserted with a clear flag word (new_kbnode allocates flags clear). -/
def newCertSigNode (k0 k1 : Nat) : KbNode :=
  { pkt := Packet.signature k0 k1 16 (SigCheck.ok false) }

/-- Mark pass of sign_uids: set NODFLG_MARK_A on every node when select_all,
else on nodes carrying NODFLG_SELUID, clearing it on all others. -/
def markPhase (select_all : Bool) (kb : Keyblock) : Keyblock :=
  kb.map (fun n =>
    if select_all || n.flag.seluid then { n with flag := { n.flag with markA := true } }
    else { n with flag := { n.flag with markA := false } })

/-- Scan the nodes following a user id (up to the next UserId node, where the
uidnode pointer is reassigned) for a certification-class signature by the
given signer key id. -/
def hasCertBySigner (k0 k1 : Nat) : Keyblock → Bool
  | [] => false
  | n :: ns =>
    if isUserIdNode n then false
    else if isCertSigNode n && sigMatchesKey k0 k1 n then true
    else hasCertBySigner k0 k1 ns

/-- Already-signed pass of sign_uids: clear NODFLG_MARK_A on each marked
user id whose following signature group already holds a certification by
the signer key id. -/
def clearAlreadySigned (k0 k1 : Nat) : Keyblock → Keyblock
  | [] => []
  | n :: ns =>
    if isUserIdNode n && n.flag.markA && hasCertBySigner k0 k1 ns then
      { n with flag := { n.flag with markA := false } } :: clearAlreadySigned k0 k1 ns
    else n :: clearAlreadySigned k0 k1 ns

/-- State of the signer loop of sign_uids: the keyblock, the
make_keysig_packet call counter, the ret_modified and upd_trust flags, the
primary_pk pointer value (none models both the uninitialized and the NULL
pointer), and whether a signing failure has jumped to the leave label. -/
structure SignState where
  kb : Keyblock
  calls : Nat := 0
  modified : Bool := false
  upd_trust : Bool := false
  primary_pk : Option (Nat × Nat) := none
  failed : Bool := false
deriving DecidableEq, Repr

/-- Split the keyblock at the first UserId node carrying NODFLG_MARK_A, as
one pass of the reloop scan finds it. -/
def splitAtMarkedUid : Keyblock → Option (Keyblock × KbNode × Keyblock)
  | [] => none
  | n :: ns =>
    if isUserIdNode n && n.flag.markA then some ([], n, ns)
    else
      match splitAtMarkedUid ns with
      | none => none
      | some (pre, u, suf) => some (n :: pre, u, suf)

/-- The primary_pk value produced by scanning a node sequence: the key id of
the last PublicKey node seen, starting from the given value. -/
def lastPubkeyFrom (pk : Option (Nat × Nat)) (kb : Keyblock) : Option (Nat × Nat) :=
  kb.foldl (fun acc n =>
    match n.pkt with
    | .publicKey a b => some (a, b)
    | _ => acc) pk

/-- Number of UserId nodes carrying NODFLG_MARK_A. -/
def countMarkedUids (kb : Keyblock) : Nat :=
  count_uids_with_flag kb (fun f => f.markA)

theorem splitAtMarkedUid_eq {kb pre suf : Keyblock} {u : KbNode}
    (h : splitAtMarkedUid kb = some (pre, u, suf)) :
    kb = pre ++ u :: suf ∧ isUserIdNode u = true ∧ u.flag.markA = true := by
  induction kb generalizing pre with
  | nil => simp [splitAtMarkedUid] at h
  | cons n ns ih =>
    rw [splitAtMarkedUid] at h
    by_cases hn : (isUserIdNode n && n.flag.markA) = true
    · rw [if_pos hn] at h
      simp only [Option.some.injEq, Prod.mk.injEq] at h
      obtain ⟨rfl, rfl, rfl⟩ := h
      rw [Bool.and_eq_true] at hn
      exact ⟨rfl, hn.1, hn.2⟩
    · rw [if_neg hn] at h
      cases hsplit : splitAtMarkedUid ns with
      | none => rw [hsplit] at h; simp at h
      | some r =>
        obtain ⟨pre2, u2, suf2⟩ := r
        rw [hsplit] at h
        simp only [Option.some.injEq, Prod.mk.injEq] at h
        obtain ⟨rfl, rfl, rfl⟩ := h
        obtain ⟨he, hu, hm⟩ := ih hsplit
        exact ⟨by simp [he], hu, hm⟩

theorem countMarkedUids_append (a b : Keyblock) :
    countMarkedUids (a ++ b) = countMarkedUids a + countMarkedUids b := by
  simp [countMarkedUids, count_uids_with_flag, List.countP_append]

theorem countMarkedUids_cons (n : KbNode) (kb : Keyblock) :
    countMarkedUids (n :: kb) =
      (if isUserIdNode n && n.flag.markA then 1 else 0) + countMarkedUids kb := by
  simp only [countMarkedUids, count_uids_with_flag, List.countP_cons]
  by_cases h : (isUserIdNode n && n.flag.markA) = true
  · simp [h]; omega
  · simp [h]

theorem isUserIdNode_mk_pkt (n : KbNode) (f : NodeFlags) (d : Bool) :
    isUserIdNode { pkt := n.pkt, flag := f, deleted := d } = isUserIdNode n := rfl

/-- The reloop of sign_uids: repeatedly rescan from the head for the first
marked user id; clear its mark, call make_keysig_packet, and on success
insert the new certification node right after the uid and restart; on
failure jump to leave.  When a scan finds no marked uid the loop ends with
primary_pk holding the last PublicKey of the full scan. -/
def signReloop (mks : Nat → Bool) (k0 k1 : Nat) (st : SignState) : SignState :=
  match h : splitAtMarkedUid st.kb with
  | none => { st with primary_pk := lastPubkeyFrom none st.kb }
  | some (pre, u, suf) =>
    let u2 : KbNode := { u with flag := { u.flag with markA := false } }
    if mks st.calls then
      signReloop mks k0 k1
        { st with kb := pre ++ u2 :: newCertSigNode k0 k1 :: suf,
                  calls := st.calls + 1, modified := true, upd_trust := true }
    else
      { st with kb := pre ++ u2 :: suf, calls := st.calls + 1, failed := true,
                primary_pk := lastPubkeyFrom none pre }
termination_by countMarkedUids st.kb
decreasing_by
  obtain ⟨he, hu, hm⟩ := splitAtMarkedUid_eq h
  rw [he]
  simp only [countMarkedUids, count_uids_with_flag, List.countP_append, List.countP_cons]
  simp only [isUserIdNode_mk_pkt, hu, hm]
  simp [newCertSigNode, isUserIdNode]

theorem splitAtMarkedUid_none {kb : Keyblock} :
    splitAtMarkedUid kb = none ↔ countMarkedUids kb = 0 := by
  induction kb with
  | nil => simp [splitAtMarkedUid, countMarkedUids, count_uids_with_flag]
  | cons n ns ih =>
    rw [splitAtMarkedUid, countMarkedUids_cons]
    by_cases hn : (isUserIdNode n && n.flag.markA) = true
    · simp [hn]
    · rw [if_neg hn, if_neg hn]
      cases hsplit : splitAtMarkedUid ns with
      | none => simpa [hsplit] using ih.mp hsplit
      | some r =>
        obtain ⟨pre, u, suf⟩ := r
        have hne : countMarkedUids ns ≠ 0 := by
          intro h0
          rw [ih.mpr h0] at hsplit
          exact absurd hsplit (by simp)
        simp [hsplit]
        omega

/-- Fuel-indexed mirror of signReloop, structurally recursive so that
concrete runs evaluate inside the kernel; signReloopF_eq shows it agrees
with signReloop whenever the fuel covers the marked-uid count. -/
def signReloopF (mks : Nat → Bool) (k0 k1 : Nat) : Nat → SignState → SignState
  | fuel, st =>
    match splitAtMarkedUid st.kb with
    | none => { st with primary_pk := lastPubkeyFrom none st.kb }
    | some (pre, u, suf) =>
      match fuel with
      | 0 => st
      | fuel' + 1 =>
        let u2 : KbNode := { u with flag := { u.flag with markA := false } }
        if mks st.calls then
          signReloopF mks k0 k1 fuel'
            { st with kb := pre ++ u2 :: newCertSigNode k0 k1 :: suf,
                      calls := st.calls + 1, modified := true, upd_trust := true }
        else
          { st with kb := pre ++ u2 :: suf, calls := st.calls + 1, failed := true,
                    primary_pk := lastPubkeyFrom none pre }

theorem signReloopF_eq (mks : Nat → Bool) (k0 k1 : Nat) :
    ∀ (fuel : Nat) (st : SignState), countMarkedUids st.kb ≤ fuel →
      signReloopF mks k0 k1 fuel st = signReloop mks k0 k1 st := by
  intro fuel
  induction fuel with
  | zero =>
    intro st hle
    have h0 : countMarkedUids st.kb = 0 := Nat.le_zero.mp hle
    have hs : splitAtMarkedUid st.kb = none := splitAtMarkedUid_none.mpr h0
    rw [signReloopF, signReloop, hs]
  | succ fuel ih =>
    intro st hle
    rw [signReloopF, signReloop]
    cases hs : splitAtMarkedUid st.kb with
    | none => rfl
    | some r =>
      obtain ⟨pre, u, suf⟩ := r
      dsimp only
      obtain ⟨he, hu, hm⟩ := splitAtMarkedUid_eq hs
      by_cases hmks : mks st.calls = true
      · rw [if_pos hmks, if_pos hmks]
        apply ih
        have hc : countMarkedUids (pre ++ u :: suf) ≤ fuel + 1 := he ▸ hle
        have h3 : isUserIdNode (newCertSigNode k0 k1) = false := rfl
        simp only [countMarkedUids, count_uids_with_flag, List.countP_append,
          List.countP_cons] at hc ⊢
        simp only [isUserIdNode_mk_pkt, h3, hu, hm] at hc ⊢
        simp at hc ⊢
        omega
      · rw [if_neg hmks, if_neg hmks]

/-- One iteration of the signer loop of sign_uids: skip everything once a
failure has jumped to leave; otherwise run the mark pass, the
already-signed pass, the nothing-to-sign check, the confirmation, and the
signing reloop. -/
def signOneSigner (mks : Nat → Bool) (select_all : Bool) (st : SignState) (s : Signer) :
    SignState :=
  if st.failed then st
  else
    let kb2 := clearAlreadySigned s.keyid0 s.keyid1 (markPhase select_all st.kb)
    if count_uids_with_flag kb2 (fun f => f.markA) = 0 then { st with kb := kb2 }
    else if !s.answer then { st with kb := kb2 }
    else signReloop mks s.keyid0 s.keyid1 { st with kb := kb2 }

/-- Observable outcome of sign_uids: final keyblock, the ret_modified output,
whether the call returned a failure, and whether
clear_trust_checked_flag was invoked on the primary. -/
structure SignUidsResult where
  kb : Keyblock
  modified : Bool
  failed : Bool
  trust_cleared : Bool
deriving DecidableEq, Repr

/-- sign_uids: build the signer list (skListOk models build_sk_list
success), compute select_all from the selected-uid count once, fold the
signer loop, and afterwards clear the cached trust flag iff upd_trust is
set and the primary_pk pointer is non-null; a signing failure leaves
before that update. -/
def sign_uids (mks : Nat → Bool) (skListOk : Bool) (signers : List Signer)
    (kb : Keyblock) (ret_modified : Bool) : SignUidsResult :=
  if !skListOk then { kb := kb, modified := ret_modified, failed := true, trust_cleared := false }
  else
    let select_all := count_selected_uids kb == 0
    let st := signers.foldl (signOneSigner mks select_all) { kb := kb }
    if st.failed then
      { kb := st.kb, modified := ret_modified || st.modified, failed := true,
        trust_cleared := false }
    else
      { kb := st.kb, modified := ret_modified || st.modified, failed := false,
        trust_cleared := st.upd_trust && st.primary_pk.isSome }

/-- Kernel-evaluable mirror of signOneSigner, using the fuel-indexed reloop
with exactly the marked-uid count as fuel. -/
def signOneSignerF (mks : Nat → Bool) (select_all : Bool) (st : SignState) (s : Signer) :
    SignState :=
  if st.failed then st
  else
    let kb2 := clearAlreadySigned s.keyid0 s.keyid1 (markPhase select_all st.kb)
    if count_uids_with_flag kb2 (fun f => f.markA) = 0 then { st with kb := kb2 }
    else if !s.answer then { st with kb := kb2 }
    else signReloopF mks s.keyid0 s.keyid1 (countMarkedUids kb2) { st with kb := kb2 }

theorem signOneSignerF_eq (mks : Nat → Bool) (select_all : Bool) (st : SignState) (s : Signer) :
    signOneSignerF mks select_all st s = signOneSigner mks select_all st s := by
  unfold signOneSignerF signOneSigner
  by_cases hf : st.failed = true
  · simp [hf]
  · simp only [hf]
    exact if_congr Iff.rfl rfl (if_congr Iff.rfl rfl (if_congr Iff.rfl rfl
      (signReloopF_eq mks s.keyid0 s.keyid1 _ _ (Nat.le_refl _))))

/-- Kernel-evaluable mirror of sign_uids; sign_uidsF_eq shows it agrees with
sign_uids everywhere. -/
def sign_uidsF (mks : Nat → Bool) (skListOk : Bool) (signers : List Signer)
    (kb : Keyblock) (ret_modified : Bool) : SignUidsResult :=
  if !skListOk then { kb := kb, modified := ret_modified, failed := true, trust_cleared := false }
  else
    let select_all := count_selected_uids kb == 0
    let st := signers.foldl (signOneSignerF mks select_all) { kb := kb }
    if st.failed then
      { kb := st.kb, modified := ret_modified || st.modified, failed := true,
        trust_cleared := false }
    else
      { kb := st.kb, modified := ret_modified || st.modified, failed := false,
        trust_cleared := st.upd_trust && st.primary_pk.isSome }

theorem sign_uidsF_eq (mks : Nat → Bool) (skListOk : Bool) (signers : List Signer)
    (kb : Keyblock) (ret_modified : Bool) :
    sign_uidsF mks skListOk signers kb ret_modified =
      sign_uids mks skListOk signers kb ret_modified := by
  unfold sign_uidsF sign_uids
  have hfun : signOneSignerF mks (count_selected_uids kb == 0) =
      signOneSigner mks (count_selected_uids kb == 0) := by
    funext st s
    exact signOneSignerF_eq mks (count_selected_uids kb == 0) st s
  simp only [hfun]

/-! ## menu_adduid -/

/-- The pk found by the adduid scan of the public block: the last PublicKey
seen before the first PublicSubkey (or before the end). -/
def adduidFindPk : Option (Nat × Nat) → Keyblock → Option (Nat × Nat)
  | acc, [] => acc
  | acc, n :: ns =>
    match n.pkt with
    | .publicKey a b => adduidFindPk (some (a, b)) ns
    | .publicSubkey _ _ => acc
    | _ => adduidFindPk acc ns

/-- The sk found by the adduid scan of the secret block: the last SecretKey
seen before the first SecretSubkey (or before the end). -/
def adduidFindSk : Option SecKeyPkt → Keyblock → Option SecKeyPkt
  | acc, [] => acc
  | acc, n :: ns =>
    match n.pkt with
    | .secretKey sk => adduidFindSk (some sk) ns
    | .secretSubkey _ => acc
    | _ => adduidFindSk acc ns

/-- Modelled from the spec: the class 0x13 self-signature node produced by
make_keysig_packet over (primary, uid) with the primary secret key as
signer. -/
def selfSigNode (sk : SecKeyPkt) : KbNode :=
  { pkt := Packet.signature sk.keyid0 sk.keyid1 19 (SigCheck.ok true) }

/-- Modelled from the spec: insertion of the new uid node and its
self-signature just before the first subkey of the block, or appended at
the end when the scan found no insertion point (insert_kbnode after the
predecessor of the first subkey, else add_kbnode). -/
def insertUidSig (isSub : KbNode → Bool) (uidN sigN : KbNode) (kb : Keyblock) : Keyblock :=
  let pre := kb.takeWhile (fun n => !isSub n)
  let post := kb.dropWhile (fun n => !isSub n)
  if pre.isEmpty then kb ++ [uidN, sigN] else pre ++ uidN :: sigN :: post

/-- menu_adduid: collect the new uid name (generate_user_id output is the
newName parameter), locate the insertion points, produce the
self-signature (mkOk models make_keysig_packet success), and insert the
uid node followed by its self-signature into both blocks.  Returns whether
a user id was added.  A missing primary key (the C assert) and a signing
failure both leave the blocks unchanged. -/
def menu_adduid (newName : List Nat) (mkOk : Bool) (pub sec : Keyblock) :
    Bool × Keyblock × Keyblock :=
  match adduidFindPk none pub, adduidFindSk none sec with
  | some _, some sk =>
    if mkOk then
      let uidN : KbNode := { pkt := Packet.userId newName }
      let sigN := selfSigNode sk
      (true, insertUidSig isPublicSubkeyNode uidN sigN pub,
        insertUidSig isSecretSubkeyNode uidN sigN sec)
    else (false, pub, sec)
  | _, _ => (false, pub, sec)

/-! ## menu_deluid -/

/-- The secret-block scan run for one deleted public uid: mark deleted every
secret uid with identical name bytes and the signatures following it, the
match state being reset at SecretSubkey nodes. -/
def deluidSecMark (name : List Nat) : Bool → Keyblock → Keyblock
  | _, [] => []
  | s, n :: ns =>
    if isUserIdNode n then
      let s2 := uidName n == name
      (if s2 then delete_kbnode n else n) :: deluidSecMark name s2 ns
    else if s && isSignatureNode n then
      delete_kbnode n :: deluidSecMark name s ns
    else if isSecretSubkeyNode n then
      n :: deluidSecMark name false ns
    else
      n :: deluidSecMark name s ns

/-- The public-block walk of menu_deluid: delete each uid carrying
NODFLG_SELUID together with its following signatures (the selected state
being reset at PublicSubkey nodes), running the secret-block scan for each
deleted uid when a secret block is present. -/
def deluidWalk : Bool → Keyblock → Option Keyblock → Keyblock × Option Keyblock
  | _, [], sec => ([], sec)
  | sel, n :: ns, sec =>
    if isUserIdNode n then
      let sel2 := n.flag.seluid
      let sec2 := if sel2 then sec.map (deluidSecMark (uidName n) false) else sec
      let r := deluidWalk sel2 ns sec2
      ((if sel2 then delete_kbnode n else n) :: r.1, r.2)
    else if sel && isSignatureNode n then
      let r := deluidWalk sel ns sec
      (delete_kbnode n :: r.1, r.2)
    else if isPublicSubkeyNode n then
      let r := deluidWalk false ns sec
      (n :: r.1, r.2)
    else
      let r := deluidWalk sel ns sec
      (n :: r.1, r.2)

/-- menu_deluid: run the walk and commit both blocks. -/
def menu_deluid (pub : Keyblock) (sec : Option Keyblock) : Keyblock × Option Keyblock :=
  let r := deluidWalk false pub sec
  (commit_kbnode r.1, r.2.map commit_kbnode)

/-! ## menu_delkey -/

/-- The secret-block scan run for one deleted public subkey: mark deleted
every secret subkey whose key id matches and the signatures following it,
the match state being reset at every other node kind. -/
def delkeySecMark (ki : Nat × Nat) : Bool → Keyblock → Keyblock
  | _, [] => []
  | s, n :: ns =>
    if isSecretSubkeyNode n then
      let s2 := nodeKeyid n == ki
      (if s2 then delete_kbnode n else n) :: delkeySecMark ki s2 ns
    else if s && isSignatureNode n then
      delete_kbnode n :: delkeySecMark ki s ns
    else
      n :: delkeySecMark ki false ns

/-- The public-block walk of menu_delkey: delete each PublicSubkey carrying
NODFLG_SELKEY together with its following signatures, the selected state
being reset at every other node kind; for each deleted subkey, run the
secret-block scan by key id when a secret block is present. -/
def delkeyWalk : Bool → Keyblock → Option Keyblock → Keyblock × Option Keyblock
  | _, [], sec => ([], sec)
  | sel, n :: ns, sec =>
    if isPublicSubkeyNode n then
      let sel2 := n.flag.selkey
      let sec2 := if sel2 then sec.map (delkeySecMark (nodeKeyid n) false) else sec
      let r := delkeyWalk sel2 ns sec2
      ((if sel2 then delete_kbnode n else n) :: r.1, r.2)
    else if sel && isSignatureNode n then
      let r := delkeyWalk sel ns sec
      (delete_kbnode n :: r.1, r.2)
    else
      let r := delkeyWalk false ns sec
      (n :: r.1, r.2)

/-- menu_delkey: run the walk and commit both blocks. -/
def menu_delkey (pub : Keyblock) (sec : Option Keyblock) : Keyblock × Option Keyblock :=
  let r := delkeyWalk false pub sec
  (commit_kbnode r.1, r.2.map commit_kbnode)

/-! ## The pairing invariant -/

/-- The uid names of a keyblock, in order. -/
def uidNames (kb : Keyblock) : List (List Nat) :=
  (kb.filter (fun n => isUserIdNode n)).map uidName

/-- The subkey key ids of a keyblock (public or secret subkeys), in order. -/
def subkeyIds (kb : Keyblock) : List (Nat × Nat) :=
  (kb.filter (fun n => isPublicSubkeyNode n || isSecretSubkeyNode n)).map nodeKeyid

/-- Pairing invariant between the public and the secret keyblock: every uid
name of the public block occurs in the secret block, and every subkey key
id of either block occurs in the other. -/
def paired (pub sec : Keyblock) : Prop :=
  (∀ nm ∈ uidNames pub, nm ∈ uidNames sec) ∧
  (∀ k ∈ subkeyIds pub, k ∈ subkeyIds sec) ∧
  (∀ k ∈ subkeyIds sec, k ∈ subkeyIds pub)

instance (pub sec : Keyblock) : Decidable (paired pub sec) := by
  unfold paired; infer_instance

/-- Pairing for an optional secret block: trivially true when no secret
block is loaded. -/
def pairedOpt : Keyblock × Option Keyblock → Prop
  | (_, none) => True
  | (pub, some sec) => paired pub sec

instance (p : Keyblock × Option Keyblock) : Decidable (pairedOpt p) := by
  unfold pairedOpt
  match p with
  | (_, none) => exact inferInstanceAs (Decidable True)
  | (pub, some sec) => exact inferInstanceAs (Decidable (paired pub sec))

/-! ## change_passphrase -/

/-- One outcome of the passphrase_to_dek prompt loop: a repeat mismatch
(returns null and re-prompts), an empty passphrase with the operator
answer to the do-you-really-want-this confirmation, or a derived key with
its cipher algorithm and the configured string-to-key parameters. -/
inductive PwOutcome where
  | mismatch
  | empty (confirm : Bool)
  | goodPass (algo s2kMode s2kHash : Nat)
deriving DecidableEq, Repr

/-- Payload of a SecretKey node, none for any other packet kind. -/
def secKeyPayload (n : KbNode) : Option SecKeyPkt :=
  match n.pkt with
  | .secretKey sk => some sk
  | _ => none

/-- Payload of a SecretSubkey node, none for any other packet kind. -/
def secSubkeyPayload (n : KbNode) : Option SecKeyPkt :=
  match n.pkt with
  | .secretSubkey sk => some sk
  | _ => none

/-- First SecretKey payload of the block, as find_kbnode(PKT_SECRET_KEY)
finds it. -/
def findSecKey : Keyblock → Option SecKeyPkt
  | [] => none
  | n :: ns =>
    match secKeyPayload n with
    | some sk => some sk
    | none => findSecKey ns

/-- Probe and unlock of the primary secret key (is_secret_key_protected
followed by check_secret_key).  Modelled from the spec: check_secret_key
decrypts the protection in place, so a successful unlock leaves the key
unprotected in memory.  Returns whether rc stayed zero, with the updated
payload. -/
def unlockPrimary (sk : SecKeyPkt) : Bool × SecKeyPkt :=
  if sk.algoUnsupported then (false, sk)
  else if sk.isProt then
    if sk.unlockOk then (true, { sk with isProt := false }) else (false, sk)
  else (true, sk)

/-- Replace the first SecretKey payload of the block. -/
def replaceFirstSecKey (f : SecKeyPkt → SecKeyPkt) : Keyblock → Keyblock
  | [] => []
  | n :: ns =>
    match secKeyPayload n with
    | some sk => { n with pkt := Packet.secretKey (f sk) } :: ns
    | none => n :: replaceFirstSecKey f ns

/-- The subkey unlock loop of change_passphrase: check_secret_key on each
SecretSubkey while rc stays zero, stopping at the first failure and
leaving the rest untouched. -/
def unlockSubkeys : Keyblock → Bool × Keyblock
  | [] => (true, [])
  | n :: ns =>
    match secSubkeyPayload n with
    | some sk =>
      if sk.unlockOk then
        let r := unlockSubkeys ns
        (r.1, { n with pkt := Packet.secretSubkey { sk with isProt := false } } :: r.2)
      else (false, n :: ns)
    | none =>
      let r := unlockSubkeys ns
      (r.1, n :: r.2)

/-- Re-protection of the primary under the new derived key: the protection
descriptor fields are assigned before protect_secret_key is invoked, so
they persist even when it fails. -/
def protectPrimaryInKb (a m hh : Nat) : Keyblock → Bool × Keyblock
  | [] => (true, [])
  | n :: ns =>
    match secKeyPayload n with
    | some sk =>
      let sk2 := { sk with prot := ⟨a, m, hh⟩ }
      if sk2.protectOk then
        (true, { n with pkt := Packet.secretKey { sk2 with isProt := true } } :: ns)
      else (false, { n with pkt := Packet.secretKey sk2 } :: ns)
    | none =>
      let r := protectPrimaryInKb a m hh ns
      (r.1, n :: r.2)

/-- Re-protection of every secret subkey under the new derived key, stopping
at the first failure. -/
def protectSubkeys (a m hh : Nat) : Keyblock → Bool × Keyblock
  | [] => (true, [])
  | n :: ns =>
    match secSubkeyPayload n with
    | some sk =>
      let sk2 := { sk with prot := ⟨a, m, hh⟩ }
      if sk2.protectOk then
        let r := protectSubkeys a m hh ns
        (r.1, { n with pkt := Packet.secretSubkey { sk2 with isProt := true } } :: r.2)
      else (false, { n with pkt := Packet.secretSubkey sk2 } :: ns)
    | none =>
      let r := protectSubkeys a m hh ns
      (r.1, n :: r.2)

/-- The new-passphrase prompt loop of change_passphrase, consuming prompt
outcomes in order: a mismatch re-prompts; an empty passphrase sets changed
iff the operator confirms and re-protects nothing; a derived key
re-protects the primary and then every subkey.  Returns (changed, rc ok,
keyblock).  An exhausted outcome list stands for an operator who never
completes the prompt and yields no change. -/
def passLoop : List PwOutcome → Keyblock → Bool × Bool × Keyblock
  | [], kb => (false, true, kb)
  | .mismatch :: rest, kb => passLoop rest kb
  | .empty confirm :: _, kb => (confirm, true, kb)
  | .goodPass a m hh :: _, kb =>
    let r1 := protectPrimaryInKb a m hh kb
    if r1.1 then
      let r2 := protectSubkeys a m hh r1.2
      (r2.1, r2.1, r2.2)
    else (false, false, r1.2)

/-- change_passphrase: locate the primary secret key (absent means the
internal-invariant error path), probe and unlock it, unlock every subkey
with the captured passphrase, then run the new-passphrase loop.  Returns
changed AND rc == 0, with the final secret keyblock. -/
def change_passphrase (outcomes : List PwOutcome) (kb : Keyblock) : Bool × Keyblock :=
  match findSecKey kb with
  | none => (false, kb)
  | some sk =>
    let pr := unlockPrimary sk
    let kb1 := replaceFirstSecKey (fun _ => pr.2) kb
    if pr.1 then
      let su := unlockSubkeys kb1
      if su.1 then
        let pl := passLoop outcomes su.2
        (pl.1 && pl.2.1, pl.2.2)
      else (false, su.2)
    else (false, kb1)

/-- The cmdPASSWD arm of keyedit_menu: run change_passphrase on the secret
block and set sec_modified when it reports a change. -/
def keyeditPasswd (outcomes : List PwOutcome) (sec : Keyblock) (sec_modified : Bool) :
    Keyblock × Bool :=
  let r := change_passphrase outcomes sec
  (r.2, if r.1 then true else sec_modified)

/-! ## The cmdDELUID arm of keyedit_menu -/

/-- The operator-visible reply of the cmdDELUID arm. -/
inductive DeluidReply where
  | mustSelect
  | cantDeleteLast
  | deleted
  | declined
deriving DecidableEq, Repr

/-- The cmdDELUID arm of keyedit_menu: refuse with a message when no uid is
selected or when deletion would leave no uid; otherwise ask for
confirmation and on yes run menu_deluid and set the modified flags. -/
def keyeditDeluid (pub : Keyblock) (sec : Option Keyblock) (modified sec_modified : Bool)
    (confirm : Bool) : Keyblock × Option Keyblock × Bool × Bool × DeluidReply :=
  let n1 := count_selected_uids pub
  if n1 = 0 then (pub, sec, modified, sec_modified, DeluidReply.mustSelect)
  else if count_uids pub - n1 < 1 then
    (pub, sec, modified, sec_modified, DeluidReply.cantDeleteLast)
  else if confirm then
    let r := menu_deluid pub sec
    (r.1, r.2, true, if sec.isSome then true else sec_modified, DeluidReply.deleted)
  else (pub, sec, modified, sec_modified, DeluidReply.declined)

/-! ## Theorems about menu_select_uid -/

theorem count_uids_cons (n : KbNode) (kb : Keyblock) :
    count_uids (n :: kb) = (if isUserIdNode n then 1 else 0) + count_uids kb := by
  simp only [count_uids, List.countP_cons]
  by_cases h : isUserIdNode n = true
  · simp [h]; omega
  · simp [h]

theorem toggleUidPass_past :
    ∀ (kb : Keyblock) (c idx : Nat), idx ≤ c → toggleUidPass kb c idx = kb := by
  intro kb
  induction kb with
  | nil => intro c idx _; rfl
  | cons n ns ih =>
    intro c idx hle
    rw [toggleUidPass]
    by_cases hn : isUserIdNode n = true
    · rw [if_pos hn]
      have hne : ¬(c + 1 = idx) := by omega
      rw [if_neg hne, ih (c + 1) idx (by omega)]
    · rw [if_neg hn, ih c idx hle]

theorem hasUidWithIndex_eq :
    ∀ (kb : Keyblock) (c idx : Nat), c < idx →
      hasUidWithIndex kb c idx = (uidPos kb (idx - c)).isSome := by
  intro kb
  induction kb with
  | nil => intro c idx _; rfl
  | cons n ns ih =>
    intro c idx hc
    rw [hasUidWithIndex, uidPos]
    by_cases hn : isUserIdNode n = true
    · rw [if_pos hn, if_pos hn]
      by_cases he : c + 1 = idx
      · have h1 : idx - c = 1 := by omega
        rw [if_pos he, h1, if_pos rfl]
        rfl
      · have h1 : ¬(idx - c = 1) := by omega
        rw [if_neg he, if_neg h1, ih (c + 1) idx (by omega)]
        have h3 : idx - c - 1 = idx - (c + 1) := by omega
        rw [← h3]
        cases uidPos ns (idx - c - 1) <;> rfl
    · rw [if_neg hn, if_neg hn, ih c idx hc]
      cases uidPos ns (idx - c) <;> rfl

theorem uidPos_isSome :
    ∀ (kb : Keyblock) (k : Nat), (uidPos kb k).isSome = true ↔ 1 ≤ k ∧ k ≤ count_uids kb := by
  intro kb
  induction kb with
  | nil =>
    intro k
    simp only [uidPos, count_uids, List.countP_nil, Option.isSome_none]
    constructor
    · intro h; exact absurd h (by simp)
    · intro h; omega
  | cons n ns ih =>
    intro k
    rw [uidPos, count_uids_cons]
    by_cases hn : isUserIdNode n = true
    · rw [if_pos hn, if_pos hn]
      by_cases hk : k = 1
      · subst hk
        simp only [if_pos rfl, Option.isSome_some]
        constructor
        · intro _; omega
        · intro _; rfl
      · rw [if_neg hk]
        have hmap : ((uidPos ns (k - 1)).map (· + 1)).isSome = (uidPos ns (k - 1)).isSome := by
          cases uidPos ns (k - 1) <;> rfl
        rw [hmap, ih (k - 1)]
        omega
    · rw [if_neg hn, if_neg hn]
      have hmap : ((uidPos ns k).map (· + 1)).isSome = (uidPos ns k).isSome := by
        cases uidPos ns k <;> rfl
      rw [hmap, ih k]
      omega

theorem toggleUidPass_getD :
    ∀ (kb : Keyblock) (c idx j : Nat), c < idx →
      (toggleUidPass kb c idx).getD j default =
        if uidPos kb (idx - c) = some j then toggleSel (kb.getD j default)
        else kb.getD j default := by
  intro kb
  induction kb with
  | nil =>
    intro c idx j _
    simp [toggleUidPass, uidPos]
  | cons n ns ih =>
    intro c idx j hc
    rw [toggleUidPass, uidPos]
    by_cases hn : isUserIdNode n = true
    · rw [if_pos hn, if_pos hn]
      by_cases he : c + 1 = idx
      · have h1 : idx - c = 1 := by omega
        rw [if_pos he, h1, if_pos rfl]
        cases j with
        | zero => simp
        | succ j =>
          rw [toggleUidPass_past ns (c + 1) idx (by omega)]
          simp
      · have h1 : ¬(idx - c = 1) := by omega
        rw [if_neg he, if_neg h1]
        cases j with
        | zero =>
          have hz : ¬((uidPos ns (idx - c - 1)).map (· + 1) = some 0) := by
            cases uidPos ns (idx - c - 1) <;> simp
          rw [if_neg hz]
          simp
        | succ j =>
          have h3 : idx - c - 1 = idx - (c + 1) := by omega
          have hmap : ((uidPos ns (idx - c - 1)).map (· + 1) = some (j + 1)) =
              (uidPos ns (idx - (c + 1)) = some j) := by
            rw [h3]
            cases uidPos ns (idx - (c + 1)) <;> simp
          simp only [List.getD_cons_succ, hmap]
          exact ih (c + 1) idx j (by omega)
    · rw [if_neg hn, if_neg hn]
      cases j with
      | zero =>
        have hz : ¬((uidPos ns (idx - c)).map (· + 1) = some 0) := by
          cases uidPos ns (idx - c) <;> simp
        rw [if_neg hz]
        simp
      | succ j =>
        have hmap : ((uidPos ns (idx - c)).map (· + 1) = some (j + 1)) =
            (uidPos ns (idx - c) = some j) := by
          cases uidPos ns (idx - c) <;> simp
        simp only [List.getD_cons_succ, hmap]
        exact ih c idx j hc

/-- Claim C9: select-uid(0) clears SEL_UID on every uid node (and touches no
other node); select-uid(N) for a valid 1-based N toggles SEL_UID on the
N-th UserId node in keyblock order and alters no other node; for N greater
than the number of uids it reports not-found and returns no-change with
the keyblock untouched. -/
theorem c9_select_uid (kb : Keyblock) (index : Nat) :
    ((menu_select_uid kb 0).1 = true ∧
      ∀ (i : Nat), i < kb.length →
        (menu_select_uid kb 0).2.getD i default =
          (if isUserIdNode (kb.getD i default) then
            { kb.getD i default with
                flag := { (kb.getD i default).flag with seluid := false } }
          else kb.getD i default)) ∧
    (1 ≤ index → index ≤ count_uids kb →
      (menu_select_uid kb index).1 = true ∧
      ∀ (i : Nat),
        (menu_select_uid kb index).2.getD i default =
          (if uidPos kb index = some i then toggleSel (kb.getD i default)
           else kb.getD i default)) ∧
    (count_uids kb < index → menu_select_uid kb index = (false, kb)) := by
  refine ⟨⟨?_, ?_⟩, ?_, ?_⟩
  · rw [menu_select_uid]; simp
  · intro i hi
    rw [menu_select_uid]
    simp only [ne_eq, not_true_eq_false, if_false]
    have hlen : i < (kb.map (fun n =>
        if isUserIdNode n then { n with flag := { n.flag with seluid := false } } else n)).length := by
      simpa using hi
    rw [List.getD_eq_getElem _ _ hlen, List.getElem_map, ← List.getD_eq_getElem _ _ hi]
  · intro h1 h2
    have hne : index ≠ 0 := by omega
    have hs : hasUidWithIndex kb 0 index = true := by
      rw [hasUidWithIndex_eq kb 0 index (by omega), Nat.sub_zero]
      exact (uidPos_isSome kb index).mpr ⟨h1, h2⟩
    constructor
    · rw [menu_select_uid, if_pos hne, if_pos hs]
    · intro i
      rw [menu_select_uid, if_pos hne, if_pos hs]
      have ht := toggleUidPass_getD kb 0 index i (by omega)
      rw [Nat.sub_zero] at ht
      exact ht
  · intro hgt
    have hne : index ≠ 0 := by omega
    have hs : hasUidWithIndex kb 0 index = false := by
      rw [hasUidWithIndex_eq kb 0 index (by omega), Nat.sub_zero]
      cases hup : uidPos kb index with
      | none => rfl
      | some j =>
        exfalso
        have hm := (uidPos_isSome kb index).mp (by rw [hup]; rfl)
        omega
    rw [menu_select_uid, if_pos hne, hs]
    simp

/-- Witness for C9 at a concrete keyblock: toggling uid 2 succeeds and an
out-of-range index 3 is a no-change. -/
theorem c9_select_uid_witness :
    (1 ≤ 2 ∧ 2 ≤ count_uids [({ pkt := Packet.publicKey 1 2 } : KbNode),
        { pkt := Packet.userId [65] }, { pkt := Packet.userId [66] }] ∧
      (menu_select_uid [({ pkt := Packet.publicKey 1 2 } : KbNode),
        { pkt := Packet.userId [65] }, { pkt := Packet.userId [66] }] 2).1 = true) ∧
    (count_uids [({ pkt := Packet.publicKey 1 2 } : KbNode),
        { pkt := Packet.userId [65] }, { pkt := Packet.userId [66] }] < 3 ∧
      menu_select_uid [({ pkt := Packet.publicKey 1 2 } : KbNode),
        { pkt := Packet.userId [65] }, { pkt := Packet.userId [66] }] 3 =
        (false, [({ pkt := Packet.publicKey 1 2 } : KbNode),
          { pkt := Packet.userId [65] }, { pkt := Packet.userId [66] }])) :=
  ⟨⟨by decide, by decide,
    ((c9_select_uid [({ pkt := Packet.publicKey 1 2 } : KbNode),
        { pkt := Packet.userId [65] }, { pkt := Packet.userId [66] }] 2).2.1
      (by decide) (by decide)).1⟩,
   ⟨by decide,
    (c9_select_uid [({ pkt := Packet.publicKey 1 2 } : KbNode),
        { pkt := Packet.userId [65] }, { pkt := Packet.userId [66] }] 3).2.2 (by decide)⟩⟩

/-! ## Theorems about the cmdDELUID arm, the mark pass, and counterexamples -/

/-- Claim C8: when the number of selected uids equals the total number of
uids, the deluid command refuses: it reports an error reply (the
cant-delete-last message whenever anything is selected), performs no
deletion, and leaves both keyblocks and both modified flags unchanged,
whatever the confirmation answer would have been. -/
theorem c8_deluid_refusal (pub : Keyblock) (sec : Option Keyblock) (m sm confirm : Bool)
    (h : count_selected_uids pub = count_uids pub) :
    keyeditDeluid pub sec m sm confirm =
      (pub, sec, m, sm,
        if count_selected_uids pub = 0 then DeluidReply.mustSelect
        else DeluidReply.cantDeleteLast) := by
  have hlt : count_uids pub - count_selected_uids pub < 1 := by omega
  simp only [keyeditDeluid]
  by_cases h0 : count_selected_uids pub = 0
  · rw [if_pos h0, if_pos h0]
  · rw [if_neg h0, if_pos hlt, if_neg h0]

/-- Witness for C8: a keyblock whose single uid is selected. -/
theorem c8_deluid_refusal_witness :
    count_selected_uids [({ pkt := Packet.publicKey 1 2 } : KbNode),
        { pkt := Packet.userId [65], flag := { seluid := true } }] =
      count_uids [({ pkt := Packet.publicKey 1 2 } : KbNode),
        { pkt := Packet.userId [65], flag := { seluid := true } }] ∧
    keyeditDeluid [({ pkt := Packet.publicKey 1 2 } : KbNode),
        { pkt := Packet.userId [65], flag := { seluid := true } }] none false false true =
      ([({ pkt := Packet.publicKey 1 2 } : KbNode),
        { pkt := Packet.userId [65], flag := { seluid := true } }], none, false, false,
        DeluidReply.cantDeleteLast) :=
  ⟨by decide,
   (c8_deluid_refusal [({ pkt := Packet.publicKey 1 2 } : KbNode),
      { pkt := Packet.userId [65], flag := { seluid := true } }] none false false true
      (by decide)).trans (by decide)⟩

/-- Claim C3: in the mark pass that sign_uids runs for each signer (with
select_all computed at operation start as count-selected-uids == 0), a
UserId node receives MARK_A exactly when select_all holds or the node
carries SEL_UID: with zero uids selected every uid is a candidate, with
one or more selected exactly the selected ones are. -/
theorem c3_select_all_if_none (kb : Keyblock) (i : Nat) (h : i < kb.length)
    (_hu : isUserIdNode kb[i] = true) :
    ((markPhase (count_selected_uids kb == 0) kb).getD i default).flag.markA
      = ((count_selected_uids kb == 0) || kb[i].flag.seluid) := by
  have hlen : i < (markPhase (count_selected_uids kb == 0) kb).length := by
    simp only [markPhase, List.length_map]
    exact h
  rw [List.getD_eq_getElem _ _ hlen]
  simp only [markPhase] at hlen ⊢
  rw [List.getElem_map]
  dsimp only
  by_cases hc : ((count_selected_uids kb == 0) || kb[i].flag.seluid) = true
  · rw [if_pos hc, hc]
  · have hf : ((count_selected_uids kb == 0) || kb[i].flag.seluid) = false :=
      Bool.not_eq_true _ ▸ eq_false_of_ne_true hc
    rw [if_neg hc, hf]

/-- Witness for C3: with one uid selected out of two, the selected uid at
position 1 is marked and select_all is false. -/
theorem c3_select_all_if_none_witness :
    ((markPhase (count_selected_uids [({ pkt := Packet.publicKey 1 2 } : KbNode),
        { pkt := Packet.userId [65], flag := { seluid := true } },
        { pkt := Packet.userId [66] }] == 0)
      [({ pkt := Packet.publicKey 1 2 } : KbNode),
        { pkt := Packet.userId [65], flag := { seluid := true } },
        { pkt := Packet.userId [66] }]).getD 1 default).flag.markA
    = ((count_selected_uids [({ pkt := Packet.publicKey 1 2 } : KbNode),
        { pkt := Packet.userId [65], flag := { seluid := true } },
        { pkt := Packet.userId [66] }] == 0) ||
      (([({ pkt := Packet.publicKey 1 2 } : KbNode),
        { pkt := Packet.userId [65], flag := { seluid := true } },
        { pkt := Packet.userId [66] }] : Keyblock)[1]).flag.seluid) :=
  c3_select_all_if_none [({ pkt := Packet.publicKey 1 2 } : KbNode),
    { pkt := Packet.userId [65], flag := { seluid := true } },
    { pkt := Packet.userId [66] }] 1 (by decide) (by decide)

/-- Claim C2 counterexample: on a keyblock holding no user ids at all, every
visited uid vacuously has a valid self-signature, yet check_all_keysigs
reports mis_selfsig = 1, because the final missing-selfsig increment runs
unconditionally even when no uid was visited. -/
theorem c2_missing_self_counterexample :
    count_uids [({ pkt := Packet.publicKey 1 2 } : KbNode)] = 0 ∧
    (check_all_keysigs [({ pkt := Packet.publicKey 1 2 } : KbNode)] false).mis_selfsig = 1 := by
  decide

/-- Claim C4 counterexample: even a fully confirmed, fully successful
sign_uids run leaves MARK_A set on the primary key node (the mark pass
sets MARK_A on every node under select_all and only uid marks are ever
consumed), so a node of the keyblock does carry the transient MARK_A after
sign_uids returns to the menu loop. -/
theorem c4_markA_counterexample :
    (sign_uids (fun _ => true) true [{ keyid0 := 7, keyid1 := 8 }]
      [({ pkt := Packet.publicKey 1 2 } : KbNode), { pkt := Packet.userId [65] }]
      false).failed = false ∧
    ((sign_uids (fun _ => true) true [{ keyid0 := 7, keyid1 := 8 }]
      [({ pkt := Packet.publicKey 1 2 } : KbNode), { pkt := Packet.userId [65] }]
      false).kb.getD 0 default).flag.markA = true := by
  simp only [← sign_uidsF_eq]
  decide

/-- Claim C1 counterexample: with two public uids sharing the same name
bytes and only one of them selected, menu_deluid deletes every
same-named secret uid but keeps the unselected public duplicate, so the
pairing invariant that held before the deletion is broken afterwards. -/
theorem c1_pairing_counterexample :
    paired [({ pkt := Packet.publicKey 1 2 } : KbNode),
        { pkt := Packet.userId [66], flag := { seluid := true } },
        { pkt := Packet.userId [66] }]
      [({ pkt := Packet.secretKey { keyid0 := 1, keyid1 := 2 } } : KbNode),
        { pkt := Packet.userId [66] }] ∧
    ¬ pairedOpt (menu_deluid [({ pkt := Packet.publicKey 1 2 } : KbNode),
        { pkt := Packet.userId [66], flag := { seluid := true } },
        { pkt := Packet.userId [66] }]
      (some [({ pkt := Packet.secretKey { keyid0 := 1, keyid1 := 2 } } : KbNode),
        { pkt := Packet.userId [66] }])) := by
  decide

/-! ## Theorems about change_passphrase -/

/-- Every SecretSubkey payload of the block satisfies the property. -/
def allSubkeys (P : SecKeyPkt → Prop) (kb : Keyblock) : Prop :=
  ∀ n ∈ kb, ∀ s, secSubkeyPayload n = some s → P s

theorem allSubkeys_cons {P : SecKeyPkt → Prop} {n : KbNode} {ns : Keyblock}
    (h : allSubkeys P (n :: ns)) : allSubkeys P ns :=
  fun y hy u hu => h y (List.mem_cons_of_mem n hy) u hu

theorem replaceFirstSecKey_findSecKey (f : SecKeyPkt → SecKeyPkt) :
    ∀ (kb : Keyblock) (sk : SecKeyPkt), findSecKey kb = some sk →
      findSecKey (replaceFirstSecKey f kb) = some (f sk) := by
  intro kb
  induction kb with
  | nil => intro sk h; simp [findSecKey] at h
  | cons n ns ih =>
    intro sk h
    rw [findSecKey] at h
    rw [replaceFirstSecKey]
    cases hp : secKeyPayload n with
    | some s =>
      rw [hp] at h
      simp only [Option.some.injEq] at h
      subst h
      simp [findSecKey, secKeyPayload]
    | none =>
      rw [hp] at h
      simp only [findSecKey]
      have hrw : secKeyPayload { n with pkt := n.pkt } = none := by
        cases n; exact hp
      rw [show ({ n with pkt := n.pkt } : KbNode) = n from by cases n; rfl] at hrw
      rw [hrw]
      exact ih sk h

theorem replaceFirstSecKey_allSubkeys (f : SecKeyPkt → SecKeyPkt) (P : SecKeyPkt → Prop) :
    ∀ (kb : Keyblock), allSubkeys P kb → allSubkeys P (replaceFirstSecKey f kb) := by
  intro kb
  induction kb with
  | nil => intro h; exact h
  | cons n ns ih =>
    intro h
    rw [replaceFirstSecKey]
    cases hp : secKeyPayload n with
    | some s =>
      intro x hx t ht
      rcases List.mem_cons.mp hx with rfl | hx2
      · exact absurd ht (by simp [secSubkeyPayload])
      · exact h x (List.mem_cons_of_mem n hx2) t ht
    | none =>
      intro x hx t ht
      rcases List.mem_cons.mp hx with rfl | hx2
      · exact h x (List.mem_cons_self x ns) t ht
      · exact ih (allSubkeys_cons h) x hx2 t ht

theorem unlockSubkeys_ok :
    ∀ (kb : Keyblock), allSubkeys (fun s => s.unlockOk = true) kb →
      (unlockSubkeys kb).1 = true ∧
      allSubkeys (fun s => s.isProt = false) (unlockSubkeys kb).2 ∧
      findSecKey (unlockSubkeys kb).2 = findSecKey kb := by
  intro kb
  induction kb with
  | nil =>
    intro _
    refine ⟨rfl, ?_, rfl⟩
    intro x hx
    simp [unlockSubkeys] at hx
  | cons n ns ih =>
    intro h
    obtain ⟨ih1, ih2, ih3⟩ := ih (allSubkeys_cons h)
    rw [unlockSubkeys]
    cases hp : secSubkeyPayload n with
    | some s =>
      have hok : s.unlockOk = true := h n (List.mem_cons_self n ns) s hp
      dsimp only
      rw [if_pos hok]
      have hnp : n.pkt = Packet.secretSubkey s := by
        revert hp
        rw [secSubkeyPayload]
        cases n.pkt <;> simp
      refine ⟨ih1, ?_, ?_⟩
      · intro x hx t ht
        rcases List.mem_cons.mp hx with rfl | hx2
        · rw [secSubkeyPayload] at ht
          simp only at ht
          simp only [Option.some.injEq] at ht
          rw [← ht]
        · exact ih2 x hx2 t ht
      · rw [findSecKey]
        have hsk : secKeyPayload { n with pkt := Packet.secretSubkey { s with isProt := false } }
            = none := rfl
        rw [hsk, findSecKey]
        have hsk2 : secKeyPayload n = none := by
          rw [secKeyPayload, hnp]
        rw [hsk2]
        exact ih3
    | none =>
      dsimp only
      refine ⟨ih1, ?_, ?_⟩
      · intro x hx t ht
        rcases List.mem_cons.mp hx with rfl | hx2
        · exact absurd (hp ▸ ht) (by simp)
        · exact ih2 x hx2 t ht
      · rw [findSecKey, findSecKey]
        cases hk : secKeyPayload n with
        | some s => rfl
        | none => exact ih3

/-- Claim C6: when change-passphrase receives an empty new passphrase and
the operator confirms, the primary secret key and every secret subkey end
up marked unprotected (the unlock phase decrypted them in place and the
confirmed empty-passphrase branch keeps them so, per the no-protection
descriptor), the call returns changed, and the cmdPASSWD arm marks the
secret keyblock modified.  Hypotheses: a primary secret key exists, its
algorithm is supported, and the operator supplies passphrases that unlock
the primary and every subkey. -/
theorem c6_passwd_empty (kb : Keyblock) (sk : SecKeyPkt) (rest : List PwOutcome)
    (sm : Bool)
    (hfind : findSecKey kb = some sk)
    (halgo : sk.algoUnsupported = false)
    (hunlock : sk.isProt = true → sk.unlockOk = true)
    (hsubs : allSubkeys (fun s => s.unlockOk = true) kb) :
    (change_passphrase (PwOutcome.empty true :: rest) kb).1 = true ∧
    (∀ s, findSecKey (change_passphrase (PwOutcome.empty true :: rest) kb).2 = some s →
      s.isProt = false) ∧
    allSubkeys (fun s => s.isProt = false)
      (change_passphrase (PwOutcome.empty true :: rest) kb).2 ∧
    (keyeditPasswd (PwOutcome.empty true :: rest) kb sm).2 = true := by
  have hpr : (unlockPrimary sk).1 = true ∧ (unlockPrimary sk).2.isProt = false := by
    rw [unlockPrimary, if_neg (by simp [halgo])]
    by_cases hip : sk.isProt = true
    · rw [if_pos hip, if_pos (hunlock hip)]
      exact ⟨rfl, rfl⟩
    · rw [if_neg hip]
      exact ⟨rfl, by simpa using hip⟩
  have hf1 : findSecKey (replaceFirstSecKey (fun _ => (unlockPrimary sk).2) kb) =
      some (unlockPrimary sk).2 :=
    replaceFirstSecKey_findSecKey (fun _ => (unlockPrimary sk).2) kb sk hfind
  have hsubs1 : allSubkeys (fun s => s.unlockOk = true)
      (replaceFirstSecKey (fun _ => (unlockPrimary sk).2) kb) :=
    replaceFirstSecKey_allSubkeys (fun _ => (unlockPrimary sk).2) _ kb hsubs
  obtain ⟨hu1, hu2, hu3⟩ := unlockSubkeys_ok
    (replaceFirstSecKey (fun _ => (unlockPrimary sk).2) kb) hsubs1
  have hcp : change_passphrase (PwOutcome.empty true :: rest) kb =
      (true, (unlockSubkeys (replaceFirstSecKey (fun _ => (unlockPrimary sk).2) kb)).2) := by
    rw [change_passphrase, hfind]
    dsimp only
    rw [if_pos hpr.1, if_pos hu1]
    rfl
  refine ⟨by rw [hcp], ?_, ?_, ?_⟩
  · intro s hs
    rw [hcp] at hs
    simp only at hs
    rw [hu3, hf1] at hs
    simp only [Option.some.injEq] at hs
    rw [← hs]
    exact hpr.2
  · rw [hcp]
    exact hu2
  · rw [keyeditPasswd]
    dsimp only
    rw [hcp]
    rfl

/-- Witness for C6: a protected primary and one protected subkey, current
passphrase accepted, then an empty passphrase confirmed. -/
theorem c6_passwd_empty_witness :
    (change_passphrase [PwOutcome.empty true]
      [({ pkt := Packet.secretKey { keyid0 := 1, keyid1 := 2, isProt := true } } : KbNode),
       { pkt := Packet.secretSubkey { keyid0 := 3, keyid1 := 4, isProt := true } }]).1 = true ∧
    (∀ s, findSecKey (change_passphrase [PwOutcome.empty true]
      [({ pkt := Packet.secretKey { keyid0 := 1, keyid1 := 2, isProt := true } } : KbNode),
       { pkt := Packet.secretSubkey { keyid0 := 3, keyid1 := 4, isProt := true } }]).2 =
        some s → s.isProt = false) ∧
    allSubkeys (fun s => s.isProt = false)
      (change_passphrase [PwOutcome.empty true]
        [({ pkt := Packet.secretKey { keyid0 := 1, keyid1 := 2, isProt := true } } : KbNode),
         { pkt := Packet.secretSubkey { keyid0 := 3, keyid1 := 4, isProt := true } }]).2 ∧
    (keyeditPasswd [PwOutcome.empty true]
      [({ pkt := Packet.secretKey { keyid0 := 1, keyid1 := 2, isProt := true } } : KbNode),
       { pkt := Packet.secretSubkey { keyid0 := 3, keyid1 := 4, isProt := true } }]
      false).2 = true :=
  c6_passwd_empty
    [({ pkt := Packet.secretKey { keyid0 := 1, keyid1 := 2, isProt := true } } : KbNode),
     { pkt := Packet.secretSubkey { keyid0 := 3, keyid1 := 4, isProt := true } }]
    { keyid0 := 1, keyid1 := 2, isProt := true } [] false
    (by decide) (by decide) (fun _ => by decide)
    (by
      intro n hn s hs
      rcases List.mem_cons.mp hn with rfl | hn2
      · simp [secSubkeyPayload] at hs
      · rcases List.mem_cons.mp hn2 with rfl | hn3
        · simp only [secSubkeyPayload] at hs
          simp only [Option.some.injEq] at hs
          rw [← hs]
        · exact absurd hn3 (by simp))

/-! ## Theorems about check_all_keysigs counting -/

theorem checkWalk_misTail (os : Bool) :
    ∀ (kb : Keyblock) (st : CheckState),
      (checkWalk os st kb).2.mis_selfsig +
        (if (checkWalk os st kb).2.has_selfsig then 0 else 1) =
      st.mis_selfsig + misTail os st.selected st.anyuid st.has_selfsig kb := by
  intro kb
  induction kb with
  | nil => intro st; rfl
  | cons n ns ih =>
    intro st
    rw [checkWalk, misTail]
    dsimp only
    by_cases hd : n.deleted = true
    · rw [if_pos hd, if_pos hd]
      exact ih st
    · rw [if_neg hd, if_neg hd]
      by_cases hu : isUserIdNode n = true
      · rw [if_pos hu, if_pos hu]
        by_cases hsel : (if os then n.flag.seluid else st.selected) = true
        · rw [if_pos hsel, if_pos hsel]
          rw [ih]
          dsimp only
          omega
        · rw [if_neg hsel, if_neg hsel]
          rw [ih]
      · rw [if_neg hu, if_neg hu]
        by_cases hsig : (st.selected && isCertSigNode n) = true
        · rw [if_pos hsig, if_pos hsig]
          cases hck : sigCheckOf n with
          | none =>
            dsimp only
            rw [ih]
            have hso : sigSelfOk n = false := by rw [sigSelfOk, hck]
            rw [hso, Bool.or_false]
          | some c =>
            cases c with
            | ok s =>
              dsimp only
              rw [ih]
              have hso : sigSelfOk n = s := by rw [sigSelfOk, hck]
              rw [hso]
              cases s with
              | true => simp
              | false => simp
            | badSign =>
              dsimp only
              rw [ih]
              have hso : sigSelfOk n = false := by rw [sigSelfOk, hck]
              rw [hso, Bool.or_false]
            | noPubkey =>
              dsimp only
              rw [ih]
              have hso : sigSelfOk n = false := by rw [sigSelfOk, hck]
              rw [hso, Bool.or_false]
            | otherErr =>
              dsimp only
              rw [ih]
              have hso : sigSelfOk n = false := by rw [sigSelfOk, hck]
              rw [hso, Bool.or_false]
        · rw [if_neg hsig, if_neg hsig]
          rw [ih]

theorem misTail_closed (os : Bool) :
    ∀ (kb : Keyblock) (sel anyuid hs : Bool),
      (os = false → sel = true) → (∀ n ∈ kb, n.deleted = false) →
      misTail os sel anyuid hs kb =
        (if (uidLacksList os kb).isEmpty then
          (if hs || (sel && groupHasSelfsig kb) then 0 else 1)
        else
          (if anyuid && !(hs || (sel && groupHasSelfsig kb)) then 1 else 0) +
            (uidLacksList os kb).count true) := by
  intro kb
  induction kb with
  | nil =>
    intro sel anyuid hs _ _
    rw [misTail, uidLacksList, groupHasSelfsig]
    simp
  | cons n ns ih =>
    intro sel anyuid hs hos hlive
    have hd : n.deleted = false := hlive n (List.mem_cons_self n ns)
    have hlive2 : ∀ x ∈ ns, x.deleted = false :=
      fun x hx => hlive x (List.mem_cons_of_mem n hx)
    rw [misTail, uidLacksList, groupHasSelfsig, if_neg (by simp [hd])]
    by_cases hu : isUserIdNode n = true
    · rw [if_pos hu, if_pos hu, if_pos hu]
      by_cases hsel : (if os then n.flag.seluid else sel) = true
      · have hvis : ¬(os && !n.flag.seluid) = true := by
          cases hoss : os with
          | true =>
            rw [hoss] at hsel
            simp at hsel
            simp [hsel]
          | false => simp
        rw [if_pos hsel, if_neg hvis]
        rw [ih (if os then n.flag.seluid else sel) true false (fun _ => hsel) hlive2]
        rw [hsel]
        simp only [List.isEmpty_cons, Bool.false_or, Bool.true_and, Bool.and_false,
          Bool.or_false, List.count_cons]
        cases hg : groupHasSelfsig ns <;>
          cases hlx : uidLacksList os ns <;>
            simp <;> omega
      · have hsel2 : (if os then n.flag.seluid else sel) = false :=
          eq_false_of_ne_true hsel
        have hoss : os = true := by
          cases hoss : os with
          | true => rfl
          | false =>
            rw [hoss] at hsel2
            simp at hsel2
            exact absurd (hos hoss) (by simp [hsel2])
        have hns : n.flag.seluid = false := by rw [hoss] at hsel2; exact hsel2
        have hvis : (os && !n.flag.seluid) = true := by rw [hoss, hns]; rfl
        rw [if_neg hsel, if_pos hvis]
        rw [ih (if os then n.flag.seluid else sel) anyuid hs
          (fun hf => absurd (hoss.symm.trans hf) (by simp)) hlive2]
        rw [hsel2]
        simp
    · rw [if_neg hu, if_neg hu, if_neg hu]
      by_cases hsig : (sel && isCertSigNode n) = true
      · rw [if_pos hsig]
        rw [ih sel anyuid (hs || sigSelfOk n) hos hlive2]
        have hselt : sel = true := (Bool.and_eq_true .. ▸ hsig).1
        have hct : isCertSigNode n = true := (Bool.and_eq_true .. ▸ hsig).2
        by_cases hok : isOkSelfsigNode n = true
        · rw [if_pos hok]
          have hso : sigSelfOk n = true := by
            rw [isOkSelfsigNode] at hok
            rcases Bool.and_eq_true .. ▸ hok with ⟨_, h2⟩
            rw [sigSelfOk]
            cases hck : sigCheckOf n with
            | none => rw [hck] at h2; exact h2
            | some c => cases c <;> rw [hck] at h2 <;> simpa using h2
          rw [hso, hselt]
          simp
        · rw [if_neg hok]
          have hso : sigSelfOk n = false := by
            rw [isOkSelfsigNode] at hok
            rw [sigSelfOk]
            cases hck : sigCheckOf n with
            | none => rfl
            | some c =>
              cases c with
              | ok s =>
                rw [hck] at hok
                simp only [hct, Bool.true_and] at hok
                simpa using hok
              | badSign => rfl
              | noPubkey => rfl
              | otherErr => rfl
          rw [hso, Bool.or_false]
      · rw [if_neg hsig]
        rw [ih sel anyuid hs hos hlive2]
        by_cases hok : isOkSelfsigNode n = true
        · rw [if_pos hok]
          have hself : sel = false := by
            have hcert : isCertSigNode n = true := (Bool.and_eq_true .. ▸ hok).1
            cases hselv : sel with
            | false => rfl
            | true => exact absurd (by rw [hselv, hcert]; rfl) hsig
          rw [hself]
          simp
        · rw [if_neg hok]

/-- Claim C2, amended: check-all-keysigs increments missing_self exactly
once per visited uid whose signature group lacks a verifying
self-signature, including the final uid; however when no uid is visited at
all the unconditional final check still reports one missing self-signature
unless the walk ran unrestricted and verified a certification-class
self-signature before any uid. -/
theorem c2_missing_self_amended (kb : Keyblock) (os : Bool)
    (hlive : ∀ n ∈ kb, n.deleted = false) :
    (check_all_keysigs kb os).mis_selfsig =
      (if (uidLacksList os kb).isEmpty then
        (if os || !groupHasSelfsig kb then 1 else 0)
      else (uidLacksList os kb).count true) := by
  have hA := checkWalk_misTail os kb { selected := !os }
  have hB := misTail_closed os kb (!os) false false (by intro h; rw [h]; rfl) hlive
  rw [check_all_keysigs]
  dsimp only
  rw [hA, hB]
  simp only [Bool.false_or, Bool.false_and, if_neg (by simp : ¬(false = true))]
  cases hl : (uidLacksList os kb).isEmpty with
  | true =>
    simp only [if_pos rfl]
    cases hoss : os with
    | true => simp
    | false =>
      simp only [Bool.not_true, Bool.false_or]
      cases hg : groupHasSelfsig kb <;> simp
  | false =>
    simp

/-- Witness for the amended C2: two uids, the first with a verifying
self-signature and the second without one; the formula yields exactly one
missing self-signature. -/
theorem c2_missing_self_amended_witness :
    (∀ n ∈ [({ pkt := Packet.publicKey 1 2 } : KbNode), { pkt := Packet.userId [65] },
        { pkt := Packet.signature 1 2 19 (SigCheck.ok true) }, { pkt := Packet.userId [66] }],
      n.deleted = false) ∧
    (check_all_keysigs [({ pkt := Packet.publicKey 1 2 } : KbNode),
        { pkt := Packet.userId [65] },
        { pkt := Packet.signature 1 2 19 (SigCheck.ok true) },
        { pkt := Packet.userId [66] }] false).mis_selfsig =
      (if (uidLacksList false [({ pkt := Packet.publicKey 1 2 } : KbNode),
            { pkt := Packet.userId [65] },
            { pkt := Packet.signature 1 2 19 (SigCheck.ok true) },
            { pkt := Packet.userId [66] }]).isEmpty then
        (if false || !groupHasSelfsig [({ pkt := Packet.publicKey 1 2 } : KbNode),
            { pkt := Packet.userId [65] },
            { pkt := Packet.signature 1 2 19 (SigCheck.ok true) },
            { pkt := Packet.userId [66] }] then 1 else 0)
      else (uidLacksList false [({ pkt := Packet.publicKey 1 2 } : KbNode),
            { pkt := Packet.userId [65] },
            { pkt := Packet.signature 1 2 19 (SigCheck.ok true) },
            { pkt := Packet.userId [66] }]).count true) :=
  ⟨by decide,
   c2_missing_self_amended [({ pkt := Packet.publicKey 1 2 } : KbNode),
      { pkt := Packet.userId [65] },
      { pkt := Packet.signature 1 2 19 (SigCheck.ok true) },
      { pkt := Packet.userId [66] }] false (by decide)⟩

/-! ## Theorems about check_all_keysigs flag rewriting -/

theorem checkWalk_nodes (os : Bool) :
    ∀ (kb : Keyblock) (st : CheckState),
      (checkWalk os st kb).1.length = kb.length ∧
      ∀ (i : Nat), i < kb.length →
        (checkWalk os st kb).1.getD i default =
          (if !(kb.getD i default).deleted && selBefore os st.selected (kb.take i)
              && isCertSigNode (kb.getD i default) then
            { kb.getD i default with flag := flagAfterCheck (kb.getD i default) }
          else kb.getD i default) := by
  intro kb
  induction kb with
  | nil =>
    intro st
    exact ⟨rfl, fun i hi => absurd hi (by simp)⟩
  | cons n ns ih =>
    intro st
    rw [checkWalk]
    dsimp only
    by_cases hd : n.deleted = true
    · rw [if_pos hd]
      refine ⟨by simp [(ih st).1], ?_⟩
      intro i hi
      cases i with
      | zero =>
        simp only [List.getD_cons_zero, List.take_zero, selBefore, hd]
        simp
      | succ i =>
        simp only [List.getD_cons_succ, List.take_succ_cons]
        have hstep : selBefore os st.selected (n :: ns.take i) =
            selBefore os (stepSel os st.selected n) (ns.take i) := rfl
        rw [hstep]
        have hs2 : stepSel os st.selected n = st.selected := by
          rw [stepSel, hd]
          simp
        rw [hs2]
        exact (ih st).2 i (by simpa using hi)
    · rw [if_neg hd]
      have hdF : n.deleted = false := eq_false_of_ne_true hd
      by_cases hu : isUserIdNode n = true
      · rw [if_pos hu]
        have hstep : ∀ s : Bool, stepSel os s n = (if os then n.flag.seluid else s) := by
          intro s
          rw [stepSel, hdF, hu]
          simp
        by_cases hsel : (if os then n.flag.seluid else st.selected) = true
        · rw [if_pos hsel]
          refine ⟨by simp [(ih _).1], ?_⟩
          intro i hi
          cases i with
          | zero =>
            simp only [List.getD_cons_zero, List.take_zero]
            have : isCertSigNode n = false := by
              rw [isCertSigNode]
              rw [isUserIdNode] at hu
              cases hp : n.pkt <;> rw [hp] at hu <;> simp at hu <;> rfl
            simp [this]
          | succ i =>
            simp only [List.getD_cons_succ, List.take_succ_cons]
            have h1 : selBefore os st.selected (n :: ns.take i) =
                selBefore os (stepSel os st.selected n) (ns.take i) := rfl
            rw [h1, hstep, hsel]
            exact (ih _).2 i (by simpa using hi)
        · rw [if_neg hsel]
          refine ⟨by simp [(ih _).1], ?_⟩
          intro i hi
          cases i with
          | zero =>
            simp only [List.getD_cons_zero, List.take_zero]
            have : isCertSigNode n = false := by
              rw [isCertSigNode]
              rw [isUserIdNode] at hu
              cases hp : n.pkt <;> rw [hp] at hu <;> simp at hu <;> rfl
            simp [this]
          | succ i =>
            simp only [List.getD_cons_succ, List.take_succ_cons]
            have h1 : selBefore os st.selected (n :: ns.take i) =
                selBefore os (stepSel os st.selected n) (ns.take i) := rfl
            rw [h1, hstep]
            have hselF : (if os then n.flag.seluid else st.selected) = false :=
              eq_false_of_ne_true hsel
            rw [hselF]
            have := (ih { st with selected := if os then n.flag.seluid else st.selected }).2
              i (by simpa using hi)
            simp only at this
            rw [hselF] at this
            exact this
      · rw [if_neg hu]
        have huF : isUserIdNode n = false := eq_false_of_ne_true hu
        have hstep : stepSel os st.selected n = st.selected := by
          rw [stepSel, huF]
          simp
        by_cases hsig : (st.selected && isCertSigNode n) = true
        · rw [if_pos hsig]
          have hselT : st.selected = true := (Bool.and_eq_true .. ▸ hsig).1
          have hcert : isCertSigNode n = true := (Bool.and_eq_true .. ▸ hsig).2
          have hzero : ∀ (fl : NodeFlags), fl = flagAfterCheck n →
              ({ n with flag := fl } : KbNode) =
                (if !(((n :: ns).getD 0 default)).deleted
                    && selBefore os st.selected ((n :: ns).take 0)
                    && isCertSigNode ((n :: ns).getD 0 default) then
                  { (n :: ns).getD 0 default with
                      flag := flagAfterCheck ((n :: ns).getD 0 default) }
                else (n :: ns).getD 0 default) := by
            intro fl hfl
            simp only [List.getD_cons_zero, List.take_zero, selBefore]
            rw [hdF, hselT, hcert]
            simp [hfl]
          have hsucc : ∀ (st2 : CheckState), st2.selected = st.selected →
              ∀ (i : Nat), i + 1 < (n :: ns).length →
              (checkWalk os st2 ns).1.getD i default =
                (if !(((n :: ns).getD (i + 1) default)).deleted
                    && selBefore os st.selected ((n :: ns).take (i + 1))
                    && isCertSigNode ((n :: ns).getD (i + 1) default) then
                  { (n :: ns).getD (i + 1) default with
                      flag := flagAfterCheck ((n :: ns).getD (i + 1) default) }
                else (n :: ns).getD (i + 1) default) := by
            intro st2 hst2 i hi
            simp only [List.getD_cons_succ, List.take_succ_cons]
            have h1 : selBefore os st.selected (n :: ns.take i) =
                selBefore os (stepSel os st.selected n) (ns.take i) := rfl
            rw [h1, hstep]
            have hr := (ih st2).2 i (by simpa using hi)
            rw [hst2] at hr
            exact hr
          cases hck : sigCheckOf n with
          | none =>
            dsimp only
            refine ⟨by simp [(ih st).1], ?_⟩
            intro i hi
            cases i with
            | zero => exact (hzero n.flag (by rw [flagAfterCheck, hck])).symm ▸
                (hzero n.flag (by rw [flagAfterCheck, hck]))
            | succ i => exact hsucc st rfl i hi
          | some c =>
            cases c with
            | ok s =>
              cases s with
              | true =>
                dsimp only
                refine ⟨by simp [(ih _).1], ?_⟩
                intro i hi
                cases i with
                | zero => exact hzero _ (by rw [flagAfterCheck, hck])
                | succ i => exact hsucc { st with has_selfsig := true } rfl i hi
              | false =>
                dsimp only
                refine ⟨by simp [(ih _).1], ?_⟩
                intro i hi
                cases i with
                | zero => exact hzero _ (by rw [flagAfterCheck, hck])
                | succ i => exact hsucc st rfl i hi
            | badSign =>
              dsimp only
              refine ⟨by simp [(ih _).1], ?_⟩
              intro i hi
              cases i with
              | zero => exact hzero _ (by rw [flagAfterCheck, hck])
              | succ i => exact hsucc { st with inv_sigs := st.inv_sigs + 1 } rfl i hi
            | noPubkey =>
              dsimp only
              refine ⟨by simp [(ih _).1], ?_⟩
              intro i hi
              cases i with
              | zero => exact hzero _ (by rw [flagAfterCheck, hck])
              | succ i => exact hsucc { st with no_key := st.no_key + 1 } rfl i hi
            | otherErr =>
              dsimp only
              refine ⟨by simp [(ih _).1], ?_⟩
              intro i hi
              cases i with
              | zero => exact hzero _ (by rw [flagAfterCheck, hck])
              | succ i => exact hsucc { st with oth_err := st.oth_err + 1 } rfl i hi
        · rw [if_neg hsig]
          refine ⟨by simp [(ih st).1], ?_⟩
          intro i hi
          cases i with
          | zero =>
            simp only [List.getD_cons_zero, List.take_zero, selBefore]
            have : (!n.deleted && st.selected && isCertSigNode n) = false := by
              rw [hdF]
              cases hs1 : st.selected with
              | false => rfl
              | true =>
                cases hs3 : isCertSigNode n with
                | false => rfl
                | true => exact absurd (by rw [hs1, hs3]; rfl) hsig
            rw [this]
            simp
          | succ i =>
            simp only [List.getD_cons_succ, List.take_succ_cons]
            have h1 : selBefore os st.selected (n :: ns.take i) =
                selBefore os (stepSel os st.selected n) (ns.take i) := rfl
            rw [h1, hstep]
            exact (ih st).2 i (by simpa using hi)

theorem isCertSigNode_sigCheckOf (n : KbNode) (h : isCertSigNode n = true) :
    ∃ c, sigCheckOf n = some c := by
  rw [isCertSigNode] at h
  rw [sigCheckOf]
  cases hp : n.pkt with
  | signature a b cc chk => exact ⟨chk, rfl⟩
  | publicKey a b => rw [hp] at h; simp at h
  | publicSubkey a b => rw [hp] at h; simp at h
  | secretKey s => rw [hp] at h; simp at h
  | secretSubkey s => rw [hp] at h; simp at h
  | userId nm => rw [hp] at h; simp at h

/-- Claim C10: check_all_keysigs preserves every packet and tombstone bit;
on each signature node it visits it overwrites the entire flag word with
the single matching error flag for the bad, missing-key and other-error
outcomes (so every other flag bit previously set there, MARK_A included,
is cleared), while the ok outcome only clears the three error flags and
keeps the other bits; every unvisited node keeps its flag word, and hence
a keyblock whose nodes carry at most one error flag before the walk
carries at most one on every node afterwards. -/
theorem c10_check_flag_overwrite (kb : Keyblock) (os : Bool) (i : Nat) (hi : i < kb.length) :
    (check_all_keysigs kb os).kb.length = kb.length ∧
    ((check_all_keysigs kb os).kb.getD i default).pkt = (kb.getD i default).pkt ∧
    ((check_all_keysigs kb os).kb.getD i default).deleted = (kb.getD i default).deleted ∧
    (visitedSig os kb i = true →
      (sigCheckOf (kb.getD i default) = some SigCheck.badSign →
        ((check_all_keysigs kb os).kb.getD i default).flag =
          ⟨true, false, false, false, false, false⟩) ∧
      (sigCheckOf (kb.getD i default) = some SigCheck.noPubkey →
        ((check_all_keysigs kb os).kb.getD i default).flag =
          ⟨false, true, false, false, false, false⟩) ∧
      (sigCheckOf (kb.getD i default) = some SigCheck.otherErr →
        ((check_all_keysigs kb os).kb.getD i default).flag =
          ⟨false, false, true, false, false, false⟩) ∧
      (∀ s, sigCheckOf (kb.getD i default) = some (SigCheck.ok s) →
        ((check_all_keysigs kb os).kb.getD i default).flag =
          { (kb.getD i default).flag with
              badsig := false, nokey := false, sigerr := false })) ∧
    (visitedSig os kb i = false →
      (check_all_keysigs kb os).kb.getD i default = kb.getD i default) ∧
    (errCount (kb.getD i default).flag ≤ 1 →
      errCount ((check_all_keysigs kb os).kb.getD i default).flag ≤ 1) := by
  have hn := checkWalk_nodes os kb { selected := !os }
  have hpt := hn.2 i hi
  simp only at hpt
  have hv : visitedSig os kb i =
      (!(kb.getD i default).deleted && selBefore os (!os) (kb.take i)
        && isCertSigNode (kb.getD i default)) := rfl
  rw [← hv] at hpt
  have hkb : (check_all_keysigs kb os).kb = (checkWalk os { selected := !os } kb).1 := rfl
  rw [hkb, hpt]
  by_cases hvv : visitedSig os kb i = true
  · rw [if_pos hvv]
    have hcert : isCertSigNode (kb.getD i default) = true := by
      have h2 := hvv
      rw [hv] at h2
      exact (Bool.and_eq_true .. ▸ h2).2
    refine ⟨hn.1, rfl, rfl, ?_, ?_, ?_⟩
    · intro _
      refine ⟨?_, ?_, ?_, ?_⟩
      · intro hck
        show flagAfterCheck (kb.getD i default) = _
        rw [flagAfterCheck, hck]
      · intro hck
        show flagAfterCheck (kb.getD i default) = _
        rw [flagAfterCheck, hck]
      · intro hck
        show flagAfterCheck (kb.getD i default) = _
        rw [flagAfterCheck, hck]
      · intro s hck
        show flagAfterCheck (kb.getD i default) = _
        rw [flagAfterCheck, hck]
    · intro hvf
      exact absurd hvv (by rw [hvf]; simp)
    · intro _
      show errCount (flagAfterCheck (kb.getD i default)) ≤ 1
      obtain ⟨c, hck⟩ := isCertSigNode_sigCheckOf (kb.getD i default) hcert
      rw [flagAfterCheck, hck]
      cases c with
      | ok s =>
        show errCount { (kb.getD i default).flag with
          badsig := false, nokey := false, sigerr := false } ≤ 1
        rw [errCount]
        simp
      | badSign => rw [show errCount ⟨true, false, false, false, false, false⟩ = 1 from rfl]
      | noPubkey => rw [show errCount ⟨false, true, false, false, false, false⟩ = 1 from rfl]
      | otherErr => rw [show errCount ⟨false, false, true, false, false, false⟩ = 1 from rfl]
  · rw [if_neg hvv]
    refine ⟨hn.1, rfl, rfl, ?_, fun _ => rfl, fun h => h⟩
    intro hvt
    exact absurd hvt hvv

/-- Witness for C10 at a concrete keyblock: a visited bad signature carrying
MARK_A and SEL_UID beforehand ends with exactly the BAD_SIG bit. -/
theorem c10_check_flag_overwrite_witness :
    ((check_all_keysigs [({ pkt := Packet.publicKey 1 2 } : KbNode),
        { pkt := Packet.userId [65] },
        { pkt := Packet.signature 9 9 16 SigCheck.badSign,
          flag := { markA := true, seluid := true } }] false).kb.getD 2 default).flag =
      ⟨true, false, false, false, false, false⟩ :=
  (((c10_check_flag_overwrite [({ pkt := Packet.publicKey 1 2 } : KbNode),
      { pkt := Packet.userId [65] },
      { pkt := Packet.signature 9 9 16 SigCheck.badSign,
        flag := { markA := true, seluid := true } }] false 2
      (by decide)).2.2.2.1 (by decide)).1 (by decide))

/-! ## Theorems about the pairing invariant -/

theorem uidNames_cons (n : KbNode) (kb : Keyblock) :
    uidNames (n :: kb) =
      if isUserIdNode n then uidName n :: uidNames kb else uidNames kb := by
  rw [uidNames, List.filter_cons]
  by_cases h : isUserIdNode n = true
  · rw [if_pos h, if_pos h, List.map_cons]
    rfl
  · rw [if_neg h, if_neg h]
    rfl

theorem subkeyIds_cons (n : KbNode) (kb : Keyblock) :
    subkeyIds (n :: kb) =
      if isPublicSubkeyNode n || isSecretSubkeyNode n then
        nodeKeyid n :: subkeyIds kb
      else subkeyIds kb := by
  rw [subkeyIds, List.filter_cons]
  by_cases h : (isPublicSubkeyNode n || isSecretSubkeyNode n) = true
  · rw [if_pos h, if_pos h, List.map_cons]
    rfl
  · rw [if_neg h, if_neg h]
    rfl

theorem uidNames_append (a b : Keyblock) :
    uidNames (a ++ b) = uidNames a ++ uidNames b := by
  rw [uidNames, uidNames, uidNames, List.filter_append, List.map_append]

theorem subkeyIds_append (a b : Keyblock) :
    subkeyIds (a ++ b) = subkeyIds a ++ subkeyIds b := by
  rw [subkeyIds, subkeyIds, subkeyIds, List.filter_append, List.map_append]

theorem commit_kbnode_cons (n : KbNode) (kb : Keyblock) :
    commit_kbnode (n :: kb) =
      if n.deleted then commit_kbnode kb else n :: commit_kbnode kb := by
  rw [commit_kbnode, List.filter_cons]
  by_cases h : n.deleted = true
  · rw [if_pos h]
    simp [h, commit_kbnode]
  · rw [if_neg h]
    have : (!n.deleted) = true := by simp [eq_false_of_ne_true h]
    simp [this, commit_kbnode, eq_false_of_ne_true h]

/-- The uid names of the live nodes of a block. -/
def liveNames (kb : Keyblock) : List (List Nat) := uidNames (commit_kbnode kb)

/-- The subkey key ids of the live nodes of a block. -/
def liveSubkeyIds (kb : Keyblock) : List (Nat × Nat) := subkeyIds (commit_kbnode kb)

/-- A uid node survives one deluid secret-block scan iff it was live and its
name differs from the scanned name; the scan touches no other uid state. -/
theorem deluidSecMark_names (name : List Nat) :
    ∀ (s : Bool) (kb : Keyblock) (nm : List Nat),
      nm ∈ liveNames (deluidSecMark name s kb) ↔
        nm ∈ liveNames kb ∧ nm ≠ name := by
  intro s kb
  induction kb generalizing s with
  | nil => intro nm; simp [deluidSecMark, liveNames, commit_kbnode, uidNames]
  | cons n ns ih =>
    intro nm
    rw [deluidSecMark]
    by_cases hu : isUserIdNode n = true
    · rw [if_pos hu]
      dsimp only
      by_cases hm : (uidName n == name) = true
      · have hmn : uidName n = name := by simpa using hm
        rw [hm, if_pos rfl]
        show nm ∈ liveNames (delete_kbnode n :: deluidSecMark name true ns) ↔ _
        rw [liveNames, commit_kbnode_cons]
        rw [show (delete_kbnode n).deleted = true from rfl, if_pos rfl]
        rw [liveNames, commit_kbnode_cons]
        by_cases hd : n.deleted = true
        · rw [if_pos hd]
          exact ih true nm
        · rw [if_neg hd]
          rw [uidNames_cons, if_pos hu]
          constructor
          · intro h
            obtain ⟨h1, h2⟩ := (ih true nm).mp h
            exact ⟨List.mem_cons_of_mem _ h1, h2⟩
          · intro ⟨h1, h2⟩
            rcases List.mem_cons.mp h1 with rfl | h3
            · exact absurd hmn h2
            · exact (ih true nm).mpr ⟨h3, h2⟩
      · have hmf : (uidName n == name) = false := eq_false_of_ne_true hm
        have hmn : uidName n ≠ name := by simpa using hm
        rw [hmf, if_neg (by simp)]
        show nm ∈ liveNames (n :: deluidSecMark name false ns) ↔ _
        rw [liveNames, commit_kbnode_cons, liveNames, commit_kbnode_cons]
        by_cases hd : n.deleted = true
        · rw [if_pos hd, if_pos hd]
          exact ih false nm
        · rw [if_neg hd, if_neg hd]
          rw [uidNames_cons, if_pos hu, uidNames_cons, if_pos hu]
          constructor
          · intro h
            rcases List.mem_cons.mp h with rfl | h3
            · exact ⟨List.mem_cons_self _ _, hmn⟩
            · obtain ⟨h4, h5⟩ := (ih false nm).mp h3
              exact ⟨List.mem_cons_of_mem _ h4, h5⟩
          · intro ⟨h1, h2⟩
            rcases List.mem_cons.mp h1 with rfl | h3
            · exact List.mem_cons_self _ _
            · exact List.mem_cons_of_mem _ ((ih false nm).mpr ⟨h3, h2⟩)
    · rw [if_neg hu]
      have hnames : ∀ (m : KbNode) (tail : Keyblock), m.pkt = n.pkt →
          (nm ∈ liveNames (m :: tail) ↔ nm ∈ liveNames tail) := by
        intro m tail hpkt
        rw [liveNames, commit_kbnode_cons]
        by_cases hd : m.deleted = true
        · rw [if_pos hd]
          exact Iff.rfl
        · rw [if_neg hd, uidNames_cons]
          have hum : isUserIdNode m = false := by
            rw [isUserIdNode, hpkt]
            rw [isUserIdNode] at hu
            exact eq_false_of_ne_true hu
          rw [hum]
          simp only [Bool.false_eq_true, if_false]
          exact Iff.rfl
      by_cases hsig : (s && isSignatureNode n) = true
      · rw [if_pos hsig]
        rw [hnames (delete_kbnode n) (deluidSecMark name s ns) rfl,
          hnames n ns rfl]
        exact ih s nm
      · rw [if_neg hsig]
        by_cases hsk : isSecretSubkeyNode n = true
        · rw [if_pos hsk]
          rw [hnames n (deluidSecMark name false ns) rfl, hnames n ns rfl]
          exact ih false nm
        · rw [if_neg hsk]
          rw [hnames n (deluidSecMark name s ns) rfl, hnames n ns rfl]
          exact ih s nm

/-- The deluid secret-block scan leaves every subkey node and its tombstone
bit untouched. -/
theorem deluidSecMark_subkeys (name : List Nat) :
    ∀ (s : Bool) (kb : Keyblock),
      liveSubkeyIds (deluidSecMark name s kb) = liveSubkeyIds kb := by
  intro s kb
  induction kb generalizing s with
  | nil => rfl
  | cons n ns ih =>
    rw [deluidSecMark]
    have hdel : ∀ (m : KbNode) (t1 t2 : Keyblock), (isPublicSubkeyNode m
        || isSecretSubkeyNode m) = false →
        liveSubkeyIds t1 = liveSubkeyIds t2 →
        liveSubkeyIds (m :: t1) = liveSubkeyIds t2 ∧
          liveSubkeyIds (delete_kbnode m :: t1) = liveSubkeyIds t2 := by
      intro m t1 t2 hns ht
      constructor
      · rw [liveSubkeyIds, commit_kbnode_cons]
        by_cases hd : m.deleted = true
        · rw [if_pos hd]
          exact ht
        · rw [if_neg hd, subkeyIds_cons, hns]
          simp only [Bool.false_eq_true, if_false]
          exact ht
      · rw [liveSubkeyIds, commit_kbnode_cons]
        rw [show (delete_kbnode m).deleted = true from rfl, if_pos rfl]
        exact ht
    have hkeep : ∀ (m : KbNode) (t1 t2 : Keyblock),
        liveSubkeyIds t1 = liveSubkeyIds t2 →
        liveSubkeyIds (m :: t1) = liveSubkeyIds (m :: t2) := by
      intro m t1 t2 ht
      rw [liveSubkeyIds, commit_kbnode_cons, liveSubkeyIds, commit_kbnode_cons]
      by_cases hd : m.deleted = true
      · rw [if_pos hd, if_pos hd]
        exact ht
      · rw [if_neg hd, if_neg hd, subkeyIds_cons, subkeyIds_cons]
        have ht2 : subkeyIds (commit_kbnode t1) = subkeyIds (commit_kbnode t2) := ht
        by_cases hb : (isPublicSubkeyNode m || isSecretSubkeyNode m) = true
        · rw [if_pos hb, if_pos hb, ht2]
        · rw [if_neg hb, if_neg hb]
          exact ht2
    have huidns : isUserIdNode n = true →
        (isPublicSubkeyNode n || isSecretSubkeyNode n) = false := by
      intro h
      rw [isUserIdNode] at h
      rw [isPublicSubkeyNode, isSecretSubkeyNode]
      cases hp : n.pkt <;> rw [hp] at h <;> simp at h <;> rfl
    have hsigns : isSignatureNode n = true →
        (isPublicSubkeyNode n || isSecretSubkeyNode n) = false := by
      intro h
      rw [isSignatureNode] at h
      rw [isPublicSubkeyNode, isSecretSubkeyNode]
      cases hp : n.pkt <;> rw [hp] at h <;> simp at h <;> rfl
    by_cases hu : isUserIdNode n = true
    · rw [if_pos hu]
      dsimp only
      by_cases hm : (uidName n == name) = true
      · rw [hm, if_pos rfl]
        show liveSubkeyIds (delete_kbnode n :: deluidSecMark name true ns) = _
        rw [(hdel n (deluidSecMark name true ns) ns (huidns hu) (ih true)).2]
        exact ((hdel n ns ns (huidns hu) rfl).1).symm
      · have hmf : (uidName n == name) = false := eq_false_of_ne_true hm
        rw [hmf, if_neg (by simp)]
        show liveSubkeyIds (n :: deluidSecMark name false ns) = _
        exact hkeep n (deluidSecMark name false ns) ns (ih false)
    · rw [if_neg hu]
      by_cases hsig : (s && isSignatureNode n) = true
      · rw [if_pos hsig]
        have hs2 : isSignatureNode n = true := (Bool.and_eq_true .. ▸ hsig).2
        rw [(hdel n (deluidSecMark name s ns) ns (hsigns hs2) (ih s)).2]
        exact ((hdel n ns ns (hsigns hs2) rfl).1).symm
      · rw [if_neg hsig]
        by_cases hsk : isSecretSubkeyNode n = true
        · rw [if_pos hsk]
          exact hkeep n (deluidSecMark name false ns) ns (ih false)
        · rw [if_neg hsk]
          exact hkeep n (deluidSecMark name s ns) ns (ih s)

/-- Names of the selected uid nodes, in order. -/
def selUidNames (kb : Keyblock) : List (List Nat) :=
  (kb.filter (fun n => isUserIdNode n && n.flag.seluid)).map uidName

/-- Key ids of the selected public subkey nodes, in order. -/
def selSubkeyIds (kb : Keyblock) : List (Nat × Nat) :=
  (kb.filter (fun n => isPublicSubkeyNode n && n.flag.selkey)).map nodeKeyid

theorem commit_of_live (kb : Keyblock) (h : ∀ n ∈ kb, n.deleted = false) :
    commit_kbnode kb = kb := by
  rw [commit_kbnode]
  exact List.filter_eq_self.mpr (fun n hn => by simp [h n hn])

/-- The secret block coming out of the deluid walk is the input secret block
with the per-selected-uid scan applied once for each selected public uid
name, in keyblock order. -/
theorem deluidWalk_sec :
    ∀ (kb : Keyblock) (sel : Bool) (sec : Keyblock),
      (deluidWalk sel kb (some sec)).2 =
        some ((selUidNames kb).foldl (fun s x => deluidSecMark x false s) sec) := by
  intro kb
  induction kb with
  | nil => intro sel sec; rfl
  | cons n ns ih =>
    intro sel sec
    rw [deluidWalk]
    have hsplit : selUidNames (n :: ns) =
        if isUserIdNode n && n.flag.seluid then uidName n :: selUidNames ns
        else selUidNames ns := by
      rw [selUidNames, List.filter_cons]
      by_cases h : (isUserIdNode n && n.flag.seluid) = true
      · rw [if_pos h, if_pos h, List.map_cons]
        rfl
      · rw [if_neg h, if_neg h]
        rfl
    by_cases hu : isUserIdNode n = true
    · rw [if_pos hu]
      dsimp only
      by_cases hsel : n.flag.seluid = true
      · rw [if_pos hsel]
        have hm : Option.map (deluidSecMark (uidName n) false) (some sec) =
            some (deluidSecMark (uidName n) false sec) := rfl
        rw [hm, ih]
        rw [hsplit, hu, hsel]
        simp
      · rw [if_neg hsel]
        rw [ih]
        rw [hsplit, hu]
        have : n.flag.seluid = false := eq_false_of_ne_true hsel
        rw [this]
        simp
    · rw [if_neg hu]
      have hns : selUidNames (n :: ns) = selUidNames ns := by
        rw [hsplit]
        have : isUserIdNode n = false := eq_false_of_ne_true hu
        rw [this]
        simp
      rw [hns]
      by_cases hsig : (sel && isSignatureNode n) = true
      · rw [if_pos hsig]
        exact ih sel sec
      · rw [if_neg hsig]
        by_cases hpk : isPublicSubkeyNode n = true
        · rw [if_pos hpk]
          exact ih false sec
        · rw [if_neg hpk]
          exact ih sel sec

theorem foldMark_names (names : List (List Nat)) :
    ∀ (sec : Keyblock) (nm : List Nat),
      nm ∈ liveNames (names.foldl (fun s x => deluidSecMark x false s) sec) ↔
        nm ∈ liveNames sec ∧ nm ∉ names := by
  induction names with
  | nil => intro sec nm; simp
  | cons x xs ih =>
    intro sec nm
    rw [List.foldl_cons]
    rw [ih (deluidSecMark x false sec) nm]
    rw [deluidSecMark_names x false sec nm]
    constructor
    · intro ⟨⟨h1, h2⟩, h3⟩
      exact ⟨h1, by simp [h2, h3]⟩
    · intro ⟨h1, h2⟩
      simp only [List.mem_cons, not_or] at h2
      exact ⟨⟨h1, h2.1⟩, h2.2⟩

theorem foldMark_subkeys (names : List (List Nat)) :
    ∀ (sec : Keyblock),
      liveSubkeyIds (names.foldl (fun s x => deluidSecMark x false s) sec) =
        liveSubkeyIds sec := by
  induction names with
  | nil => intro sec; rfl
  | cons x xs ih =>
    intro sec
    rw [List.foldl_cons, ih, deluidSecMark_subkeys]

theorem liveNames_cons_live (n : KbNode) (kb : Keyblock) (hd : n.deleted = false) :
    liveNames (n :: kb) =
      if isUserIdNode n then uidName n :: liveNames kb else liveNames kb := by
  rw [liveNames, commit_kbnode_cons, hd]
  simp only [Bool.false_eq_true, if_false]
  rw [uidNames_cons]
  by_cases h : isUserIdNode n = true
  · rw [if_pos h, if_pos h]
    rfl
  · rw [if_neg h, if_neg h]
    rfl

theorem liveNames_cons_deleted (n : KbNode) (kb : Keyblock) :
    liveNames (delete_kbnode n :: kb) = liveNames kb := by
  rw [liveNames, commit_kbnode_cons]
  rfl

theorem liveSubkeyIds_cons_live (n : KbNode) (kb : Keyblock) (hd : n.deleted = false) :
    liveSubkeyIds (n :: kb) =
      if isPublicSubkeyNode n || isSecretSubkeyNode n then
        nodeKeyid n :: liveSubkeyIds kb
      else liveSubkeyIds kb := by
  rw [liveSubkeyIds, commit_kbnode_cons, hd]
  simp only [Bool.false_eq_true, if_false]
  rw [subkeyIds_cons]
  by_cases h : (isPublicSubkeyNode n || isSecretSubkeyNode n) = true
  · rw [if_pos h, if_pos h]
    rfl
  · rw [if_neg h, if_neg h]
    rfl

theorem liveSubkeyIds_cons_deleted (n : KbNode) (kb : Keyblock) :
    liveSubkeyIds (delete_kbnode n :: kb) = liveSubkeyIds kb := by
  rw [liveSubkeyIds, commit_kbnode_cons]
  rfl

/-- The committed public block of the deluid walk holds exactly the uid
names of the unselected uids (order preserved). -/
theorem deluidWalk_pub_names :
    ∀ (kb : Keyblock) (sel : Bool) (sec : Option Keyblock),
      (∀ n ∈ kb, n.deleted = false) →
      liveNames (deluidWalk sel kb sec).1 =
        uidNames (kb.filter (fun n => !(isUserIdNode n && n.flag.seluid))) := by
  intro kb
  induction kb with
  | nil => intro sel sec _; rfl
  | cons n ns ih =>
    intro sel sec hlive
    have hd : n.deleted = false := hlive n (List.mem_cons_self n ns)
    have hlive2 : ∀ x ∈ ns, x.deleted = false :=
      fun x hx => hlive x (List.mem_cons_of_mem n hx)
    rw [deluidWalk, List.filter_cons]
    by_cases hu : isUserIdNode n = true
    · rw [if_pos hu]
      dsimp only
      by_cases hsel : n.flag.seluid = true
      · simp only [hu, hsel, Bool.and_self, Bool.not_true, Bool.false_eq_true, if_false,
          eq_self_iff_true, if_true]
        rw [liveNames_cons_deleted]
        exact ih true _ hlive2
      · have hself : n.flag.seluid = false := eq_false_of_ne_true hsel
        simp only [hu, hself, Bool.and_false, Bool.not_false, Bool.false_eq_true, if_false,
          eq_self_iff_true, if_true]
        rw [liveNames_cons_live n _ hd, if_pos hu, uidNames_cons, if_pos hu]
        rw [ih false sec hlive2]
    · rw [if_neg hu]
      have huf : isUserIdNode n = false := eq_false_of_ne_true hu
      simp only [huf, Bool.false_and, Bool.not_false, eq_self_iff_true, if_true]
      rw [uidNames_cons, huf]
      simp only [Bool.false_eq_true, if_false]
      by_cases hsig : (sel && isSignatureNode n) = true
      · rw [if_pos hsig]
        dsimp only
        rw [liveNames_cons_deleted]
        exact ih sel sec hlive2
      · rw [if_neg hsig]
        by_cases hpk : isPublicSubkeyNode n = true
        · rw [if_pos hpk]
          dsimp only
          rw [liveNames_cons_live n _ hd, huf]
          simp only [Bool.false_eq_true, if_false]
          exact ih false sec hlive2
        · rw [if_neg hpk]
          dsimp only
          rw [liveNames_cons_live n _ hd, huf]
          simp only [Bool.false_eq_true, if_false]
          exact ih sel sec hlive2

/-- The deluid walk deletes no subkey node: the committed public block keeps
exactly the subkey ids of the input. -/
theorem deluidWalk_pub_subkeys :
    ∀ (kb : Keyblock) (sel : Bool) (sec : Option Keyblock),
      (∀ n ∈ kb, n.deleted = false) →
      liveSubkeyIds (deluidWalk sel kb sec).1 = subkeyIds kb := by
  intro kb
  induction kb with
  | nil => intro sel sec _; rfl
  | cons n ns ih =>
    intro sel sec hlive
    have hd : n.deleted = false := hlive n (List.mem_cons_self n ns)
    have hlive2 : ∀ x ∈ ns, x.deleted = false :=
      fun x hx => hlive x (List.mem_cons_of_mem n hx)
    rw [deluidWalk, subkeyIds_cons]
    have hdrop : ∀ (t : Keyblock) (r : List (Nat × Nat)) (m : KbNode),
        (isPublicSubkeyNode m || isSecretSubkeyNode m) = false →
        liveSubkeyIds t = r →
        liveSubkeyIds (m :: t) = r ∧ liveSubkeyIds (delete_kbnode m :: t) = r := by
      intro t r m hns ht
      constructor
      · rw [liveSubkeyIds, commit_kbnode_cons]
        by_cases hdm : m.deleted = true
        · rw [if_pos hdm]
          exact ht
        · rw [if_neg hdm, subkeyIds_cons, hns]
          simp only [Bool.false_eq_true, if_false]
          exact ht
      · rw [liveSubkeyIds, commit_kbnode_cons]
        rw [show (delete_kbnode m).deleted = true from rfl, if_pos rfl]
        exact ht
    have husub : isUserIdNode n = true →
        (isPublicSubkeyNode n || isSecretSubkeyNode n) = false := by
      intro h
      rw [isUserIdNode] at h
      rw [isPublicSubkeyNode, isSecretSubkeyNode]
      cases hp : n.pkt <;> rw [hp] at h <;> simp at h <;> rfl
    have hssub : isSignatureNode n = true →
        (isPublicSubkeyNode n || isSecretSubkeyNode n) = false := by
      intro h
      rw [isSignatureNode] at h
      rw [isPublicSubkeyNode, isSecretSubkeyNode]
      cases hp : n.pkt <;> rw [hp] at h <;> simp at h <;> rfl
    by_cases hu : isUserIdNode n = true
    · rw [if_pos hu]
      dsimp only
      rw [husub hu]
      simp only [Bool.false_eq_true, if_false]
      by_cases hsel : n.flag.seluid = true
      · rw [if_pos hsel]
        exact (hdrop _ _ n (husub hu) (ih n.flag.seluid _ hlive2)).2
      · rw [if_neg hsel]
        exact (hdrop _ _ n (husub hu) (ih n.flag.seluid _ hlive2)).1
    · rw [if_neg hu]
      by_cases hsig : (sel && isSignatureNode n) = true
      · rw [if_pos hsig]
        have hs2 : isSignatureNode n = true := (Bool.and_eq_true .. ▸ hsig).2
        rw [hssub hs2]
        simp only [Bool.false_eq_true, if_false]
        exact (hdrop _ _ n (hssub hs2) (ih sel sec hlive2)).2
      · rw [if_neg hsig]
        by_cases hpk : isPublicSubkeyNode n = true
        · rw [if_pos hpk]
          have hb : (isPublicSubkeyNode n || isSecretSubkeyNode n) = true := by
            rw [hpk]
            rfl
          rw [hb]
          simp only [if_pos rfl]
          rw [liveSubkeyIds, commit_kbnode_cons, hd]
          simp only [Bool.false_eq_true, if_false]
          rw [subkeyIds_cons, hb]
          simp only [if_pos rfl]
          have ih2 : subkeyIds (commit_kbnode (deluidWalk false ns sec).1) = subkeyIds ns :=
            ih false sec hlive2
          rw [ih2]
        · rw [if_neg hpk]
          by_cases hb : (isPublicSubkeyNode n || isSecretSubkeyNode n) = true
          · rw [hb]
            simp only [if_pos rfl]
            rw [liveSubkeyIds, commit_kbnode_cons, hd]
            simp only [Bool.false_eq_true, if_false]
            rw [subkeyIds_cons, hb]
            simp only [if_pos rfl]
            have ih2 : subkeyIds (commit_kbnode (deluidWalk sel ns sec).1) = subkeyIds ns :=
              ih sel sec hlive2
            rw [ih2]
          · have hbf : (isPublicSubkeyNode n || isSecretSubkeyNode n) = false :=
              eq_false_of_ne_true hb
            rw [hbf]
            simp only [Bool.false_eq_true, if_false]
            exact (hdrop _ _ n hbf (ih sel sec hlive2)).1

theorem selUidNames_cons (n : KbNode) (kb : Keyblock) :
    selUidNames (n :: kb) =
      if isUserIdNode n && n.flag.seluid then uidName n :: selUidNames kb
      else selUidNames kb := by
  rw [selUidNames, List.filter_cons]
  by_cases h : (isUserIdNode n && n.flag.seluid) = true
  · rw [if_pos h, if_pos h, List.map_cons]
    rfl
  · rw [if_neg h, if_neg h]
    rfl

theorem selSubkeyIds_cons (n : KbNode) (kb : Keyblock) :
    selSubkeyIds (n :: kb) =
      if isPublicSubkeyNode n && n.flag.selkey then nodeKeyid n :: selSubkeyIds kb
      else selSubkeyIds kb := by
  rw [selSubkeyIds, List.filter_cons]
  by_cases h : (isPublicSubkeyNode n && n.flag.selkey) = true
  · rw [if_pos h, if_pos h, List.map_cons]
    rfl
  · rw [if_neg h, if_neg h]
    rfl

theorem nodup_count_le_one {α} [BEq α] [LawfulBEq α] :
    ∀ (l : List α), l.Nodup → ∀ a, l.count a ≤ 1 := by
  intro l
  induction l with
  | nil => intro _ a; simp
  | cons x xs ih =>
    intro h a
    have h2 := List.nodup_cons.mp h
    rw [List.count_cons]
    by_cases hax : x = a
    · subst hax
      have hz : xs.count x = 0 := by
        rw [List.count_eq_zero]
        exact h2.1
      simp [hz]
    · have hb : (x == a) = false := by
        simpa using hax
      rw [hb]
      simpa using ih h2.2 a

/-- Each uid name occurrence of a block is either in the unselected part or
in the selected-names list: the two node sets partition the uid nodes. -/
theorem uidNames_count_split :
    ∀ (kb : Keyblock) (nm : List Nat),
      (uidNames kb).count nm =
        (uidNames (kb.filter (fun n => !(isUserIdNode n && n.flag.seluid)))).count nm +
          (selUidNames kb).count nm := by
  intro kb
  induction kb with
  | nil => intro nm; rfl
  | cons n ns ih =>
    intro nm
    rw [uidNames_cons, List.filter_cons, selUidNames_cons]
    by_cases hu : isUserIdNode n = true
    · by_cases hsel : n.flag.seluid = true
      · simp only [hu, hsel, Bool.and_self, Bool.not_true, Bool.false_eq_true, if_false,
          eq_self_iff_true, if_true]
        rw [List.count_cons, List.count_cons, ih nm]
        omega
      · have hself : n.flag.seluid = false := eq_false_of_ne_true hsel
        simp only [hu, hself, Bool.and_false, Bool.not_false, Bool.false_eq_true, if_false,
          eq_self_iff_true, if_true]
        rw [uidNames_cons, if_pos hu]
        rw [List.count_cons, List.count_cons, ih nm]
        omega
    · have huf : isUserIdNode n = false := eq_false_of_ne_true hu
      simp only [huf, Bool.false_and, Bool.not_false, Bool.false_eq_true, if_false,
        eq_self_iff_true, if_true]
      rw [uidNames_cons, huf]
      simp only [Bool.false_eq_true, if_false]
      exact ih nm

/-- Each subkey id occurrence of a block is either in the unselected part or
in the selected-ids list. -/
theorem subkeyIds_count_split :
    ∀ (kb : Keyblock) (k : Nat × Nat),
      (subkeyIds kb).count k =
        (subkeyIds (kb.filter (fun n => !(isPublicSubkeyNode n && n.flag.selkey)))).count k +
          (selSubkeyIds kb).count k := by
  intro kb
  induction kb with
  | nil => intro k; rfl
  | cons n ns ih =>
    intro k
    rw [subkeyIds_cons, List.filter_cons, selSubkeyIds_cons]
    by_cases hpk : isPublicSubkeyNode n = true
    · by_cases hsel : n.flag.selkey = true
      · simp only [hpk, hsel, Bool.true_or, Bool.and_self, Bool.not_true, Bool.false_eq_true,
          if_false, eq_self_iff_true, if_true]
        rw [List.count_cons, List.count_cons, ih k]
        omega
      · have hself : n.flag.selkey = false := eq_false_of_ne_true hsel
        simp only [hpk, hself, Bool.true_or, Bool.and_false, Bool.not_false, Bool.false_eq_true,
          if_false, eq_self_iff_true, if_true]
        have hb : (isPublicSubkeyNode n || isSecretSubkeyNode n) = true := by
          rw [hpk]
          rfl
        rw [subkeyIds_cons, if_pos hb]
        rw [List.count_cons, List.count_cons, ih k]
        omega
    · have hpf : isPublicSubkeyNode n = false := eq_false_of_ne_true hpk
      simp only [hpf, Bool.false_or, Bool.false_and, Bool.not_false, Bool.false_eq_true,
        if_false, eq_self_iff_true, if_true]
      rw [subkeyIds_cons, hpf]
      simp only [Bool.false_or]
      by_cases hss : isSecretSubkeyNode n = true
      · rw [if_pos hss, if_pos hss]
        rw [List.count_cons, List.count_cons, ih k]
        omega
      · rw [if_neg hss, if_neg hss]
        exact ih k

/-- The delkey secret-block scan introduces no public subkey node. -/
theorem delkeySecMark_no_pub (ki : Nat × Nat) :
    ∀ (s : Bool) (kb : Keyblock),
      (∀ n ∈ kb, isPublicSubkeyNode n = false) →
      ∀ m ∈ delkeySecMark ki s kb, isPublicSubkeyNode m = false := by
  intro s kb
  induction kb generalizing s with
  | nil => intro _ m hm; simp [delkeySecMark] at hm
  | cons n ns ih =>
    intro hpure m hm
    have hp0 : isPublicSubkeyNode n = false := hpure n (List.mem_cons_self n ns)
    have hpure2 : ∀ x ∈ ns, isPublicSubkeyNode x = false :=
      fun x hx => hpure x (List.mem_cons_of_mem n hx)
    rw [delkeySecMark] at hm
    by_cases hsk : isSecretSubkeyNode n = true
    · rw [if_pos hsk] at hm
      dsimp only at hm
      rcases List.mem_cons.mp hm with rfl | h3
      · by_cases hmm : (nodeKeyid n == ki) = true
        · rw [if_pos hmm]
          exact hp0
        · rw [if_neg hmm]
          exact hp0
      · exact ih (nodeKeyid n == ki) hpure2 m h3
    · rw [if_neg hsk] at hm
      by_cases hsig : (s && isSignatureNode n) = true
      · rw [if_pos hsig] at hm
        rcases List.mem_cons.mp hm with rfl | h3
        · exact hp0
        · exact ih s hpure2 m h3
      · rw [if_neg hsig] at hm
        rcases List.mem_cons.mp hm with rfl | h3
        · exact hp0
        · exact ih false hpure2 m h3

/-- A subkey id survives one delkey secret-block scan iff it was live and
differs from the scanned key id (in a block without public subkey nodes). -/
theorem delkeySecMark_ids (ki : Nat × Nat) :
    ∀ (s : Bool) (kb : Keyblock),
      (∀ n ∈ kb, isPublicSubkeyNode n = false) →
      ∀ (k : Nat × Nat),
        k ∈ liveSubkeyIds (delkeySecMark ki s kb) ↔
          k ∈ liveSubkeyIds kb ∧ k ≠ ki := by
  intro s kb
  induction kb generalizing s with
  | nil => intro _ k; simp [delkeySecMark, liveSubkeyIds, commit_kbnode, subkeyIds]
  | cons n ns ih =>
    intro hpure k
    have hp0 : isPublicSubkeyNode n = false := hpure n (List.mem_cons_self n ns)
    have hpure2 : ∀ x ∈ ns, isPublicSubkeyNode x = false :=
      fun x hx => hpure x (List.mem_cons_of_mem n hx)
    rw [delkeySecMark]
    by_cases hsk : isSecretSubkeyNode n = true
    · rw [if_pos hsk]
      dsimp only
      have hsub : (isPublicSubkeyNode n || isSecretSubkeyNode n) = true := by
        rw [hsk, Bool.or_true]
      by_cases hm : (nodeKeyid n == ki) = true
      · have hmn : nodeKeyid n = ki := by simpa using hm
        rw [hm, if_pos rfl]
        show k ∈ liveSubkeyIds (delete_kbnode n :: delkeySecMark ki true ns) ↔ _
        rw [liveSubkeyIds_cons_deleted]
        by_cases hd : n.deleted = true
        · have hrhs : liveSubkeyIds (n :: ns) = liveSubkeyIds ns := by
            rw [liveSubkeyIds, commit_kbnode_cons, hd, if_pos rfl]
            rfl
          rw [hrhs]
          exact ih true hpure2 k
        · have hdf : n.deleted = false := eq_false_of_ne_true hd
          rw [liveSubkeyIds_cons_live n ns hdf, if_pos hsub]
          constructor
          · intro h
            obtain ⟨h1, h2⟩ := (ih true hpure2 k).mp h
            exact ⟨List.mem_cons_of_mem _ h1, h2⟩
          · intro ⟨h1, h2⟩
            rcases List.mem_cons.mp h1 with rfl | h3
            · exact absurd hmn h2
            · exact (ih true hpure2 k).mpr ⟨h3, h2⟩
      · have hmf : (nodeKeyid n == ki) = false := eq_false_of_ne_true hm
        have hmn : nodeKeyid n ≠ ki := by simpa using hm
        rw [hmf, if_neg (by simp)]
        show k ∈ liveSubkeyIds (n :: delkeySecMark ki false ns) ↔ _
        rw [liveSubkeyIds, commit_kbnode_cons, liveSubkeyIds, commit_kbnode_cons]
        by_cases hd : n.deleted = true
        · rw [if_pos hd, if_pos hd]
          exact ih false hpure2 k
        · rw [if_neg hd, if_neg hd]
          rw [subkeyIds_cons, if_pos hsub, subkeyIds_cons, if_pos hsub]
          constructor
          · intro h
            rcases List.mem_cons.mp h with rfl | h3
            · exact ⟨List.mem_cons_self _ _, hmn⟩
            · obtain ⟨h4, h5⟩ := (ih false hpure2 k).mp h3
              exact ⟨List.mem_cons_of_mem _ h4, h5⟩
          · intro ⟨h1, h2⟩
            rcases List.mem_cons.mp h1 with rfl | h3
            · exact List.mem_cons_self _ _
            · exact List.mem_cons_of_mem _ ((ih false hpure2 k).mpr ⟨h3, h2⟩)
    · rw [if_neg hsk]
      have hskf : isSecretSubkeyNode n = false := eq_false_of_ne_true hsk
      have hids : ∀ (m : KbNode) (tail : Keyblock), m.pkt = n.pkt →
          (k ∈ liveSubkeyIds (m :: tail) ↔ k ∈ liveSubkeyIds tail) := by
        intro m tail hpkt
        rw [liveSubkeyIds, commit_kbnode_cons]
        by_cases hd : m.deleted = true
        · rw [if_pos hd]
          exact Iff.rfl
        · rw [if_neg hd, subkeyIds_cons]
          have hmp : isPublicSubkeyNode m = false := by
            rw [isPublicSubkeyNode, hpkt]
            rw [isPublicSubkeyNode] at hp0
            exact hp0
          have hmss : isSecretSubkeyNode m = false := by
            rw [isSecretSubkeyNode, hpkt]
            rw [isSecretSubkeyNode] at hskf
            exact hskf
          rw [hmp, hmss]
          simp only [Bool.or_self, Bool.false_eq_true, if_false]
          exact Iff.rfl
      by_cases hsig : (s && isSignatureNode n) = true
      · rw [if_pos hsig]
        rw [hids (delete_kbnode n) (delkeySecMark ki s ns) rfl, hids n ns rfl]
        exact ih s hpure2 k
      · rw [if_neg hsig]
        rw [hids n (delkeySecMark ki false ns) rfl, hids n ns rfl]
        exact ih false hpure2 k

/-- The delkey secret-block scan leaves every uid node and its tombstone bit
untouched. -/
theorem delkeySecMark_names (ki : Nat × Nat) :
    ∀ (s : Bool) (kb : Keyblock),
      liveNames (delkeySecMark ki s kb) = liveNames kb := by
  intro s kb
  induction kb generalizing s with
  | nil => rfl
  | cons n ns ih =>
    rw [delkeySecMark]
    have hdel : ∀ (m : KbNode) (t1 t2 : Keyblock), isUserIdNode m = false →
        liveNames t1 = liveNames t2 →
        liveNames (m :: t1) = liveNames t2 ∧
          liveNames (delete_kbnode m :: t1) = liveNames t2 := by
      intro m t1 t2 hnu ht
      constructor
      · rw [liveNames, commit_kbnode_cons]
        by_cases hd : m.deleted = true
        · rw [if_pos hd]
          exact ht
        · rw [if_neg hd, uidNames_cons, hnu]
          simp only [Bool.false_eq_true, if_false]
          exact ht
      · rw [liveNames_cons_deleted]
        exact ht
    have hkeep : ∀ (m : KbNode) (t1 t2 : Keyblock),
        liveNames t1 = liveNames t2 →
        liveNames (m :: t1) = liveNames (m :: t2) := by
      intro m t1 t2 ht
      rw [liveNames, commit_kbnode_cons, liveNames, commit_kbnode_cons]
      by_cases hd : m.deleted = true
      · rw [if_pos hd, if_pos hd]
        exact ht
      · rw [if_neg hd, if_neg hd, uidNames_cons, uidNames_cons]
        have ht2 : uidNames (commit_kbnode t1) = uidNames (commit_kbnode t2) := ht
        by_cases hb : isUserIdNode m = true
        · rw [if_pos hb, if_pos hb, ht2]
        · rw [if_neg hb, if_neg hb]
          exact ht2
    have hsknu : isSecretSubkeyNode n = true → isUserIdNode n = false := by
      intro h
      rw [isSecretSubkeyNode] at h
      rw [isUserIdNode]
      cases hp : n.pkt <;> rw [hp] at h <;> simp at h <;> rfl
    have hsignu : isSignatureNode n = true → isUserIdNode n = false := by
      intro h
      rw [isSignatureNode] at h
      rw [isUserIdNode]
      cases hp : n.pkt <;> rw [hp] at h <;> simp at h <;> rfl
    by_cases hsk : isSecretSubkeyNode n = true
    · rw [if_pos hsk]
      dsimp only
      by_cases hm : (nodeKeyid n == ki) = true
      · rw [hm, if_pos rfl]
        show liveNames (delete_kbnode n :: delkeySecMark ki true ns) = _
        rw [(hdel n (delkeySecMark ki true ns) ns (hsknu hsk) (ih true)).2]
        exact ((hdel n ns ns (hsknu hsk) rfl).1).symm
      · have hmf : (nodeKeyid n == ki) = false := eq_false_of_ne_true hm
        rw [hmf, if_neg (by simp)]
        show liveNames (n :: delkeySecMark ki false ns) = _
        exact hkeep n (delkeySecMark ki false ns) ns (ih false)
    · rw [if_neg hsk]
      by_cases hsig : (s && isSignatureNode n) = true
      · rw [if_pos hsig]
        have hs2 : isSignatureNode n = true := (Bool.and_eq_true .. ▸ hsig).2
        rw [(hdel n (delkeySecMark ki s ns) ns (hsignu hs2) (ih s)).2]
        exact ((hdel n ns ns (hsignu hs2) rfl).1).symm
      · rw [if_neg hsig]
        exact hkeep n (delkeySecMark ki false ns) ns (ih false)

/-- The secret block coming out of the delkey walk is the input secret block
with the per-selected-subkey scan applied once for each selected public
subkey id, in keyblock order. -/
theorem delkeyWalk_sec :
    ∀ (kb : Keyblock) (sel : Bool) (sec : Keyblock),
      (delkeyWalk sel kb (some sec)).2 =
        some ((selSubkeyIds kb).foldl (fun s x => delkeySecMark x false s) sec) := by
  intro kb
  induction kb with
  | nil => intro sel sec; rfl
  | cons n ns ih =>
    intro sel sec
    rw [delkeyWalk, selSubkeyIds_cons]
    by_cases hpk : isPublicSubkeyNode n = true
    · rw [if_pos hpk]
      dsimp only
      by_cases hsel : n.flag.selkey = true
      · rw [if_pos hsel]
        have hm : Option.map (delkeySecMark (nodeKeyid n) false) (some sec) =
            some (delkeySecMark (nodeKeyid n) false sec) := rfl
        rw [hm, ih]
        rw [hpk, hsel]
        simp
      · rw [if_neg hsel]
        rw [ih]
        rw [hpk]
        have : n.flag.selkey = false := eq_false_of_ne_true hsel
        rw [this]
        simp
    · rw [if_neg hpk]
      have hpf : isPublicSubkeyNode n = false := eq_false_of_ne_true hpk
      rw [hpf]
      simp only [Bool.false_and, Bool.false_eq_true, if_false]
      by_cases hsig : (sel && isSignatureNode n) = true
      · rw [if_pos hsig]
        exact ih sel sec
      · rw [if_neg hsig]
        exact ih false sec

theorem foldKeyMark_no_pub (ids : List (Nat × Nat)) :
    ∀ (sec : Keyblock),
      (∀ n ∈ sec, isPublicSubkeyNode n = false) →
      ∀ m ∈ ids.foldl (fun s x => delkeySecMark x false s) sec,
        isPublicSubkeyNode m = false := by
  induction ids with
  | nil => intro sec h; exact h
  | cons x xs ih =>
    intro sec h
    rw [List.foldl_cons]
    exact ih _ (delkeySecMark_no_pub x false sec h)

theorem foldKeyMark_ids (ids : List (Nat × Nat)) :
    ∀ (sec : Keyblock),
      (∀ n ∈ sec, isPublicSubkeyNode n = false) →
      ∀ (k : Nat × Nat),
        k ∈ liveSubkeyIds (ids.foldl (fun s x => delkeySecMark x false s) sec) ↔
          k ∈ liveSubkeyIds sec ∧ k ∉ ids := by
  induction ids with
  | nil => intro sec _ k; simp
  | cons x xs ih =>
    intro sec hpure k
    rw [List.foldl_cons]
    rw [ih _ (delkeySecMark_no_pub x false sec hpure) k]
    rw [delkeySecMark_ids x false sec hpure k]
    constructor
    · intro ⟨⟨h1, h2⟩, h3⟩
      exact ⟨h1, by simp [h2, h3]⟩
    · intro ⟨h1, h2⟩
      simp only [List.mem_cons, not_or] at h2
      exact ⟨⟨h1, h2.1⟩, h2.2⟩

theorem foldKeyMark_names (ids : List (Nat × Nat)) :
    ∀ (sec : Keyblock),
      liveNames (ids.foldl (fun s x => delkeySecMark x false s) sec) = liveNames sec := by
  induction ids with
  | nil => intro sec; rfl
  | cons x xs ih =>
    intro sec
    rw [List.foldl_cons, ih, delkeySecMark_names]

/-- The committed public block of the delkey walk holds exactly the subkey
ids of the unselected subkeys (order preserved). -/
theorem delkeyWalk_pub_subkeys :
    ∀ (kb : Keyblock) (sel : Bool) (sec : Option Keyblock),
      (∀ n ∈ kb, n.deleted = false) →
      liveSubkeyIds (delkeyWalk sel kb sec).1 =
        subkeyIds (kb.filter (fun n => !(isPublicSubkeyNode n && n.flag.selkey))) := by
  intro kb
  induction kb with
  | nil => intro sel sec _; rfl
  | cons n ns ih =>
    intro sel sec hlive
    have hd : n.deleted = false := hlive n (List.mem_cons_self n ns)
    have hlive2 : ∀ x ∈ ns, x.deleted = false :=
      fun x hx => hlive x (List.mem_cons_of_mem n hx)
    rw [delkeyWalk, List.filter_cons]
    by_cases hpk : isPublicSubkeyNode n = true
    · rw [if_pos hpk]
      dsimp only
      by_cases hsel : n.flag.selkey = true
      · simp only [hpk, hsel, Bool.and_self, Bool.not_true, Bool.false_eq_true, if_false,
          eq_self_iff_true, if_true]
        rw [liveSubkeyIds_cons_deleted]
        exact ih true _ hlive2
      · have hself : n.flag.selkey = false := eq_false_of_ne_true hsel
        simp only [hpk, hself, Bool.and_false, Bool.not_false, Bool.false_eq_true, if_false,
          eq_self_iff_true, if_true]
        have hb : (isPublicSubkeyNode n || isSecretSubkeyNode n) = true := by
          rw [hpk]
          rfl
        rw [liveSubkeyIds_cons_live n _ hd, if_pos hb, subkeyIds_cons, if_pos hb]
        rw [ih false sec hlive2]
    · rw [if_neg hpk]
      have hpkf : isPublicSubkeyNode n = false := eq_false_of_ne_true hpk
      simp only [hpkf, Bool.false_and, Bool.not_false, eq_self_iff_true, if_true]
      rw [subkeyIds_cons]
      by_cases hsig : (sel && isSignatureNode n) = true
      · rw [if_pos hsig]
        dsimp only
        rw [liveSubkeyIds_cons_deleted]
        have hs2 : isSignatureNode n = true := (Bool.and_eq_true .. ▸ hsig).2
        have hsseq : isSecretSubkeyNode n = false := by
          rw [isSignatureNode] at hs2
          rw [isSecretSubkeyNode]
          cases hp : n.pkt <;> rw [hp] at hs2 <;> simp at hs2 <;> rfl
        have hbf : (isPublicSubkeyNode n || isSecretSubkeyNode n) = false := by
          rw [hpkf, hsseq]
          rfl
        rw [hbf]
        simp only [Bool.false_eq_true, if_false]
        exact ih sel sec hlive2
      · rw [if_neg hsig]
        dsimp only
        rw [liveSubkeyIds_cons_live n _ hd]
        by_cases hb : (isPublicSubkeyNode n || isSecretSubkeyNode n) = true
        · rw [if_pos hb, if_pos hb]
          rw [ih false sec hlive2]
        · rw [if_neg hb, if_neg hb]
          exact ih false sec hlive2

/-- The delkey walk deletes no uid node: the committed public block keeps
exactly the uid names of the input. -/
theorem delkeyWalk_pub_names :
    ∀ (kb : Keyblock) (sel : Bool) (sec : Option Keyblock),
      (∀ n ∈ kb, n.deleted = false) →
      liveNames (delkeyWalk sel kb sec).1 = uidNames kb := by
  intro kb
  induction kb with
  | nil => intro sel sec _; rfl
  | cons n ns ih =>
    intro sel sec hlive
    have hd : n.deleted = false := hlive n (List.mem_cons_self n ns)
    have hlive2 : ∀ x ∈ ns, x.deleted = false :=
      fun x hx => hlive x (List.mem_cons_of_mem n hx)
    rw [delkeyWalk, uidNames_cons]
    by_cases hpk : isPublicSubkeyNode n = true
    · have hnu : isUserIdNode n = false := by
        rw [isPublicSubkeyNode] at hpk
        rw [isUserIdNode]
        cases hp : n.pkt <;> rw [hp] at hpk <;> simp at hpk <;> rfl
      rw [if_pos hpk, hnu]
      simp only [Bool.false_eq_true, if_false]
      by_cases hsel : n.flag.selkey = true
      · simp only [hsel, eq_self_iff_true, if_true]
        rw [liveNames_cons_deleted]
        exact ih true _ hlive2
      · have hself : n.flag.selkey = false := eq_false_of_ne_true hsel
        simp only [hself, Bool.false_eq_true, if_false]
        rw [liveNames_cons_live n _ hd, hnu]
        simp only [Bool.false_eq_true, if_false]
        exact ih false sec hlive2
    · rw [if_neg hpk]
      by_cases hsig : (sel && isSignatureNode n) = true
      · have hs2 : isSignatureNode n = true := (Bool.and_eq_true .. ▸ hsig).2
        have hnu : isUserIdNode n = false := by
          rw [isSignatureNode] at hs2
          rw [isUserIdNode]
          cases hp : n.pkt <;> rw [hp] at hs2 <;> simp at hs2 <;> rfl
        rw [if_pos hsig, hnu]
        simp only [Bool.false_eq_true, if_false]
        rw [liveNames_cons_deleted]
        exact ih sel sec hlive2
      · rw [if_neg hsig]
        dsimp only
        rw [liveNames_cons_live n _ hd]
        by_cases hb : isUserIdNode n = true
        · rw [if_pos hb, if_pos hb]
          rw [ih false sec hlive2]
        · rw [if_neg hb, if_neg hb]
          exact ih false sec hlive2

/-- Inserting the new uid and its self-signature adds exactly the new name
to the block's uid names. -/
theorem insertUidSig_names (isSub : KbNode → Bool) (uidN sigN : KbNode) (kb : Keyblock)
    (hu : isUserIdNode uidN = true) (hs : isUserIdNode sigN = false) :
    ∀ x, x ∈ uidNames (insertUidSig isSub uidN sigN kb) ↔
      x = uidName uidN ∨ x ∈ uidNames kb := by
  intro x
  rw [insertUidSig]
  have hsplit : kb.takeWhile (fun n => !isSub n) ++ kb.dropWhile (fun n => !isSub n) = kb :=
    List.takeWhile_append_dropWhile _ _
  have hnil : uidNames ([] : Keyblock) = [] := rfl
  by_cases hp : (kb.takeWhile (fun n => !isSub n)).isEmpty = true
  · rw [if_pos hp]
    rw [uidNames_append, uidNames_cons, if_pos hu, uidNames_cons, hs]
    simp only [Bool.false_eq_true, if_false]
    rw [hnil]
    simp only [List.mem_append, List.mem_cons, List.not_mem_nil]
    tauto
  · rw [if_neg hp]
    rw [uidNames_append, uidNames_cons, if_pos hu, uidNames_cons, hs]
    simp only [Bool.false_eq_true, if_false]
    have hk : uidNames (kb.takeWhile (fun n => !isSub n)) ++
        uidNames (kb.dropWhile (fun n => !isSub n)) = uidNames kb := by
      rw [← uidNames_append, hsplit]
    rw [← hk]
    simp only [List.mem_append, List.mem_cons]
    tauto

/-- Inserting the new uid and its self-signature leaves the block's subkey
ids unchanged. -/
theorem insertUidSig_subkeys (isSub : KbNode → Bool) (uidN sigN : KbNode) (kb : Keyblock)
    (hu : (isPublicSubkeyNode uidN || isSecretSubkeyNode uidN) = false)
    (hs : (isPublicSubkeyNode sigN || isSecretSubkeyNode sigN) = false) :
    subkeyIds (insertUidSig isSub uidN sigN kb) = subkeyIds kb := by
  rw [insertUidSig]
  have hsplit : kb.takeWhile (fun n => !isSub n) ++ kb.dropWhile (fun n => !isSub n) = kb :=
    List.takeWhile_append_dropWhile _ _
  have hnil : subkeyIds ([] : Keyblock) = [] := rfl
  by_cases hp : (kb.takeWhile (fun n => !isSub n)).isEmpty = true
  · rw [if_pos hp]
    rw [subkeyIds_append, subkeyIds_cons, hu, subkeyIds_cons, hs]
    simp only [Bool.false_eq_true, if_false]
    rw [hnil, List.append_nil]
  · rw [if_neg hp]
    rw [subkeyIds_append, subkeyIds_cons, hu, subkeyIds_cons, hs]
    simp only [Bool.false_eq_true, if_false]
    rw [← subkeyIds_append, hsplit]

/-- C1 (amended): starting from a live, paired public/secret pair whose
public uid names and subkey ids are duplicate-free (and whose secret block
holds no public-subkey packets), each mutation operation — menu_adduid,
menu_deluid, menu_delkey — preserves the pairing invariant: every uid name
of the public block occurs in the secret block and every subkey key id of
either block occurs in the other.  (Without the duplicate-freedom
hypotheses the invariant can break, see the counterexample.) -/
theorem c1_pairing_amended (newName : List Nat) (mkOk : Bool) (pub sec : Keyblock)
    (hp : paired pub sec)
    (hlp : ∀ n ∈ pub, n.deleted = false)
    (hls : ∀ n ∈ sec, n.deleted = false)
    (hsp : ∀ n ∈ sec, isPublicSubkeyNode n = false)
    (hnn : (uidNames pub).Nodup)
    (hnk : (subkeyIds pub).Nodup) :
    paired (menu_adduid newName mkOk pub sec).2.1 (menu_adduid newName mkOk pub sec).2.2 ∧
    pairedOpt (menu_deluid pub (some sec)) ∧
    pairedOpt (menu_delkey pub (some sec)) := by
  refine ⟨?_, ?_, ?_⟩
  · rw [menu_adduid]
    cases hfpk : adduidFindPk none pub with
    | none =>
      cases hfsk : adduidFindSk none sec with
      | none => exact hp
      | some sk => exact hp
    | some pk =>
      cases hfsk : adduidFindSk none sec with
      | none => exact hp
      | some sk =>
        cases mkOk with
        | false => exact hp
        | true =>
          show paired
            (insertUidSig isPublicSubkeyNode { pkt := Packet.userId newName }
              (selfSigNode sk) pub)
            (insertUidSig isSecretSubkeyNode { pkt := Packet.userId newName }
              (selfSigNode sk) sec)
          have hu : isUserIdNode ({ pkt := Packet.userId newName } : KbNode) = true := rfl
          have hsg : isUserIdNode (selfSigNode sk) = false := rfl
          have hu2 : (isPublicSubkeyNode ({ pkt := Packet.userId newName } : KbNode) ||
              isSecretSubkeyNode ({ pkt := Packet.userId newName } : KbNode)) = false := rfl
          have hs2 : (isPublicSubkeyNode (selfSigNode sk) ||
              isSecretSubkeyNode (selfSigNode sk)) = false := rfl
          refine ⟨?_, ?_, ?_⟩
          · intro nm hm
            rcases (insertUidSig_names isPublicSubkeyNode _ _ pub hu hsg nm).mp hm with h | h
            · exact (insertUidSig_names isSecretSubkeyNode _ _ sec hu hsg nm).mpr (Or.inl h)
            · exact (insertUidSig_names isSecretSubkeyNode _ _ sec hu hsg nm).mpr
                (Or.inr (hp.1 nm h))
          · intro k hk
            rw [insertUidSig_subkeys isPublicSubkeyNode _ _ pub hu2 hs2] at hk
            rw [insertUidSig_subkeys isSecretSubkeyNode _ _ sec hu2 hs2]
            exact hp.2.1 k hk
          · intro k hk
            rw [insertUidSig_subkeys isSecretSubkeyNode _ _ sec hu2 hs2] at hk
            rw [insertUidSig_subkeys isPublicSubkeyNode _ _ pub hu2 hs2]
            exact hp.2.2 k hk
  · rw [menu_deluid]
    rw [deluidWalk_sec pub false sec]
    show paired (commit_kbnode (deluidWalk false pub (some sec)).1)
      (commit_kbnode ((selUidNames pub).foldl (fun s x => deluidSecMark x false s) sec))
    have hnamesPub : uidNames (commit_kbnode (deluidWalk false pub (some sec)).1) =
        uidNames (pub.filter (fun n => !(isUserIdNode n && n.flag.seluid))) :=
      deluidWalk_pub_names pub false (some sec) hlp
    have hsubPub : subkeyIds (commit_kbnode (deluidWalk false pub (some sec)).1) =
        subkeyIds pub :=
      deluidWalk_pub_subkeys pub false (some sec) hlp
    have hcs : commit_kbnode sec = sec := commit_of_live sec hls
    refine ⟨?_, ?_, ?_⟩
    · intro nm hm
      rw [hnamesPub] at hm
      have h1 : 0 <
          (uidNames (pub.filter (fun n => !(isUserIdNode n && n.flag.seluid)))).count nm :=
        List.count_pos_iff.mpr hm
      have h2 := uidNames_count_split pub nm
      have h3 := nodup_count_le_one (uidNames pub) hnn nm
      have hnotsel : nm ∉ selUidNames pub := by
        rw [← List.count_eq_zero]
        omega
      have hinpub : nm ∈ uidNames pub := by
        rw [← List.count_pos_iff]
        omega
      have hlsec : nm ∈ liveNames sec := by
        show nm ∈ uidNames (commit_kbnode sec)
        rw [hcs]
        exact hp.1 nm hinpub
      exact (foldMark_names (selUidNames pub) sec nm).mpr ⟨hlsec, hnotsel⟩
    · intro k hk
      rw [hsubPub] at hk
      show k ∈ liveSubkeyIds ((selUidNames pub).foldl (fun s x => deluidSecMark x false s) sec)
      rw [foldMark_subkeys]
      show k ∈ subkeyIds (commit_kbnode sec)
      rw [hcs]
      exact hp.2.1 k hk
    · intro k hk
      have hk2 : k ∈ liveSubkeyIds
          ((selUidNames pub).foldl (fun s x => deluidSecMark x false s) sec) := hk
      rw [foldMark_subkeys] at hk2
      have hk3 : k ∈ subkeyIds sec := by
        rw [liveSubkeyIds, hcs] at hk2
        exact hk2
      rw [hsubPub]
      exact hp.2.2 k hk3
  · rw [menu_delkey]
    rw [delkeyWalk_sec pub false sec]
    show paired (commit_kbnode (delkeyWalk false pub (some sec)).1)
      (commit_kbnode ((selSubkeyIds pub).foldl (fun s x => delkeySecMark x false s) sec))
    have hnamesPub : uidNames (commit_kbnode (delkeyWalk false pub (some sec)).1) =
        uidNames pub :=
      delkeyWalk_pub_names pub false (some sec) hlp
    have hsubPub : subkeyIds (commit_kbnode (delkeyWalk false pub (some sec)).1) =
        subkeyIds (pub.filter (fun n => !(isPublicSubkeyNode n && n.flag.selkey))) :=
      delkeyWalk_pub_subkeys pub false (some sec) hlp
    have hcs : commit_kbnode sec = sec := commit_of_live sec hls
    refine ⟨?_, ?_, ?_⟩
    · intro nm hm
      rw [hnamesPub] at hm
      show nm ∈ liveNames ((selSubkeyIds pub).foldl (fun s x => delkeySecMark x false s) sec)
      rw [foldKeyMark_names]
      show nm ∈ uidNames (commit_kbnode sec)
      rw [hcs]
      exact hp.1 nm hm
    · intro k hk
      rw [hsubPub] at hk
      have h1 : 0 <
          (subkeyIds (pub.filter (fun n => !(isPublicSubkeyNode n && n.flag.selkey)))).count k :=
        List.count_pos_iff.mpr hk
      have h2 := subkeyIds_count_split pub k
      have h3 := nodup_count_le_one (subkeyIds pub) hnk k
      have hnotsel : k ∉ selSubkeyIds pub := by
        rw [← List.count_eq_zero]
        omega
      have hinpub : k ∈ subkeyIds pub := by
        rw [← List.count_pos_iff]
        omega
      have hlsec : k ∈ liveSubkeyIds sec := by
        show k ∈ subkeyIds (commit_kbnode sec)
        rw [hcs]
        exact hp.2.1 k hinpub
      exact (foldKeyMark_ids (selSubkeyIds pub) sec hsp k).mpr ⟨hlsec, hnotsel⟩
    · intro k hk
      have hk2 := (foldKeyMark_ids (selSubkeyIds pub) sec hsp k).mp hk
      have hk3 : k ∈ subkeyIds sec := by
        have h4 := hk2.1
        rw [liveSubkeyIds, hcs] at h4
        exact h4
      have hinpub : k ∈ subkeyIds pub := hp.2.2 k hk3
      rw [hsubPub]
      have h2 := subkeyIds_count_split pub k
      have h4 : (selSubkeyIds pub).count k = 0 := List.count_eq_zero.mpr hk2.2
      have h5 : 0 < (subkeyIds pub).count k := List.count_pos_iff.mpr hinpub
      rw [← List.count_pos_iff]
      omega

theorem c1_pairing_amended_witness :
    (paired
        [{ pkt := Packet.publicKey 1 1 }, { pkt := Packet.userId [10] },
          { pkt := Packet.signature 1 1 19 (SigCheck.ok true) },
          { pkt := Packet.userId [11], flag := { seluid := true } },
          { pkt := Packet.publicSubkey 2 2, flag := { selkey := true } },
          { pkt := Packet.publicSubkey 3 3 }]
        [{ pkt := Packet.secretKey { keyid0 := 1, keyid1 := 1 } },
          { pkt := Packet.userId [10] }, { pkt := Packet.userId [11] },
          { pkt := Packet.secretSubkey { keyid0 := 2, keyid1 := 2 } },
          { pkt := Packet.secretSubkey { keyid0 := 3, keyid1 := 3 } }]) ∧
    (paired
        (menu_adduid [55] true
          [{ pkt := Packet.publicKey 1 1 }, { pkt := Packet.userId [10] },
            { pkt := Packet.signature 1 1 19 (SigCheck.ok true) },
            { pkt := Packet.userId [11], flag := { seluid := true } },
            { pkt := Packet.publicSubkey 2 2, flag := { selkey := true } },
            { pkt := Packet.publicSubkey 3 3 }]
          [{ pkt := Packet.secretKey { keyid0 := 1, keyid1 := 1 } },
            { pkt := Packet.userId [10] }, { pkt := Packet.userId [11] },
            { pkt := Packet.secretSubkey { keyid0 := 2, keyid1 := 2 } },
            { pkt := Packet.secretSubkey { keyid0 := 3, keyid1 := 3 } }]).2.1
        (menu_adduid [55] true
          [{ pkt := Packet.publicKey 1 1 }, { pkt := Packet.userId [10] },
            { pkt := Packet.signature 1 1 19 (SigCheck.ok true) },
            { pkt := Packet.userId [11], flag := { seluid := true } },
            { pkt := Packet.publicSubkey 2 2, flag := { selkey := true } },
            { pkt := Packet.publicSubkey 3 3 }]
          [{ pkt := Packet.secretKey { keyid0 := 1, keyid1 := 1 } },
            { pkt := Packet.userId [10] }, { pkt := Packet.userId [11] },
            { pkt := Packet.secretSubkey { keyid0 := 2, keyid1 := 2 } },
            { pkt := Packet.secretSubkey { keyid0 := 3, keyid1 := 3 } }]).2.2 ∧
      pairedOpt
        (menu_deluid
          [{ pkt := Packet.publicKey 1 1 }, { pkt := Packet.userId [10] },
            { pkt := Packet.signature 1 1 19 (SigCheck.ok true) },
            { pkt := Packet.userId [11], flag := { seluid := true } },
            { pkt := Packet.publicSubkey 2 2, flag := { selkey := true } },
            { pkt := Packet.publicSubkey 3 3 }]
          (some
            [{ pkt := Packet.secretKey { keyid0 := 1, keyid1 := 1 } },
              { pkt := Packet.userId [10] }, { pkt := Packet.userId [11] },
              { pkt := Packet.secretSubkey { keyid0 := 2, keyid1 := 2 } },
              { pkt := Packet.secretSubkey { keyid0 := 3, keyid1 := 3 } }])) ∧
      pairedOpt
        (menu_delkey
          [{ pkt := Packet.publicKey 1 1 }, { pkt := Packet.userId [10] },
            { pkt := Packet.signature 1 1 19 (SigCheck.ok true) },
            { pkt := Packet.userId [11], flag := { seluid := true } },
            { pkt := Packet.publicSubkey 2 2, flag := { selkey := true } },
            { pkt := Packet.publicSubkey 3 3 }]
          (some
            [{ pkt := Packet.secretKey { keyid0 := 1, keyid1 := 1 } },
              { pkt := Packet.userId [10] }, { pkt := Packet.userId [11] },
              { pkt := Packet.secretSubkey { keyid0 := 2, keyid1 := 2 } },
              { pkt := Packet.secretSubkey { keyid0 := 3, keyid1 := 3 } }]))) :=
  ⟨by decide,
    c1_pairing_amended [55] true _ _ (by decide) (by decide) (by decide) (by decide)
      (by decide) (by decide)⟩

/-- Does the keyblock hold a PublicKey node (the node that keeps primary_pk
non-null at the end of the reloop scan)? -/
def hasPubkeyNode (kb : Keyblock) : Bool :=
  kb.any (fun n => isPublicKeyNode n)

theorem lastPubkeyFrom_cons (pk : Option (Nat × Nat)) (n : KbNode) (ns : Keyblock) :
    lastPubkeyFrom pk (n :: ns) =
      lastPubkeyFrom (match n.pkt with | .publicKey a b => some (a, b) | _ => pk) ns := rfl

theorem lastPubkeyFrom_isSome :
    ∀ (kb : Keyblock) (pk : Option (Nat × Nat)),
      (hasPubkeyNode kb = true ∨ pk.isSome = true) →
      (lastPubkeyFrom pk kb).isSome = true := by
  intro kb
  induction kb with
  | nil =>
    intro pk h
    rcases h with h | h
    · simp [hasPubkeyNode] at h
    · simpa [lastPubkeyFrom] using h
  | cons n ns ih =>
    intro pk h
    rw [lastPubkeyFrom_cons]
    cases hp : n.pkt
    case publicKey a b =>
      exact ih _ (Or.inr rfl)
    all_goals {
      apply ih
      rcases h with h | h
      · left
        have h2 : hasPubkeyNode (n :: ns) = (isPublicKeyNode n || hasPubkeyNode ns) := rfl
        rw [h2, isPublicKeyNode, hp] at h
        simpa using h
      · right
        exact h
    }

theorem isPublicKeyNode_markPhase_fn (sa : Bool) (n : KbNode) :
    isPublicKeyNode (if sa || n.flag.seluid then { n with flag := { n.flag with markA := true } }
      else { n with flag := { n.flag with markA := false } }) = isPublicKeyNode n := by
  by_cases h : (sa || n.flag.seluid) = true
  · rw [if_pos h]
    rfl
  · rw [if_neg h]
    rfl

theorem hasPubkeyNode_markPhase (sa : Bool) :
    ∀ (kb : Keyblock), hasPubkeyNode (markPhase sa kb) = hasPubkeyNode kb := by
  intro kb
  induction kb with
  | nil => rfl
  | cons n ns ih =>
    have h1 : hasPubkeyNode (markPhase sa (n :: ns)) =
        (isPublicKeyNode
            (if sa || n.flag.seluid then { n with flag := { n.flag with markA := true } }
             else { n with flag := { n.flag with markA := false } }) ||
          hasPubkeyNode (markPhase sa ns)) := rfl
    rw [h1, isPublicKeyNode_markPhase_fn, ih]
    rfl

theorem hasPubkeyNode_clearAlready (k0 k1 : Nat) :
    ∀ (kb : Keyblock), hasPubkeyNode (clearAlreadySigned k0 k1 kb) = hasPubkeyNode kb := by
  intro kb
  induction kb with
  | nil => rfl
  | cons n ns ih =>
    rw [clearAlreadySigned]
    by_cases h : (isUserIdNode n && n.flag.markA && hasCertBySigner k0 k1 ns) = true
    · rw [if_pos h]
      have h1 : hasPubkeyNode ({ n with flag := { n.flag with markA := false } } ::
          clearAlreadySigned k0 k1 ns) =
          (isPublicKeyNode n || hasPubkeyNode (clearAlreadySigned k0 k1 ns)) := rfl
      rw [h1, ih]
      rfl
    · rw [if_neg h]
      have h1 : hasPubkeyNode (n :: clearAlreadySigned k0 k1 ns) =
          (isPublicKeyNode n || hasPubkeyNode (clearAlreadySigned k0 k1 ns)) := rfl
      rw [h1, ih]
      rfl

/-- Behaviour of the reloop when every make_keysig_packet call succeeds: it
never fails, keeps the PublicKey node, ends with a non-null primary_pk, and
sets ret_modified and upd_trust exactly when at least one marked uid was
signed. -/
theorem signReloop_spec (mks : Nat → Bool) (k0 k1 : Nat)
    (hmks : ∀ m, mks m = true) :
    ∀ (st : SignState), hasPubkeyNode st.kb = true → st.failed = false →
      (signReloop mks k0 k1 st).failed = false ∧
      hasPubkeyNode (signReloop mks k0 k1 st).kb = true ∧
      (signReloop mks k0 k1 st).primary_pk.isSome = true ∧
      (signReloop mks k0 k1 st).modified =
        (st.modified || (countMarkedUids st.kb != 0)) ∧
      (signReloop mks k0 k1 st).upd_trust =
        (st.upd_trust || (countMarkedUids st.kb != 0)) := by
  intro st
  induction st using signReloop.induct mks k0 k1 with
  | case1 st h =>
    intro hpk hf
    rw [signReloop, h]
    have hc : countMarkedUids st.kb = 0 := splitAtMarkedUid_none.mp h
    refine ⟨hf, hpk, lastPubkeyFrom_isSome st.kb none (Or.inl hpk), ?_, ?_⟩
    · rw [hc]
      simp
    · rw [hc]
      simp
  | case2 st pre u suf h u2 hcond ih =>
    intro hpk hf
    rw [signReloop, h]
    dsimp only
    rw [if_pos hcond]
    obtain ⟨he, hu, hm⟩ := splitAtMarkedUid_eq h
    have e1 : isPublicKeyNode ({ u with flag := { u.flag with markA := false } }) =
        isPublicKeyNode u := rfl
    have e2 : isPublicKeyNode (newCertSigNode k0 k1) = false := rfl
    have hpk2 : hasPubkeyNode (pre ++ { u with flag := { u.flag with markA := false } } ::
        newCertSigNode k0 k1 :: suf) = true := by
      rw [he] at hpk
      simp only [hasPubkeyNode, List.any_append, List.any_cons, e1, e2] at hpk ⊢
      simpa using hpk
    obtain ⟨ihf, ihpk, ihsome, ihmod, ihut⟩ := ih hpk2 hf
    have hcnt : (countMarkedUids st.kb != 0) = true := by
      rw [he, countMarkedUids_append, countMarkedUids_cons, hu, hm]
      simp only [Bool.and_self, if_pos rfl]
      simp [bne_iff_ne]
    refine ⟨ihf, ihpk, ihsome, ?_, ?_⟩
    · rw [ihmod, hcnt]
      dsimp only
      simp
    · rw [ihut, hcnt]
      dsimp only
      simp
  | case3 st pre u suf h hcond =>
    exact absurd (hmks st.calls) hcond

/-- One signer-loop iteration, when make_keysig_packet always succeeds:
it never fails, keeps the PublicKey node, keeps upd_trust equal to the
modified flag, and keeps primary_pk non-null once upd_trust is set. -/
theorem signOneSigner_spec (mks : Nat → Bool) (sa : Bool) (hmks : ∀ m, mks m = true)
    (st : SignState) (s : Signer)
    (h1 : hasPubkeyNode st.kb = true) (h2 : st.failed = false)
    (h3 : st.upd_trust = st.modified)
    (h4 : st.upd_trust = true → st.primary_pk.isSome = true) :
    (signOneSigner mks sa st s).failed = false ∧
    hasPubkeyNode (signOneSigner mks sa st s).kb = true ∧
    (signOneSigner mks sa st s).upd_trust = (signOneSigner mks sa st s).modified ∧
    ((signOneSigner mks sa st s).upd_trust = true →
      (signOneSigner mks sa st s).primary_pk.isSome = true) := by
  rw [signOneSigner, h2]
  simp only [Bool.false_eq_true, if_false]
  have hpk2 : hasPubkeyNode (clearAlreadySigned s.keyid0 s.keyid1 (markPhase sa st.kb)) = true := by
    rw [hasPubkeyNode_clearAlready, hasPubkeyNode_markPhase]
    exact h1
  by_cases hc : count_uids_with_flag
      (clearAlreadySigned s.keyid0 s.keyid1 (markPhase sa st.kb)) (fun f => f.markA) = 0
  · rw [if_pos hc]
    exact ⟨rfl, hpk2, h3, h4⟩
  · rw [if_neg hc]
    by_cases ha : (!s.answer) = true
    · rw [if_pos ha]
      exact ⟨rfl, hpk2, h3, h4⟩
    · rw [if_neg ha]
      obtain ⟨rf, rpk, rsome, rmod, rut⟩ :=
        signReloop_spec mks s.keyid0 s.keyid1 hmks
          { st with
              kb := clearAlreadySigned s.keyid0 s.keyid1 (markPhase sa st.kb)
              failed := false }
          hpk2 rfl
      refine ⟨rf, rpk, ?_, fun _ => rsome⟩
      rw [rut, rmod]
      dsimp only
      rw [h3]

/-- The signer-loop fold, when make_keysig_packet always succeeds: it never
fails, keeps the PublicKey node, keeps upd_trust equal to the modified
flag, and keeps primary_pk non-null as soon as upd_trust is set. -/
theorem signFold_spec (mks : Nat → Bool) (sa : Bool)
    (hmks : ∀ m, mks m = true) :
    ∀ (signers : List Signer) (st : SignState),
      hasPubkeyNode st.kb = true → st.failed = false →
      st.upd_trust = st.modified →
      (st.upd_trust = true → st.primary_pk.isSome = true) →
      (signers.foldl (signOneSigner mks sa) st).failed = false ∧
      hasPubkeyNode (signers.foldl (signOneSigner mks sa) st).kb = true ∧
      (signers.foldl (signOneSigner mks sa) st).upd_trust =
        (signers.foldl (signOneSigner mks sa) st).modified ∧
      ((signers.foldl (signOneSigner mks sa) st).upd_trust = true →
        (signers.foldl (signOneSigner mks sa) st).primary_pk.isSome = true) := by
  intro signers
  induction signers with
  | nil => intro st h1 h2 h3 h4; exact ⟨h2, h1, h3, h4⟩
  | cons s ss ih =>
    intro st h1 h2 h3 h4
    rw [List.foldl_cons]
    obtain ⟨g1, g2, g3, g4⟩ := signOneSigner_spec mks sa hmks st s h1 h2 h3 h4
    exact ih (signOneSigner mks sa st s) g2 g1 g3 g4

/-- C7: trust-cache clearing of sign_uids.  On a keyblock holding a
PublicKey node, with build_sk_list succeeding and every make_keysig_packet
call succeeding (so the run processes all signers instead of jumping to
leave), clear_trust_checked_flag is invoked on the primary after the
signer loop exactly when at least one signature was produced during the
run, i.e. exactly when the run reports the keyblock modified. -/
theorem c7_trust_clear (mks : Nat → Bool) (signers : List Signer) (kb : Keyblock)
    (hmks : ∀ m, mks m = true)
    (hpk : hasPubkeyNode kb = true) :
    ((sign_uids mks true signers kb false).trust_cleared = true ↔
      (sign_uids mks true signers kb false).modified = true) := by
  rw [sign_uids]
  simp only [Bool.not_true, Bool.false_eq_true, if_false]
  obtain ⟨gf, gpk, gut, gsome⟩ :=
    signFold_spec mks (count_selected_uids kb == 0) hmks signers { kb := kb } hpk rfl rfl
      (fun h => Bool.noConfusion h)
  simp only [gf, Bool.false_eq_true, if_false]
  rw [gut]
  simp only [Bool.false_or]
  constructor
  · intro hx
    simp only [Bool.and_eq_true] at hx
    exact hx.1
  · intro hx
    rw [hx, gsome (gut.trans hx)]
    rfl

theorem c7_trust_clear_witness :
    ((∀ m, (fun _ => true : Nat → Bool) m = true) ∧
      hasPubkeyNode [{ pkt := Packet.publicKey 1 2 }, { pkt := Packet.userId [3] }] = true) ∧
    ((sign_uids (fun _ => true) true [{ keyid0 := 9, keyid1 := 9 }]
        [{ pkt := Packet.publicKey 1 2 }, { pkt := Packet.userId [3] }]
        false).trust_cleared = true ↔
      (sign_uids (fun _ => true) true [{ keyid0 := 9, keyid1 := 9 }]
        [{ pkt := Packet.publicKey 1 2 }, { pkt := Packet.userId [3] }]
        false).modified = true) :=
  ⟨⟨fun _ => rfl, by decide⟩,
    c7_trust_clear (fun _ => true) [{ keyid0 := 9, keyid1 := 9 }]
      [{ pkt := Packet.publicKey 1 2 }, { pkt := Packet.userId [3] }] (fun _ => rfl)
      (by decide)⟩

/-- The reloop, when every make_keysig_packet call succeeds, leaves no
marked user id behind and never trips the failure exit. -/
theorem signReloop_marks (mks : Nat → Bool) (k0 k1 : Nat) (hmks : ∀ m, mks m = true) :
    ∀ (st : SignState),
      (signReloop mks k0 k1 st).failed = st.failed ∧
      countMarkedUids (signReloop mks k0 k1 st).kb = 0 := by
  intro st
  induction st using signReloop.induct mks k0 k1 with
  | case1 st h =>
    rw [signReloop, h]
    exact ⟨rfl, splitAtMarkedUid_none.mp h⟩
  | case2 st pre u suf h u2 hcond ih =>
    rw [signReloop, h]
    dsimp only
    rw [if_pos hcond]
    exact ih
  | case3 st pre u suf h hcond =>
    exact absurd (hmks st.calls) hcond

/-- One signer iteration with confirmation answered yes and succeeding
make_keysig_packet leaves no marked user id. -/
theorem signOneSigner_marks (mks : Nat → Bool) (sa : Bool) (hmks : ∀ m, mks m = true)
    (st : SignState) (s : Signer) (hans : s.answer = true) (h2 : st.failed = false) :
    (signOneSigner mks sa st s).failed = false ∧
    countMarkedUids (signOneSigner mks sa st s).kb = 0 := by
  rw [signOneSigner, h2]
  simp only [Bool.false_eq_true, if_false]
  by_cases hc : count_uids_with_flag
      (clearAlreadySigned s.keyid0 s.keyid1 (markPhase sa st.kb)) (fun f => f.markA) = 0
  · rw [if_pos hc]
    exact ⟨rfl, hc⟩
  · rw [if_neg hc]
    rw [hans]
    simp only [Bool.not_true, Bool.false_eq_true, if_false]
    obtain ⟨a, b⟩ := signReloop_marks mks s.keyid0 s.keyid1 hmks
      { st with
          kb := clearAlreadySigned s.keyid0 s.keyid1 (markPhase sa st.kb)
          failed := false }
    exact ⟨a, b⟩

theorem signFold_marks (mks : Nat → Bool) (sa : Bool) (hmks : ∀ m, mks m = true) :
    ∀ (ss : List Signer) (st : SignState), (∀ s ∈ ss, s.answer = true) →
      st.failed = false → countMarkedUids st.kb = 0 →
      (ss.foldl (signOneSigner mks sa) st).failed = false ∧
      countMarkedUids (ss.foldl (signOneSigner mks sa) st).kb = 0 := by
  intro ss
  induction ss with
  | nil => intro st _ h2 h3; exact ⟨h2, h3⟩
  | cons s ss ih =>
    intro st hans h2 _
    rw [List.foldl_cons]
    obtain ⟨g1, g2⟩ := signOneSigner_marks mks sa hmks st s
      (hans s (List.mem_cons_self s ss)) h2
    exact ih _ (fun x hx => hans x (List.mem_cons_of_mem s hx)) g1 g2

/-- C4 (amended): after sign_uids returns, no UserId node carries the
transient MARK_A flag, provided at least one signer is processed, every
per-signer confirmation is answered yes and every make_keysig_packet call
succeeds.  (Non-UserId nodes touched by the mark pass can retain MARK_A,
and a declined confirmation or a signing failure leaves MARK_A set even on
user ids, see the counterexample.) -/
theorem c4_markA_amended (mks : Nat → Bool) (signers : List Signer) (kb : Keyblock)
    (rm : Bool)
    (hmks : ∀ m, mks m = true)
    (hans : ∀ s ∈ signers, s.answer = true)
    (hne : signers ≠ []) :
    countMarkedUids (sign_uids mks true signers kb rm).kb = 0 := by
  rw [sign_uids]
  simp only [Bool.not_true, Bool.false_eq_true, if_false]
  obtain ⟨s, ss, rfl⟩ : ∃ s ss, signers = s :: ss := by
    cases signers with
    | nil => exact absurd rfl hne
    | cons a as => exact ⟨a, as, rfl⟩
  rw [List.foldl_cons]
  obtain ⟨g1, g2⟩ := signOneSigner_marks mks (count_selected_uids kb == 0) hmks
    { kb := kb } s (hans s (List.mem_cons_self s ss)) rfl
  obtain ⟨f1, f2⟩ := signFold_marks mks (count_selected_uids kb == 0) hmks ss
    (signOneSigner mks (count_selected_uids kb == 0) { kb := kb } s)
    (fun x hx => hans x (List.mem_cons_of_mem s hx)) g1 g2
  simp only [f1, Bool.false_eq_true, if_false]
  exact f2

theorem c4_markA_amended_witness :
    ((∀ m, (fun _ => true : Nat → Bool) m = true) ∧
      (∀ s ∈ [({ keyid0 := 9, keyid1 := 9 } : Signer)], s.answer = true) ∧
      ([({ keyid0 := 9, keyid1 := 9 } : Signer)] ≠ [])) ∧
    countMarkedUids (sign_uids (fun _ => true) true [{ keyid0 := 9, keyid1 := 9 }]
      [{ pkt := Packet.publicKey 1 2 },
        { pkt := Packet.userId [3], flag := { markA := true } }] false).kb = 0 :=
  ⟨⟨fun _ => rfl, by decide, by decide⟩,
    c4_markA_amended (fun _ => true) [{ keyid0 := 9, keyid1 := 9 }]
      [{ pkt := Packet.publicKey 1 2 },
        { pkt := Packet.userId [3], flag := { markA := true } }] false
      (fun _ => rfl) (by decide) (by decide)⟩

/-- Number of certification-class signature nodes carrying the given signer
key id. -/
def certCountBy (k0 k1 : Nat) (kb : Keyblock) : Nat :=
  kb.countP (fun n => isCertSigNode n && sigMatchesKey k0 k1 n)

/-- Candidate uids of one signer pass: uids the mark pass would select
(select_all or NODFLG_SELUID) whose following signature group holds no
certification by the signer key id. -/
def candUids (k0 k1 : Nat) (sa : Bool) : Keyblock → Nat
  | [] => 0
  | n :: ns =>
    (if isUserIdNode n && (sa || n.flag.seluid) && !hasCertBySigner k0 k1 ns then 1 else 0) +
      candUids k0 k1 sa ns

/-- Marked uids whose group holds no certification by the signer key id:
what remains marked after the already-signed pass. -/
def markedUnsigned (k0 k1 : Nat) : Keyblock → Nat
  | [] => 0
  | n :: ns =>
    (if isUserIdNode n && n.flag.markA && !hasCertBySigner k0 k1 ns then 1 else 0) +
      markedUnsigned k0 k1 ns

/-- Selected uids that are neither marked nor already certified by the
signer: the reloop keeps this at zero. -/
def pendingUids (k0 k1 : Nat) (sa : Bool) : Keyblock → Nat
  | [] => 0
  | n :: ns =>
    (if isUserIdNode n && (sa || n.flag.seluid) && !n.flag.markA &&
        !hasCertBySigner k0 k1 ns then 1 else 0) +
      pendingUids k0 k1 sa ns

theorem hasCertBySigner_cons (k0 k1 : Nat) (n : KbNode) (ns : Keyblock) :
    hasCertBySigner k0 k1 (n :: ns) =
      if isUserIdNode n then false
      else if isCertSigNode n && sigMatchesKey k0 k1 n then true
      else hasCertBySigner k0 k1 ns := rfl

theorem candUids_cons (k0 k1 : Nat) (sa : Bool) (n : KbNode) (ns : Keyblock) :
    candUids k0 k1 sa (n :: ns) =
      (if isUserIdNode n && (sa || n.flag.seluid) && !hasCertBySigner k0 k1 ns then 1 else 0) +
        candUids k0 k1 sa ns := rfl

theorem markedUnsigned_cons (k0 k1 : Nat) (n : KbNode) (ns : Keyblock) :
    markedUnsigned k0 k1 (n :: ns) =
      (if isUserIdNode n && n.flag.markA && !hasCertBySigner k0 k1 ns then 1 else 0) +
        markedUnsigned k0 k1 ns := rfl

theorem pendingUids_cons (k0 k1 : Nat) (sa : Bool) (n : KbNode) (ns : Keyblock) :
    pendingUids k0 k1 sa (n :: ns) =
      (if isUserIdNode n && (sa || n.flag.seluid) && !n.flag.markA &&
          !hasCertBySigner k0 k1 ns then 1 else 0) +
        pendingUids k0 k1 sa ns := rfl

theorem markPhase_cons (sa : Bool) (n : KbNode) (ns : Keyblock) :
    markPhase sa (n :: ns) =
      (if sa || n.flag.seluid then { n with flag := { n.flag with markA := true } }
       else { n with flag := { n.flag with markA := false } }) :: markPhase sa ns := rfl

theorem hasCertBySigner_cons_flag (k0 k1 : Nat) (n : KbNode) (f : NodeFlags) (ns ms : Keyblock)
    (h : hasCertBySigner k0 k1 ns = hasCertBySigner k0 k1 ms) :
    hasCertBySigner k0 k1 ({ n with flag := f } :: ns) = hasCertBySigner k0 k1 (n :: ms) := by
  rw [hasCertBySigner_cons, hasCertBySigner_cons]
  have e1 : isUserIdNode ({ n with flag := f }) = isUserIdNode n := rfl
  have e2 : isCertSigNode ({ n with flag := f }) = isCertSigNode n := rfl
  have e3 : sigMatchesKey k0 k1 ({ n with flag := f }) = sigMatchesKey k0 k1 n := rfl
  rw [e1, e2, e3, h]

theorem hasCertBySigner_markPhase (k0 k1 : Nat) (sb : Bool) :
    ∀ kb, hasCertBySigner k0 k1 (markPhase sb kb) = hasCertBySigner k0 k1 kb := by
  intro kb
  induction kb with
  | nil => rfl
  | cons n ns ih =>
    rw [markPhase_cons]
    by_cases hs : (sb || n.flag.seluid) = true
    · rw [if_pos hs]
      exact hasCertBySigner_cons_flag k0 k1 n _ _ _ ih
    · rw [if_neg hs]
      exact hasCertBySigner_cons_flag k0 k1 n _ _ _ ih

theorem hasCertBySigner_clear (k0 k1 j0 j1 : Nat) :
    ∀ kb, hasCertBySigner k0 k1 (clearAlreadySigned j0 j1 kb) = hasCertBySigner k0 k1 kb := by
  intro kb
  induction kb with
  | nil => rfl
  | cons n ns ih =>
    rw [clearAlreadySigned]
    by_cases h : (isUserIdNode n && n.flag.markA && hasCertBySigner j0 j1 ns) = true
    · rw [if_pos h]
      exact hasCertBySigner_cons_flag k0 k1 n _ _ _ ih
    · rw [if_neg h]
      rw [hasCertBySigner_cons, hasCertBySigner_cons, ih]

theorem hasCertBySigner_stop (k0 k1 : Nat) :
    ∀ (xs : Keyblock) (u v : KbNode) (rest rest2 : Keyblock),
      isUserIdNode u = true → isUserIdNode v = true →
      hasCertBySigner k0 k1 (xs ++ u :: rest) = hasCertBySigner k0 k1 (xs ++ v :: rest2) := by
  intro xs
  induction xs with
  | nil =>
    intro u v rest rest2 hu hv
    rw [List.nil_append, List.nil_append, hasCertBySigner_cons, hasCertBySigner_cons, hu, hv]
    simp
  | cons x xs ih =>
    intro u v rest rest2 hu hv
    rw [List.cons_append, List.cons_append, hasCertBySigner_cons, hasCertBySigner_cons]
    rw [ih u v rest rest2 hu hv]

theorem candUids_cons_flag (k0 k1 : Nat) (sa : Bool) (n : KbNode) (f : NodeFlags)
    (hsel : f.seluid = n.flag.seluid) (ns ms : Keyblock)
    (hh : hasCertBySigner k0 k1 ns = hasCertBySigner k0 k1 ms)
    (hc : candUids k0 k1 sa ns = candUids k0 k1 sa ms) :
    candUids k0 k1 sa ({ n with flag := f } :: ns) = candUids k0 k1 sa (n :: ms) := by
  rw [candUids_cons, candUids_cons]
  have e1 : isUserIdNode ({ n with flag := f }) = isUserIdNode n := rfl
  have e2 : ({ n with flag := f } : KbNode).flag = f := rfl
  rw [e1, hh, hc, e2, hsel]

theorem candUids_markPhase (k0 k1 : Nat) (sa sb : Bool) :
    ∀ kb, candUids k0 k1 sa (markPhase sb kb) = candUids k0 k1 sa kb := by
  intro kb
  induction kb with
  | nil => rfl
  | cons n ns ih =>
    rw [markPhase_cons]
    by_cases hs : (sb || n.flag.seluid) = true
    · rw [if_pos hs]
      exact candUids_cons_flag k0 k1 sa n _ rfl _ _ (hasCertBySigner_markPhase k0 k1 sb ns) ih
    · rw [if_neg hs]
      exact candUids_cons_flag k0 k1 sa n _ rfl _ _ (hasCertBySigner_markPhase k0 k1 sb ns) ih

theorem candUids_clear (k0 k1 j0 j1 : Nat) (sa : Bool) :
    ∀ kb, candUids k0 k1 sa (clearAlreadySigned j0 j1 kb) = candUids k0 k1 sa kb := by
  intro kb
  induction kb with
  | nil => rfl
  | cons n ns ih =>
    rw [clearAlreadySigned]
    by_cases h : (isUserIdNode n && n.flag.markA && hasCertBySigner j0 j1 ns) = true
    · rw [if_pos h]
      exact candUids_cons_flag k0 k1 sa n _ rfl _ _ (hasCertBySigner_clear k0 k1 j0 j1 ns) ih
    · rw [if_neg h]
      rw [candUids_cons, candUids_cons, hasCertBySigner_clear, ih]

/-- The already-signed pass turns marked uids into marked-and-unsigned
counts: after it, the marked uids are exactly those lacking a certification
by the signer. -/
theorem countMarked_clear (k0 k1 : Nat) :
    ∀ kb, countMarkedUids (clearAlreadySigned k0 k1 kb) = markedUnsigned k0 k1 kb := by
  intro kb
  induction kb with
  | nil => rfl
  | cons n ns ih =>
    rw [clearAlreadySigned, markedUnsigned_cons]
    by_cases h : (isUserIdNode n && n.flag.markA && hasCertBySigner k0 k1 ns) = true
    · rw [if_pos h]
      rw [countMarkedUids_cons]
      have e1 : isUserIdNode ({ n with flag := { n.flag with markA := false } }) =
          isUserIdNode n := rfl
      have e2 : ({ n with flag := { n.flag with markA := false } } : KbNode).flag.markA =
          false := rfl
      rw [e1, e2]
      have h3 : hasCertBySigner k0 k1 ns = true := by
        have := h
        simp only [Bool.and_eq_true] at this
        exact this.2
      rw [h3, ih]
      simp
    · rw [if_neg h]
      rw [countMarkedUids_cons, ih]
      by_cases hu : (isUserIdNode n && n.flag.markA) = true
      · have h4 : hasCertBySigner k0 k1 ns = false := by
          by_cases hcrt : hasCertBySigner k0 k1 ns = true
          · exact absurd (by rw [hu, hcrt]; rfl : (isUserIdNode n && n.flag.markA &&
              hasCertBySigner k0 k1 ns) = true) h
          · exact eq_false_of_ne_true hcrt
        simp only [Bool.and_eq_true] at hu
        rw [hu.1, hu.2, h4]
        simp
      · have hu2 : (isUserIdNode n && n.flag.markA) = false := eq_false_of_ne_true hu
        rw [hu2]
        simp

/-- The mark pass turns selected uids into marked uids: marked-and-unsigned
after it is exactly the candidate count. -/
theorem markedUnsigned_markPhase (k0 k1 : Nat) (sa : Bool) :
    ∀ kb, markedUnsigned k0 k1 (markPhase sa kb) = candUids k0 k1 sa kb := by
  intro kb
  induction kb with
  | nil => rfl
  | cons n ns ih =>
    rw [markPhase_cons, candUids_cons]
    by_cases hs : (sa || n.flag.seluid) = true
    · rw [if_pos hs, markedUnsigned_cons]
      have e1 : isUserIdNode ({ n with flag := { n.flag with markA := true } }) =
          isUserIdNode n := rfl
      have e2 : ({ n with flag := { n.flag with markA := true } } : KbNode).flag.markA =
          true := rfl
      rw [e1, e2, hasCertBySigner_markPhase, ih, hs]
    · rw [if_neg hs, markedUnsigned_cons]
      have e1 : isUserIdNode ({ n with flag := { n.flag with markA := false } }) =
          isUserIdNode n := rfl
      have e2 : ({ n with flag := { n.flag with markA := false } } : KbNode).flag.markA =
          false := rfl
      have hs2 : (sa || n.flag.seluid) = false := eq_false_of_ne_true hs
      rw [e1, e2, hasCertBySigner_markPhase, ih, hs2]

theorem pendingUids_markPhase (k0 k1 : Nat) (sa : Bool) :
    ∀ kb, pendingUids k0 k1 sa (markPhase sa kb) = 0 := by
  intro kb
  induction kb with
  | nil => rfl
  | cons n ns ih =>
    rw [markPhase_cons]
    by_cases hs : (sa || n.flag.seluid) = true
    · rw [if_pos hs, pendingUids_cons]
      have e2 : ({ n with flag := { n.flag with markA := true } } : KbNode).flag.markA =
          true := rfl
      rw [e2, ih]
      simp
    · rw [if_neg hs, pendingUids_cons]
      have e1 : isUserIdNode ({ n with flag := { n.flag with markA := false } }) =
          isUserIdNode n := rfl
      have e3 : ({ n with flag := { n.flag with markA := false } } : KbNode).flag.seluid =
          n.flag.seluid := rfl
      have hs2 : (sa || n.flag.seluid) = false := eq_false_of_ne_true hs
      rw [e1, ih]
      rw [show ({ n with flag := { n.flag with markA := false } } : KbNode).flag.seluid =
          n.flag.seluid from rfl]
      rw [hs2]
      simp

theorem pendingUids_clear (k0 k1 : Nat) (sa : Bool) :
    ∀ kb, pendingUids k0 k1 sa (clearAlreadySigned k0 k1 kb) = pendingUids k0 k1 sa kb := by
  intro kb
  induction kb with
  | nil => rfl
  | cons n ns ih =>
    rw [clearAlreadySigned, pendingUids_cons]
    by_cases h : (isUserIdNode n && n.flag.markA && hasCertBySigner k0 k1 ns) = true
    · rw [if_pos h, pendingUids_cons]
      have e2 : ({ n with flag := { n.flag with markA := false } } : KbNode).flag.markA =
          false := rfl
      rw [e2, hasCertBySigner_clear, ih]
      simp only [Bool.and_eq_true] at h
      rw [h.1.2, h.2]
      simp
    · rw [if_neg h, pendingUids_cons, hasCertBySigner_clear, ih]

theorem pendingUids_insert (k0 k1 : Nat) (sa : Bool) (u : KbNode)
    (hu : isUserIdNode u = true) (hm : u.flag.markA = true) :
    ∀ (pre suf : Keyblock),
      pendingUids k0 k1 sa
        (pre ++ { u with flag := { u.flag with markA := false } } ::
          newCertSigNode k0 k1 :: suf) =
      pendingUids k0 k1 sa (pre ++ u :: suf) := by
  have hcert : ∀ suf : Keyblock,
      hasCertBySigner k0 k1 (newCertSigNode k0 k1 :: suf) = true := by
    intro suf
    rw [hasCertBySigner_cons]
    have e1 : isUserIdNode (newCertSigNode k0 k1) = false := rfl
    have e2 : isCertSigNode (newCertSigNode k0 k1) = true := rfl
    have e3 : sigMatchesKey k0 k1 (newCertSigNode k0 k1) = true := by
      show (k0 == k0 && k1 == k1) = true
      simp
    rw [e1, e2, e3]
    rfl
  intro pre
  induction pre with
  | nil =>
    intro suf
    rw [List.nil_append, List.nil_append, pendingUids_cons, pendingUids_cons, pendingUids_cons]
    have e1 : isUserIdNode ({ u with flag := { u.flag with markA := false } }) =
        isUserIdNode u := rfl
    have e4 : isUserIdNode (newCertSigNode k0 k1) = false := rfl
    rw [e1, e4, hcert suf, hm]
    simp
  | cons p pre ih =>
    intro suf
    rw [List.cons_append, List.cons_append, pendingUids_cons, pendingUids_cons]
    rw [ih suf]
    have hstop : hasCertBySigner k0 k1
        (pre ++ { u with flag := { u.flag with markA := false } } ::
          newCertSigNode k0 k1 :: suf) =
        hasCertBySigner k0 k1 (pre ++ u :: suf) :=
      hasCertBySigner_stop k0 k1 pre _ u _ _ hu hu
    rw [hstop]

theorem signReloop_pending (mks : Nat → Bool) (k0 k1 : Nat) (sa : Bool)
    (hmks : ∀ m, mks m = true) :
    ∀ st : SignState, pendingUids k0 k1 sa st.kb = 0 →
      pendingUids k0 k1 sa (signReloop mks k0 k1 st).kb = 0 := by
  intro st
  induction st using signReloop.induct mks k0 k1 with
  | case1 st h =>
    intro hp
    rw [signReloop, h]
    exact hp
  | case2 st pre u suf h u2 hcond ih =>
    intro hp
    rw [signReloop, h]
    dsimp only
    rw [if_pos hcond]
    apply ih
    obtain ⟨he, hu, hm⟩ := splitAtMarkedUid_eq h
    show pendingUids k0 k1 sa
      (pre ++ { u with flag := { u.flag with markA := false } } ::
        newCertSigNode k0 k1 :: suf) = 0
    rw [pendingUids_insert k0 k1 sa u hu hm pre suf, ← he]
    exact hp
  | case3 st pre u suf h hcond =>
    exact absurd (hmks st.calls) hcond

theorem candUids_le (k0 k1 : Nat) (sa : Bool) :
    ∀ kb, candUids k0 k1 sa kb ≤ pendingUids k0 k1 sa kb + countMarkedUids kb := by
  intro kb
  induction kb with
  | nil =>
    simp [candUids, pendingUids, countMarkedUids, count_uids_with_flag]
  | cons n ns ih =>
    rw [candUids_cons, pendingUids_cons, countMarkedUids_cons]
    have hterm : (if isUserIdNode n && (sa || n.flag.seluid) &&
          !hasCertBySigner k0 k1 ns then 1 else 0) ≤
        (if isUserIdNode n && (sa || n.flag.seluid) && !n.flag.markA &&
            !hasCertBySigner k0 k1 ns then 1 else 0) +
          (if isUserIdNode n && n.flag.markA then 1 else 0) := by
      by_cases hc : (isUserIdNode n && (sa || n.flag.seluid) &&
          !hasCertBySigner k0 k1 ns) = true
      · rw [if_pos hc]
        by_cases hmm : n.flag.markA = true
        · have h2 : (isUserIdNode n && n.flag.markA) = true := by
            simp only [Bool.and_eq_true] at hc
            rw [hc.1.1, hmm]
            rfl
          rw [if_pos h2]
          omega
        · have hmm2 : n.flag.markA = false := eq_false_of_ne_true hmm
          have h2 : (isUserIdNode n && (sa || n.flag.seluid) && !n.flag.markA &&
              !hasCertBySigner k0 k1 ns) = true := by
            simp only [Bool.and_eq_true] at hc ⊢
            exact ⟨⟨⟨hc.1.1, hc.1.2⟩, by rw [hmm2]; rfl⟩, hc.2⟩
          rw [if_pos h2]
          omega
      · rw [if_neg hc]
        omega
    omega

theorem certCountBy_cons (k0 k1 : Nat) (n : KbNode) (ns : Keyblock) :
    certCountBy k0 k1 (n :: ns) =
      (if isCertSigNode n && sigMatchesKey k0 k1 n then 1 else 0) + certCountBy k0 k1 ns := by
  simp only [certCountBy, List.countP_cons]
  by_cases h : (isCertSigNode n && sigMatchesKey k0 k1 n) = true
  · simp [h]
    omega
  · simp [h]

theorem certCountBy_append (a b : Keyblock) (k0 k1 : Nat) :
    certCountBy k0 k1 (a ++ b) = certCountBy k0 k1 a + certCountBy k0 k1 b := by
  simp [certCountBy, List.countP_append]

theorem certCountBy_cons_flag (k0 k1 : Nat) (n : KbNode) (f : NodeFlags) (ns ms : Keyblock)
    (h : certCountBy k0 k1 ns = certCountBy k0 k1 ms) :
    certCountBy k0 k1 ({ n with flag := f } :: ns) = certCountBy k0 k1 (n :: ms) := by
  rw [certCountBy_cons, certCountBy_cons]
  have e2 : isCertSigNode ({ n with flag := f }) = isCertSigNode n := rfl
  have e3 : sigMatchesKey k0 k1 ({ n with flag := f }) = sigMatchesKey k0 k1 n := rfl
  rw [e2, e3, h]

theorem certCountBy_markPhase (k0 k1 : Nat) (sb : Bool) :
    ∀ kb, certCountBy k0 k1 (markPhase sb kb) = certCountBy k0 k1 kb := by
  intro kb
  induction kb with
  | nil => rfl
  | cons n ns ih =>
    rw [markPhase_cons]
    by_cases hs : (sb || n.flag.seluid) = true
    · rw [if_pos hs]
      exact certCountBy_cons_flag k0 k1 n _ _ _ ih
    · rw [if_neg hs]
      exact certCountBy_cons_flag k0 k1 n _ _ _ ih

theorem certCountBy_clear (k0 k1 j0 j1 : Nat) :
    ∀ kb, certCountBy k0 k1 (clearAlreadySigned j0 j1 kb) = certCountBy k0 k1 kb := by
  intro kb
  induction kb with
  | nil => rfl
  | cons n ns ih =>
    rw [clearAlreadySigned]
    by_cases h : (isUserIdNode n && n.flag.markA && hasCertBySigner j0 j1 ns) = true
    · rw [if_pos h]
      exact certCountBy_cons_flag k0 k1 n _ _ _ ih
    · rw [if_neg h]
      rw [certCountBy_cons, certCountBy_cons, ih]

theorem countSel_cons (n : KbNode) (ns : Keyblock) :
    count_selected_uids (n :: ns) =
      (if isUserIdNode n && n.flag.seluid then 1 else 0) + count_selected_uids ns := by
  simp only [count_selected_uids, count_uids_with_flag, List.countP_cons]
  by_cases h : (isUserIdNode n && n.flag.seluid) = true
  · simp [h]
    omega
  · simp [h]

theorem countSel_append (a b : Keyblock) :
    count_selected_uids (a ++ b) = count_selected_uids a + count_selected_uids b := by
  simp [count_selected_uids, count_uids_with_flag, List.countP_append]

theorem countSel_cons_flag (n : KbNode) (f : NodeFlags) (hsel : f.seluid = n.flag.seluid)
    (ns ms : Keyblock) (h : count_selected_uids ns = count_selected_uids ms) :
    count_selected_uids ({ n with flag := f } :: ns) = count_selected_uids (n :: ms) := by
  rw [countSel_cons, countSel_cons]
  have e1 : isUserIdNode ({ n with flag := f }) = isUserIdNode n := rfl
  have e2 : ({ n with flag := f } : KbNode).flag = f := rfl
  rw [e1, e2, hsel, h]

theorem countSel_markPhase (sb : Bool) :
    ∀ kb, count_selected_uids (markPhase sb kb) = count_selected_uids kb := by
  intro kb
  induction kb with
  | nil => rfl
  | cons n ns ih =>
    rw [markPhase_cons]
    by_cases hs : (sb || n.flag.seluid) = true
    · rw [if_pos hs]
      exact countSel_cons_flag n _ rfl _ _ ih
    · rw [if_neg hs]
      exact countSel_cons_flag n _ rfl _ _ ih

theorem countSel_clear (j0 j1 : Nat) :
    ∀ kb, count_selected_uids (clearAlreadySigned j0 j1 kb) = count_selected_uids kb := by
  intro kb
  induction kb with
  | nil => rfl
  | cons n ns ih =>
    rw [clearAlreadySigned]
    by_cases h : (isUserIdNode n && n.flag.markA && hasCertBySigner j0 j1 ns) = true
    · rw [if_pos h]
      exact countSel_cons_flag n _ rfl _ _ ih
    · rw [if_neg h]
      rw [countSel_cons, countSel_cons, ih]

/-- Each pass of the reloop inserts exactly one certification by the signer
key id per marked uid (when make_keysig_packet always succeeds). -/
theorem signReloop_cert (mks : Nat → Bool) (k0 k1 : Nat) (hmks : ∀ m, mks m = true) :
    ∀ st : SignState,
      certCountBy k0 k1 (signReloop mks k0 k1 st).kb =
        certCountBy k0 k1 st.kb + countMarkedUids st.kb := by
  intro st
  induction st using signReloop.induct mks k0 k1 with
  | case1 st h =>
    rw [signReloop, h]
    have hc : countMarkedUids st.kb = 0 := splitAtMarkedUid_none.mp h
    rw [hc]
    show certCountBy k0 k1 st.kb = certCountBy k0 k1 st.kb + 0
    omega
  | case2 st pre u suf h u2 hcond ih =>
    rw [signReloop, h]
    dsimp only
    rw [if_pos hcond]
    obtain ⟨he, hu, hm⟩ := splitAtMarkedUid_eq h
    have hA : certCountBy k0 k1 (pre ++ { u with flag := { u.flag with markA := false } } ::
        newCertSigNode k0 k1 :: suf) =
        certCountBy k0 k1 pre + ((if isCertSigNode u && sigMatchesKey k0 k1 u then 1 else 0) +
          (1 + certCountBy k0 k1 suf)) := by
      rw [certCountBy_append, certCountBy_cons, certCountBy_cons]
      have e2 : isCertSigNode ({ u with flag := { u.flag with markA := false } }) =
          isCertSigNode u := rfl
      have e3 : sigMatchesKey k0 k1 ({ u with flag := { u.flag with markA := false } }) =
          sigMatchesKey k0 k1 u := rfl
      have e4 : (isCertSigNode (newCertSigNode k0 k1) &&
          sigMatchesKey k0 k1 (newCertSigNode k0 k1)) = true := by
        have a1 : isCertSigNode (newCertSigNode k0 k1) = true := rfl
        have a2 : sigMatchesKey k0 k1 (newCertSigNode k0 k1) = true := by
          show (k0 == k0 && k1 == k1) = true
          simp
        rw [a1, a2]
        rfl
      rw [e2, e3, e4]
      simp
    have hB : certCountBy k0 k1 st.kb =
        certCountBy k0 k1 pre + ((if isCertSigNode u && sigMatchesKey k0 k1 u then 1 else 0) +
          certCountBy k0 k1 suf) := by
      rw [he, certCountBy_append, certCountBy_cons]
    have hC : countMarkedUids st.kb = countMarkedUids pre + (1 + countMarkedUids suf) := by
      rw [he, countMarkedUids_append, countMarkedUids_cons, hu, hm]
      simp
    have hD : countMarkedUids (pre ++ { u with flag := { u.flag with markA := false } } ::
        newCertSigNode k0 k1 :: suf) =
        countMarkedUids pre + countMarkedUids suf := by
      rw [countMarkedUids_append, countMarkedUids_cons, countMarkedUids_cons]
      have e1 : (isUserIdNode ({ u with flag := { u.flag with markA := false } } : KbNode) &&
          ({ u with flag := { u.flag with markA := false } } : KbNode).flag.markA) = false := by
        show (isUserIdNode u && false) = false
        rw [Bool.and_false]
      have e5 : (isUserIdNode (newCertSigNode k0 k1) &&
          (newCertSigNode k0 k1).flag.markA) = false := rfl
      rw [e1, e5]
      simp
    rw [ih]
    show certCountBy k0 k1 (pre ++ { u with flag := { u.flag with markA := false } } ::
        newCertSigNode k0 k1 :: suf) +
      countMarkedUids (pre ++ { u with flag := { u.flag with markA := false } } ::
        newCertSigNode k0 k1 :: suf) =
      certCountBy k0 k1 st.kb + countMarkedUids st.kb
    rw [hA, hB, hC, hD]
    omega
  | case3 st pre u suf h hcond =>
    exact absurd (hmks st.calls) hcond

/-- The reloop does not touch the NODFLG_SELUID flags. -/
theorem signReloop_sel (mks : Nat → Bool) (k0 k1 : Nat) (hmks : ∀ m, mks m = true) :
    ∀ st : SignState,
      count_selected_uids (signReloop mks k0 k1 st).kb = count_selected_uids st.kb := by
  intro st
  induction st using signReloop.induct mks k0 k1 with
  | case1 st h =>
    rw [signReloop, h]
  | case2 st pre u suf h u2 hcond ih =>
    rw [signReloop, h]
    dsimp only
    rw [if_pos hcond]
    obtain ⟨he, hu, hm⟩ := splitAtMarkedUid_eq h
    rw [ih]
    show count_selected_uids (pre ++ { u with flag := { u.flag with markA := false } } ::
        newCertSigNode k0 k1 :: suf) = count_selected_uids st.kb
    have hA : count_selected_uids (pre ++ { u with flag := { u.flag with markA := false } } ::
        newCertSigNode k0 k1 :: suf) =
        count_selected_uids pre + ((if isUserIdNode u && u.flag.seluid then 1 else 0) +
          count_selected_uids suf) := by
      rw [countSel_append, countSel_cons, countSel_cons]
      have e1 : (isUserIdNode ({ u with flag := { u.flag with markA := false } } : KbNode) &&
          ({ u with flag := { u.flag with markA := false } } : KbNode).flag.seluid) =
          (isUserIdNode u && u.flag.seluid) := rfl
      have e2 : (isUserIdNode (newCertSigNode k0 k1) &&
          (newCertSigNode k0 k1).flag.seluid) = false := rfl
      rw [e1, e2]
      simp
    have hB : count_selected_uids st.kb =
        count_selected_uids pre + ((if isUserIdNode u && u.flag.seluid then 1 else 0) +
          count_selected_uids suf) := by
      rw [he, countSel_append, countSel_cons]
    rw [hA, hB]
  | case3 st pre u suf h hcond =>
    exact absurd (hmks st.calls) hcond

/-- One signer iteration (confirmation yes, make_keysig always succeeding):
it adds exactly one certification by the signer key per candidate uid,
leaves no candidate uid behind, and does not change the selected-uid
count. -/
theorem signOneSigner_run1 (mks : Nat → Bool) (sa : Bool) (hmks : ∀ m, mks m = true)
    (st : SignState) (s : Signer) (hans : s.answer = true) (h2 : st.failed = false) :
    certCountBy s.keyid0 s.keyid1 (signOneSigner mks sa st s).kb =
      certCountBy s.keyid0 s.keyid1 st.kb + candUids s.keyid0 s.keyid1 sa st.kb ∧
    candUids s.keyid0 s.keyid1 sa (signOneSigner mks sa st s).kb = 0 ∧
    count_selected_uids (signOneSigner mks sa st s).kb = count_selected_uids st.kb := by
  rw [signOneSigner, h2]
  simp only [Bool.false_eq_true, if_false]
  have hcand2 : candUids s.keyid0 s.keyid1 sa
      (clearAlreadySigned s.keyid0 s.keyid1 (markPhase sa st.kb)) =
      candUids s.keyid0 s.keyid1 sa st.kb := by
    rw [candUids_clear, candUids_markPhase]
  have hcert2 : certCountBy s.keyid0 s.keyid1
      (clearAlreadySigned s.keyid0 s.keyid1 (markPhase sa st.kb)) =
      certCountBy s.keyid0 s.keyid1 st.kb := by
    rw [certCountBy_clear, certCountBy_markPhase]
  have hsel2 : count_selected_uids
      (clearAlreadySigned s.keyid0 s.keyid1 (markPhase sa st.kb)) =
      count_selected_uids st.kb := by
    rw [countSel_clear, countSel_markPhase]
  have hmarked : countMarkedUids
      (clearAlreadySigned s.keyid0 s.keyid1 (markPhase sa st.kb)) =
      candUids s.keyid0 s.keyid1 sa st.kb := by
    rw [countMarked_clear, markedUnsigned_markPhase]
  by_cases hc : count_uids_with_flag
      (clearAlreadySigned s.keyid0 s.keyid1 (markPhase sa st.kb)) (fun f => f.markA) = 0
  · rw [if_pos hc]
    have hcand0 : candUids s.keyid0 s.keyid1 sa st.kb = 0 := by
      rw [← hmarked]
      exact hc
    refine ⟨?_, ?_, ?_⟩
    · show certCountBy s.keyid0 s.keyid1
        (clearAlreadySigned s.keyid0 s.keyid1 (markPhase sa st.kb)) = _
      rw [hcert2, hcand0]
      omega
    · show candUids s.keyid0 s.keyid1 sa
        (clearAlreadySigned s.keyid0 s.keyid1 (markPhase sa st.kb)) = 0
      rw [hcand2, hcand0]
    · show count_selected_uids
        (clearAlreadySigned s.keyid0 s.keyid1 (markPhase sa st.kb)) = _
      exact hsel2
  · rw [if_neg hc]
    rw [hans]
    simp only [Bool.not_true, Bool.false_eq_true, if_false]
    have hpend : pendingUids s.keyid0 s.keyid1 sa
        (clearAlreadySigned s.keyid0 s.keyid1 (markPhase sa st.kb)) = 0 := by
      rw [pendingUids_clear, pendingUids_markPhase]
    refine ⟨?_, ?_, ?_⟩
    · rw [signReloop_cert mks s.keyid0 s.keyid1 hmks]
      show certCountBy s.keyid0 s.keyid1
          (clearAlreadySigned s.keyid0 s.keyid1 (markPhase sa st.kb)) +
        countMarkedUids (clearAlreadySigned s.keyid0 s.keyid1 (markPhase sa st.kb)) = _
      rw [hcert2, hmarked]
    · have p1 := signReloop_pending mks s.keyid0 s.keyid1 sa hmks
        { st with
            kb := clearAlreadySigned s.keyid0 s.keyid1 (markPhase sa st.kb)
            failed := false } hpend
      have p2 := (signReloop_marks mks s.keyid0 s.keyid1 hmks
        { st with
            kb := clearAlreadySigned s.keyid0 s.keyid1 (markPhase sa st.kb)
            failed := false }).2
      have p3 := candUids_le s.keyid0 s.keyid1 sa
        (signReloop mks s.keyid0 s.keyid1
          { st with
              kb := clearAlreadySigned s.keyid0 s.keyid1 (markPhase sa st.kb)
              failed := false }).kb
      omega
    · rw [signReloop_sel mks s.keyid0 s.keyid1 hmks]
      show count_selected_uids
          (clearAlreadySigned s.keyid0 s.keyid1 (markPhase sa st.kb)) = _
      exact hsel2

theorem sign_uids_single_kb (mks : Nat → Bool) (s : Signer) (kb : Keyblock) (rm : Bool) :
    (sign_uids mks true [s] kb rm).kb =
      (signOneSigner mks (count_selected_uids kb == 0) { kb := kb } s).kb := by
  rw [sign_uids]
  simp only [Bool.not_true, Bool.false_eq_true, if_false]
  rw [List.foldl_cons, List.foldl_nil]
  by_cases hf : (signOneSigner mks (count_selected_uids kb == 0) { kb := kb } s).failed = true
  · rw [if_pos hf]
  · rw [if_neg hf]

/-- C5: idempotence of signing with one signer.  The first run adds exactly
one certification by the signer key id per candidate uid (selected uid
without such a certification); running sign_uids again with the same
signer over the result inserts no signature (every uid already carrying
the signer's certification has its MARK_A cleared by the already-signed
pass, leaving nothing to sign) and ends with no marked uid.  Hypotheses:
the confirmation is answered yes and make_keysig_packet always succeeds. -/
theorem c5_sign_idempotent (mks mks2 : Nat → Bool) (s : Signer) (kb : Keyblock)
    (hmks : ∀ m, mks m = true) (hmks2 : ∀ m, mks2 m = true) (hans : s.answer = true) :
    certCountBy s.keyid0 s.keyid1 (sign_uids mks true [s] kb false).kb =
      certCountBy s.keyid0 s.keyid1 kb +
        candUids s.keyid0 s.keyid1 (count_selected_uids kb == 0) kb ∧
    certCountBy s.keyid0 s.keyid1
        (sign_uids mks2 true [s] (sign_uids mks true [s] kb false).kb false).kb =
      certCountBy s.keyid0 s.keyid1 (sign_uids mks true [s] kb false).kb ∧
    countMarkedUids
        (sign_uids mks2 true [s] (sign_uids mks true [s] kb false).kb false).kb = 0 := by
  have r1 := signOneSigner_run1 mks (count_selected_uids kb == 0) hmks { kb := kb } s hans rfl
  have r1a : certCountBy s.keyid0 s.keyid1
      (signOneSigner mks (count_selected_uids kb == 0) { kb := kb } s).kb =
      certCountBy s.keyid0 s.keyid1 kb +
        candUids s.keyid0 s.keyid1 (count_selected_uids kb == 0) kb := r1.1
  have r1b : candUids s.keyid0 s.keyid1 (count_selected_uids kb == 0)
      (signOneSigner mks (count_selected_uids kb == 0) { kb := kb } s).kb = 0 := r1.2.1
  have r1c : count_selected_uids
      (signOneSigner mks (count_selected_uids kb == 0) { kb := kb } s).kb =
      count_selected_uids kb := r1.2.2
  rw [sign_uids_single_kb mks s kb false]
  rw [sign_uids_single_kb mks2 s
    (signOneSigner mks (count_selected_uids kb == 0) { kb := kb } s).kb false]
  have hsa : (count_selected_uids
      (signOneSigner mks (count_selected_uids kb == 0) { kb := kb } s).kb == 0) =
      (count_selected_uids kb == 0) := by
    rw [r1c]
  have r2 := signOneSigner_run1 mks2 (count_selected_uids
      (signOneSigner mks (count_selected_uids kb == 0) { kb := kb } s).kb == 0) hmks2
    { kb := (signOneSigner mks (count_selected_uids kb == 0) { kb := kb } s).kb } s hans rfl
  have r2a : certCountBy s.keyid0 s.keyid1
      (signOneSigner mks2 (count_selected_uids
          (signOneSigner mks (count_selected_uids kb == 0) { kb := kb } s).kb == 0)
        { kb := (signOneSigner mks (count_selected_uids kb == 0) { kb := kb } s).kb } s).kb =
      certCountBy s.keyid0 s.keyid1
          (signOneSigner mks (count_selected_uids kb == 0) { kb := kb } s).kb +
        candUids s.keyid0 s.keyid1 (count_selected_uids
            (signOneSigner mks (count_selected_uids kb == 0) { kb := kb } s).kb == 0)
          (signOneSigner mks (count_selected_uids kb == 0) { kb := kb } s).kb := r2.1
  have r2cand : candUids s.keyid0 s.keyid1 (count_selected_uids
      (signOneSigner mks (count_selected_uids kb == 0) { kb := kb } s).kb == 0)
      (signOneSigner mks (count_selected_uids kb == 0) { kb := kb } s).kb = 0 := by
    rw [hsa]
    exact r1b
  have r3 : countMarkedUids
      (signOneSigner mks2 (count_selected_uids
          (signOneSigner mks (count_selected_uids kb == 0) { kb := kb } s).kb == 0)
        { kb := (signOneSigner mks (count_selected_uids kb == 0) { kb := kb } s).kb } s).kb =
      0 :=
    (signOneSigner_marks mks2 _ hmks2
      { kb := (signOneSigner mks (count_selected_uids kb == 0) { kb := kb } s).kb } s
      hans rfl).2
  refine ⟨r1a, ?_, r3⟩
  rw [r2a, r2cand]
  omega

theorem c5_sign_idempotent_witness :
    ((∀ m, (fun _ => true : Nat → Bool) m = true) ∧
      ({ keyid0 := 9, keyid1 := 9 } : Signer).answer = true) ∧
    (certCountBy 9 9 (sign_uids (fun _ => true) true [{ keyid0 := 9, keyid1 := 9 }]
        [{ pkt := Packet.publicKey 1 2 }, { pkt := Packet.userId [3] },
          { pkt := Packet.userId [4] }] false).kb =
      certCountBy 9 9
          [{ pkt := Packet.publicKey 1 2 }, { pkt := Packet.userId [3] },
            { pkt := Packet.userId [4] }] +
        candUids 9 9 (count_selected_uids
            [{ pkt := Packet.publicKey 1 2 }, { pkt := Packet.userId [3] },
              { pkt := Packet.userId [4] }] == 0)
          [{ pkt := Packet.publicKey 1 2 }, { pkt := Packet.userId [3] },
            { pkt := Packet.userId [4] }] ∧
      certCountBy 9 9 (sign_uids (fun _ => true) true [{ keyid0 := 9, keyid1 := 9 }]
          (sign_uids (fun _ => true) true [{ keyid0 := 9, keyid1 := 9 }]
            [{ pkt := Packet.publicKey 1 2 }, { pkt := Packet.userId [3] },
              { pkt := Packet.userId [4] }] false).kb false).kb =
        certCountBy 9 9 (sign_uids (fun _ => true) true [{ keyid0 := 9, keyid1 := 9 }]
          [{ pkt := Packet.publicKey 1 2 }, { pkt := Packet.userId [3] },
            { pkt := Packet.userId [4] }] false).kb ∧
      countMarkedUids (sign_uids (fun _ => true) true [{ keyid0 := 9, keyid1 := 9 }]
          (sign_uids (fun _ => true) true [{ keyid0 := 9, keyid1 := 9 }]
            [{ pkt := Packet.publicKey 1 2 }, { pkt := Packet.userId [3] },
              { pkt := Packet.userId [4] }] false).kb false).kb = 0) :=
  ⟨⟨fun _ => rfl, rfl⟩,
    c5_sign_idempotent (fun _ => true) (fun _ => true) { keyid0 := 9, keyid1 := 9 }
      [{ pkt := Packet.publicKey 1 2 }, { pkt := Packet.userId [3] },
        { pkt := Packet.userId [4] }] (fun _ => rfl) (fun _ => rfl) rfl⟩

end Keyedit
